import Mathlib

/-!
# Quadrant-chart converter (`converter.js`): parser and renderer model

A shallow embedding of `parseMermaid` and `generateDrawioXml` from
`src/converter.js`.

* JavaScript strings are modelled as `List Char` (`Str`).  The program only
  compares characters, searches for substrings and slices, so working with
  code points instead of UTF-16 code units changes nothing it can observe.
* JavaScript numbers are modelled as `JSNumber`: `NaN`, the two infinities, or
  a finite double given by its exact rational value.  Every operation that
  rounds in IEEE 754 binary64 rounds here too: `roundDouble` maps an exact
  rational to the nearest double, ties to even, with gradual underflow and
  overflow to infinity, and `parseFloat`, `+`, `-`, `*` and `/` return the
  rounded result.  The two zeros are identified: the program never divides by
  a computed value, and a zero is printed as `0` whatever its sign, so the sign
  of zero cannot be observed.
* The regular expression of the data-point rule is embedded as the
  backtracking matcher `regexExec`, which follows the ECMAScript priority
  order (leftmost start, greedy `(.+)` tried longest first).  The theorems
  `regexExec_sound` and `regexExec_complete` relate it to the pattern read as
  a set of matches (`IsMatch`).
* `generateDrawioXml` is embedded as the function building the element tree
  (`Document`): header attributes, the two structural cells and the list of
  shapes appended by `addCell`.  The clock value is an argument; turning the
  tree into text is the work of the XML library and is not modelled.
-/

set_option autoImplicit false

namespace QuadrantChart

/-- A JavaScript string, as its list of characters. -/
abbrev Str := List Char

/-! ## Character classes -/

/-- ECMAScript `LineTerminator`: LF, CR, LS, PS.  The regex atom `.` matches
every character except these. -/
def isLineTerminator (c : Char) : Bool :=
  c.toNat = 0x0A || c.toNat = 0x0D || c.toNat = 0x2028 || c.toNat = 0x2029

/-- ECMAScript `WhiteSpace` together with `LineTerminator`: the characters
removed by `String.prototype.trim` and matched by the regex class `\s`. -/
def isWhiteSpace (c : Char) : Bool :=
  c.toNat = 0x09 || c.toNat = 0x0A || c.toNat = 0x0B || c.toNat = 0x0C ||
  c.toNat = 0x0D || c.toNat = 0x20 || c.toNat = 0xA0 || c.toNat = 0x1680 ||
  (0x2000 ≤ c.toNat && c.toNat ≤ 0x200A) ||
  c.toNat = 0x2028 || c.toNat = 0x2029 || c.toNat = 0x202F ||
  c.toNat = 0x205F || c.toNat = 0x3000 || c.toNat = 0xFEFF

/-- The regex class `\d`: the ten ASCII digits. -/
def isDigit (c : Char) : Bool := 0x30 ≤ c.toNat && c.toNat ≤ 0x39

/-- The regex class `[\d\.]`: an ASCII digit or a full stop. -/
def isNumChar (c : Char) : Bool := isDigit c || c == '.'

/-! ## String primitives -/

/-- The method `s.startsWith(pat)`. -/
def startsWith (s pat : Str) : Bool := pat.isPrefixOf s

/-- The method `s.includes(pat)`: `pat` occurs somewhere in `s`. -/
def includes : Str → Str → Bool
  | [], pat => pat.isEmpty
  | c :: rest, pat => pat.isPrefixOf (c :: rest) || includes rest pat

/-- The method `s.trim()`: strip leading and trailing white space. -/
def trim (s : Str) : Str := (s.dropWhile isWhiteSpace).rdropWhile isWhiteSpace

/-- The method `s.replace(pat, rep)` for a string pattern: only the first occurrence of
`pat` is replaced (`rep` contains no `$` here). -/
def replaceFirst (pat rep : Str) : Str → Str
  | [] => if pat.isEmpty then rep else []
  | c :: rest =>
    if pat.isPrefixOf (c :: rest) then rep ++ (c :: rest).drop pat.length
    else c :: replaceFirst pat rep rest

/-- Put a character in front of the first piece of a split. -/
def consHead (c : Char) : List Str → List Str
  | [] => [[c]]
  | p :: ps => (c :: p) :: ps

/-- Worker of `split`: `skip` counts the characters of a separator occurrence
that are still to be passed over. -/
def splitAux (sep : Str) : Str → Nat → List Str
  | [], _ => [[]]
  | _ :: rest, skip + 1 => splitAux sep rest skip
  | c :: rest, 0 =>
    if sep.isPrefixOf (c :: rest) then [] :: splitAux sep rest (sep.length - 1)
    else consHead c (splitAux sep rest 0)

/-- The method `s.split(sep)` for a non-empty separator string: the pieces between the
successive non-overlapping occurrences of `sep`, scanning left to right. -/
def split (s sep : Str) : List Str := splitAux sep s 0

/-! ## Numbers -/

/-- A JavaScript number: `NaN`, a finite double given by its exact value, or
one of the two infinities.  The values `fin q` produced by the program are
doubles, because every operation below rounds its result with `roundDouble`. -/
inductive JSNumber where
  | nan : JSNumber
  | fin : ℚ → JSNumber
  | posInf : JSNumber
  | negInf : JSNumber
  deriving DecidableEq, Repr

/-- Round a rational to the nearest integer, a tie going to the even neighbour. -/
def roundHalfEven (m : ℚ) : ℤ :=
  if m - ⌊m⌋ < 1 / 2 then ⌊m⌋
  else if 1 / 2 < m - ⌊m⌋ then ⌊m⌋ + 1
  else if ⌊m⌋ % 2 = 0 then ⌊m⌋ else ⌊m⌋ + 1

/-- The binary exponent used to represent a positive rational as a double: the
exponent of its leading bit, and `-1022` for the subnormal range. -/
def doubleExponent (q : ℚ) : ℤ := max (Int.log 2 q) (-1022)

/-- Round a positive rational to a multiple of the spacing of the doubles of
its binade (53 significant bits), ties to even. -/
def roundPos (q : ℚ) : ℚ :=
  (roundHalfEven (q / 2 ^ (doubleExponent q - 52)) : ℚ) * 2 ^ (doubleExponent q - 52)

/-- The IEEE 754 binary64 value of an exact result under the default rounding
(to nearest, ties to even): results of magnitude `2 ^ 1024` or more after
rounding become an infinity, tiny results become subnormal or zero. -/
def roundDouble (q : ℚ) : JSNumber :=
  if q = 0 then .fin 0
  else if 0 < q then
    if roundPos q < 2 ^ 1024 then .fin (roundPos q) else .posInf
  else
    if roundPos (-q) < 2 ^ 1024 then .fin (-roundPos (-q)) else .negInf

/-- The function `Math.max(a, b)`: `NaN` if either argument is `NaN`. -/
def mathMax : JSNumber → JSNumber → JSNumber
  | .nan, _ => .nan
  | _, .nan => .nan
  | .posInf, _ => .posInf
  | _, .posInf => .posInf
  | .negInf, b => b
  | a, .negInf => a
  | .fin a, .fin b => .fin (max a b)

/-- The function `Math.min(a, b)`: `NaN` if either argument is `NaN`. -/
def mathMin : JSNumber → JSNumber → JSNumber
  | .nan, _ => .nan
  | _, .nan => .nan
  | .negInf, _ => .negInf
  | _, .negInf => .negInf
  | .posInf, b => b
  | a, .posInf => a
  | .fin a, .fin b => .fin (min a b)

/-- Value of one ASCII digit. -/
def digitVal (c : Char) : Nat := c.toNat - 0x30

/-- Value of a string of ASCII digits read in base ten (`0` for the empty string). -/
def digitsVal (ds : Str) : Nat := ds.foldl (fun n c => 10 * n + digitVal c) 0

/-- JavaScript unary minus: exact on finite numbers. -/
def jsNeg : JSNumber → JSNumber
  | .nan => .nan
  | .fin q => .fin (-q)
  | .posInf => .negInf
  | .negInf => .posInf

/-- The value of the longest `ExponentPart` (`e` or `E`, an optional sign, at
least one digit) at the start of the text that follows a mantissa, and `0`
when there is none. -/
def exponentPart : Str → ℤ
  | [] => 0
  | c :: r =>
    if c = 'e' ∨ c = 'E' then
      match r with
      | '+' :: d => (digitsVal (d.takeWhile isDigit) : ℤ)
      | '-' :: d => -(digitsVal (d.takeWhile isDigit) : ℤ)
      | d => (digitsVal (d.takeWhile isDigit) : ℤ)
    else 0

/-- The number denoted by the longest prefix that is a
`StrUnsignedDecimalLiteral`: `Infinity`, or a mantissa `digits`, `digits.`,
`digits.digits` or `.digits` with an optional exponent part; `NaN` when no
such prefix exists.  The value is the double nearest to the number the prefix
denotes (the correctly rounded conversion of V8; a long numeral can round to a
neighbour, underflow to zero or overflow to `Infinity`). -/
def parseUnsigned (s : Str) : JSNumber :=
  if "Infinity".toList.isPrefixOf s then .posInf
  else
    let ip := s.takeWhile isDigit
    match s.dropWhile isDigit with
    | [] => if ip.isEmpty then .nan else roundDouble (digitsVal ip)
    | c :: r =>
      if c = '.' then
        let fp := r.takeWhile isDigit
        if ip.isEmpty && fp.isEmpty then .nan
        else roundDouble (((digitsVal ip : ℚ) + (digitsVal fp : ℚ) / 10 ^ fp.length)
          * 10 ^ exponentPart (r.dropWhile isDigit))
      else if ip.isEmpty then .nan
      else roundDouble ((digitsVal ip : ℚ) * 10 ^ exponentPart (c :: r))

/-- The function `parseFloat(s)`: leading white space is skipped, an optional
sign is read, and the longest prefix of the rest that is a decimal literal
gives the value; whatever follows is ignored. -/
def parseFloat (s : Str) : JSNumber :=
  match s.dropWhile isWhiteSpace with
  | '+' :: r => parseUnsigned r
  | '-' :: r => jsNeg (parseUnsigned r)
  | t => parseUnsigned t

/-! ## The data-point regular expression -/

/-- Consume one given character. -/
def expectChar (c : Char) : Str → Option Str
  | [] => none
  | d :: r => if d = c then some r else none

/-- The group `([\d\.]+)`: the longest non-empty run of `[\d\.]` characters,
with the rest of the input.  In the pattern every such group is followed by a
character outside the class, so giving characters back never helps. -/
def numRun (s : Str) : Option (Str × Str) :=
  if (s.takeWhile isNumChar).isEmpty then none
  else some (s.takeWhile isNumChar, s.dropWhile isNumChar)

/-- The part `([\d\.]+),\s*([\d\.]+)\]` of the pattern, matched right after
the opening bracket; returns capture groups 2 and 3.  The `\s*` is followed by
a non-space atom, so it always takes the whole run of white space. -/
def matchCoords (s : Str) : Option (Str × Str) :=
  (numRun s).bind fun g2 =>
  (expectChar ',' g2.2).bind fun r3 =>
  (numRun (r3.dropWhile isWhiteSpace)).bind fun g3 =>
  (expectChar ']' g3.2).bind fun _ => some (g2.1, g3.1)

/-- The tail `:\s*\[([\d\.]+),\s*([\d\.]+)\]` of the pattern, matched at the
start of the input; returns capture groups 2 and 3.  The `\s*` before the
bracket takes the whole run of white space, for the same reason. -/
def matchTail (s : Str) : Option (Str × Str) :=
  (expectChar ':' s).bind fun r1 =>
  (expectChar '[' (r1.dropWhile isWhiteSpace)).bind matchCoords

/-- The whole pattern `(.+):\s*\[([\d\.]+),\s*([\d\.]+)\]` matched at the start
of the input.  The greedy group `(.+)` first tries to take one more character
and only then lets the tail match. -/
def matchHere : Str → Option (Str × Str × Str)
  | [] => none
  | c :: rest =>
    if isLineTerminator c then none
    else
      match matchHere rest with
      | some (g1, g2, g3) => some (c :: g1, g2, g3)
      | none =>
        match matchTail rest with
        | some (g2, g3) => some ([c], g2, g3)
        | none => none

/-- The call `line.match(/(.+):\s*\[([\d\.]+),\s*([\d\.]+)\]/)`: the first start
position at which the pattern matches; returns capture groups 1, 2 and 3. -/
def regexExec : Str → Option (Str × Str × Str)
  | [] => none
  | c :: rest =>
    match matchHere (c :: rest) with
    | some m => some m
    | none => regexExec rest

/-! ## The chart model -/

/-- One data point of the chart. -/
structure Point where
  label : Str
  x : JSNumber
  y : JSNumber
  deriving DecidableEq, Repr

/-- The `xAxis` record. -/
structure XAxis where
  left : Str
  right : Str
  deriving DecidableEq, Repr

/-- The `yAxis` record. -/
structure YAxis where
  bottom : Str
  top : Str
  deriving DecidableEq, Repr

/-- The `quadrants` record. -/
structure Quadrants where
  q1 : Str
  q2 : Str
  q3 : Str
  q4 : Str
  deriving DecidableEq, Repr

/-- The object `data` built by `parseMermaid`. -/
structure ChartData where
  title : Str
  xAxis : XAxis
  yAxis : YAxis
  quadrants : Quadrants
  points : List Point
  deriving DecidableEq, Repr

/-- The initial value of `data`. -/
def defaultData : ChartData :=
  { title := "Quadrant Chart".toList
    xAxis := { left := [], right := [] }
    yAxis := { bottom := [], top := [] }
    quadrants := { q1 := [], q2 := [], q3 := [], q4 := [] }
    points := [] }

/-! ## The parser -/

/-- The clamp `Math.min(Math.max(parseFloat(s), 0), 1)` applied to a captured text. -/
def clampCoord (s : Str) : JSNumber :=
  mathMin (mathMax (parseFloat s) (.fin 0)) (.fin 1)

/-- The body of the `forEach` callback: the effect of one trimmed, non-empty
line on `data`. -/
def processLine (data : ChartData) (line : Str) : ChartData :=
  if startsWith line "%%".toList then data
  else if startsWith line "title".toList then
    { data with title := trim (replaceFirst "title".toList [] line) }
  else if startsWith line "x-axis".toList then
    match split (replaceFirst "x-axis".toList [] line) "-->".toList with
    | [p0, p1] => { data with xAxis := { left := trim p0, right := trim p1 } }
    | _ => data
  else if startsWith line "y-axis".toList then
    match split (replaceFirst "y-axis".toList [] line) "-->".toList with
    | [p0, p1] => { data with yAxis := { bottom := trim p0, top := trim p1 } }
    | _ => data
  else if startsWith line "quadrant-1".toList then
    { data with quadrants := { data.quadrants with q1 := trim (replaceFirst "quadrant-1".toList [] line) } }
  else if startsWith line "quadrant-2".toList then
    { data with quadrants := { data.quadrants with q2 := trim (replaceFirst "quadrant-2".toList [] line) } }
  else if startsWith line "quadrant-3".toList then
    { data with quadrants := { data.quadrants with q3 := trim (replaceFirst "quadrant-3".toList [] line) } }
  else if startsWith line "quadrant-4".toList then
    { data with quadrants := { data.quadrants with q4 := trim (replaceFirst "quadrant-4".toList [] line) } }
  else if includes line ":".toList && includes line "[".toList && includes line "]".toList then
    match regexExec line with
    | some (g1, g2, g3) =>
      { data with points := data.points ++ [{ label := trim g1, x := clampCoord g2, y := clampCoord g3 }] }
    | none => data
  else data

/-- The array `lines`: `content.split('\n').map(l => l.trim()).filter(l => l)`. -/
def sourceLines (content : Str) : List Str :=
  ((split content "\n".toList).map trim).filter (fun l => !l.isEmpty)

/-- The function `parseMermaid(content)`: run the callback over the lines, starting
from the initial `data`. -/
def parseMermaid (content : Str) : ChartData :=
  (sourceLines content).foldl processLine defaultData

/-! ## Auxiliary notions used in the statements -/

/-- The point a single trimmed line contributes to `data.points`, if any:
what the callback appends when it is run on the initial `data`. -/
def pointOfLine (line : Str) : Option Point :=
  (processLine defaultData line).points.head?

/-- The text whose lines are the given strings: `ls.join('\n')`. -/
def joinLines : List Str → Str
  | [] => []
  | [l] => l
  | l :: l2 :: ls => l ++ "\n".toList ++ joinLines (l2 :: ls)

/-- A string has no leading and no trailing white space. -/
def Trimmed (s : Str) : Prop :=
  (∀ c ∈ s.head?, isWhiteSpace c = false) ∧ (∀ c ∈ s.getLast?, isWhiteSpace c = false)

instance (s : Str) : Decidable (Trimmed s) := by
  unfold Trimmed
  infer_instance

/-- Number of positions of `s` at which `sep` occurs. -/
def countOcc (sep : Str) : Str → Nat
  | [] => 0
  | c :: rest => (if sep.isPrefixOf (c :: rest) then 1 else 0) + countOcc sep rest

/-- An unsigned decimal numeral: digits with at most one decimal point and at
least one digit. -/
def isNumeral (s : Str) : Bool :=
  s.all isNumChar && decide (s.count '.' ≤ 1) && s.any isDigit

/-- The number a decimal numeral denotes: its digits read as an integer,
scaled down by the number of digits after the decimal point. -/
def decimalValue (s : Str) : ℚ :=
  (digitsVal (s.filter isDigit) : ℚ) / 10 ^ ((s.dropWhile isDigit).length - 1)

/-- The directive tokens and the comment marker tested by `processLine`. -/
def reservedTokens : List Str :=
  ["%%".toList, "title".toList, "x-axis".toList, "y-axis".toList,
   "quadrant-1".toList, "quadrant-2".toList, "quadrant-3".toList, "quadrant-4".toList]

/-- A line that begins with none of the reserved tokens. -/
def noReservedPrefix (line : Str) : Bool :=
  reservedTokens.all fun tok => !startsWith line tok

/-- The source line `L: [a, b]`. -/
def pointLine (L a b : Str) : Str :=
  L ++ ": [".toList ++ a ++ ", ".toList ++ b ++ "]".toList

/-- A non-empty string of digits and decimal points: exactly what the group
`([\d\.]+)` accepts as a whole. -/
def isNumText (s : Str) : Bool := !s.isEmpty && s.all isNumChar

/-- A coordinate lies in the closed interval from `0` to `1`; `NaN` and the
infinities do not. -/
def JSNumber.inUnit : JSNumber → Prop
  | .fin q => 0 ≤ q ∧ q ≤ 1
  | .nan => False
  | .posInf => False
  | .negInf => False

instance (v : JSNumber) : Decidable v.inUnit := by
  cases v <;> unfold JSNumber.inUnit <;> infer_instance

/-- The reading of the pattern `(.+):\s*\[([\d\.]+),\s*([\d\.]+)\]` as a set of
matches: `s` consists of a text `pre` before the match, a non-empty group 1
without line terminators, a colon, white space, an opening bracket, a non-empty
run of `[\d\.]` characters (group 2), a comma, white space, a second such run
(group 3), a closing bracket, and whatever follows. -/
def IsMatch (s pre g1 g2 g3 : Str) : Prop :=
  ∃ ws1 ws2 post : Str,
    s = pre ++ (g1 ++ ':' :: (ws1 ++ '[' :: (g2 ++ ',' :: (ws2 ++ (g3 ++ ']' :: post))))) ∧
    g1 ≠ [] ∧ (∀ c ∈ g1, isLineTerminator c = false) ∧
    (∀ c ∈ ws1, isWhiteSpace c = true) ∧ (∀ c ∈ ws2, isWhiteSpace c = true) ∧
    g2 ≠ [] ∧ (∀ c ∈ g2, isNumChar c = true) ∧
    g3 ≠ [] ∧ (∀ c ∈ g3, isNumChar c = true)

/-- White space that stays within one line (spaces, tabs and the like, no line
feed): indentation, trailing blanks, or the whole of a blank line. -/
def isPadding (s : Str) : Bool := s.all fun c => isWhiteSpace c && c != '\n'

/-! ## The renderer: numbers -/

/-- JavaScript `a + b` on numbers: the exact sum rounded to a double. -/
def jsAdd : JSNumber → JSNumber → JSNumber
  | .fin a, .fin b => roundDouble (a + b)
  | .nan, _ => .nan
  | _, .nan => .nan
  | .posInf, .negInf => .nan
  | .negInf, .posInf => .nan
  | .posInf, _ => .posInf
  | _, .posInf => .posInf
  | .negInf, _ => .negInf
  | _, .negInf => .negInf

/-- JavaScript `a - b` on numbers: the exact difference rounded to a double. -/
def jsSub : JSNumber → JSNumber → JSNumber
  | .fin a, .fin b => roundDouble (a - b)
  | .nan, _ => .nan
  | _, .nan => .nan
  | .posInf, .posInf => .nan
  | .negInf, .negInf => .nan
  | .posInf, _ => .posInf
  | _, .negInf => .posInf
  | .negInf, _ => .negInf
  | _, .posInf => .negInf

/-- The sign rule for a product or quotient with an infinite result. -/
def infOfSign (positive : Bool) : JSNumber := if positive then .posInf else .negInf

/-- JavaScript `a * b` on numbers: the exact product rounded to a double;
an infinity times zero is `NaN`. -/
def jsMul : JSNumber → JSNumber → JSNumber
  | .fin a, .fin b => roundDouble (a * b)
  | .nan, _ => .nan
  | _, .nan => .nan
  | .posInf, .fin b => if b = 0 then .nan else infOfSign (decide (0 < b))
  | .negInf, .fin b => if b = 0 then .nan else infOfSign (decide (b < 0))
  | .fin a, .posInf => if a = 0 then .nan else infOfSign (decide (0 < a))
  | .fin a, .negInf => if a = 0 then .nan else infOfSign (decide (a < 0))
  | .posInf, .posInf => .posInf
  | .negInf, .negInf => .posInf
  | .posInf, .negInf => .negInf
  | .negInf, .posInf => .negInf

/-- JavaScript `a / b` on numbers: the exact quotient rounded to a double.  The
only division of the program is by the literal `2`; a zero divisor is read as
positive zero. -/
def jsDiv : JSNumber → JSNumber → JSNumber
  | .fin a, .fin b =>
    if b = 0 then (if a = 0 then .nan else infOfSign (decide (0 < a)))
    else roundDouble (a / b)
  | .nan, _ => .nan
  | _, .nan => .nan
  | .fin _, .posInf => .fin 0
  | .fin _, .negInf => .fin 0
  | .posInf, .fin b => infOfSign (decide (0 ≤ b))
  | .negInf, .fin b => infOfSign (decide (b < 0))
  | .posInf, .posInf => .nan
  | .posInf, .negInf => .nan
  | .negInf, .posInf => .nan
  | .negInf, .negInf => .nan

instance : Add JSNumber := ⟨jsAdd⟩

instance : Sub JSNumber := ⟨jsSub⟩

instance : Mul JSNumber := ⟨jsMul⟩

instance : Div JSNumber := ⟨jsDiv⟩

/-- A numeric literal of the program.  All of them are small integers, which
are doubles, so no rounding takes place. -/
instance (n : Nat) : OfNat JSNumber n := ⟨.fin n⟩

/-- JavaScript `a >= b`: false as soon as one side is `NaN`. -/
def jsGe : JSNumber → JSNumber → Bool
  | .fin a, .fin b => decide (b ≤ a)
  | .nan, _ => false
  | _, .nan => false
  | .posInf, _ => true
  | _, .negInf => true
  | .negInf, _ => false
  | _, .posInf => false

/-- JavaScript `a < b`: false as soon as one side is `NaN`. -/
def jsLt : JSNumber → JSNumber → Bool
  | .fin a, .fin b => decide (a < b)
  | .nan, _ => false
  | _, .nan => false
  | .posInf, _ => false
  | _, .negInf => false
  | .negInf, _ => true
  | _, .posInf => true

/-! ## The renderer: configuration and document model -/

/-- The constant `CANVAS_SIZE`: side of the chart area. -/
def CANVAS_SIZE : JSNumber := 600

/-- The constant `PADDING`. -/
def PADDING : JSNumber := 100

/-- The constant `TOTAL_WIDTH` (not used by the two functions). -/
def TOTAL_WIDTH : JSNumber := CANVAS_SIZE + (PADDING * 2)

/-- The constant `TOTAL_HEIGHT` (not used by the two functions). -/
def TOTAL_HEIGHT : JSNumber := CANVAS_SIZE + (PADDING * 2)

/-- The `mxGeometry` child of an `mxCell`: for a vertex its `x`, `y`, `width`
and `height`; for an edge, relative, with a source and a target `mxPoint`. -/
inductive Geometry where
  | vertex (x y width height : JSNumber)
  | edge (sourceX sourceY targetX targetY : JSNumber)
  deriving DecidableEq, Repr

/-- One `mxCell` element created by `addCell`.  Identifiers are kept as the
natural numbers their decimal text denotes; `vertex` and `edge` hold the
attribute value, `none` standing for `null`. -/
structure Cell where
  id : Nat
  value : Str
  style : Str
  parent : Nat
  vertex : Option Str
  edge : Option Str
  geometry : Geometry
  deriving DecidableEq, Repr

/-- The state the closure `addCell` works on: the counter `idCounter` and the
children appended to the `root` element so far, in document order. -/
structure Builder where
  idCounter : Nat
  cells : List Cell
  deriving DecidableEq, Repr

/-- The document built by `generateDrawioXml`: the XML declaration, the
attributes of the `mxfile`, `diagram` and `mxGraphModel` elements, the two
structural cells (identifier and parent) and the shapes, in the order in which
they are appended to `root`. -/
structure Document where
  declaration : List (Str × Str)
  mxfile : List (Str × Str)
  diagram : List (Str × Str)
  mxGraphModel : List (Str × Str)
  bootstrap : List (Nat × Option Nat)
  shapes : List Cell
  deriving DecidableEq, Repr

/-- The closure `addCell(value, style, x, y, w, h, isEdge)`: append one cell
with the next identifier. -/
def addCell (b : Builder) (value style : Str) (x y w h : JSNumber) (isEdge : Bool) : Builder :=
  { idCounter := b.idCounter + 1
    cells := b.cells ++
      [{ id := b.idCounter
         value := value
         style := style
         parent := 1
         vertex := if isEdge then none else some "1".toList
         edge := if isEdge then some "1".toList else none
         geometry := if isEdge then .edge x y w h else .vertex x y w h }] }

/-- Style of the chart title. -/
def titleStyle : Str :=
  "text;html=1;strokeColor=none;fillColor=none;align=center;verticalAlign=middle;whiteSpace=wrap;rounded=0;fontSize=24;fontStyle=1".toList

/-- Style of the main container box. -/
def boxStyle : Str :=
  "rounded=0;whiteSpace=wrap;html=1;fillColor=#ffffff;strokeColor=#666666;".toList

/-- The constant `wmStyle`: style of the quadrant watermarks. -/
def wmStyle : Str :=
  "text;html=1;strokeColor=none;fillColor=none;align=center;verticalAlign=middle;whiteSpace=wrap;rounded=0;fontSize=20;fontColor=#e0e0e0;fontStyle=1;".toList

/-- Style of the two dashed grid lines. -/
def gridStyle : Str :=
  "endArrow=none;html=1;strokeWidth=2;strokeColor=#b0b0b0;dashed=1;".toList

/-- The constant `lblStyle`: style of the axis labels. -/
def lblStyle : Str :=
  "text;html=1;strokeColor=none;fillColor=none;align=center;verticalAlign=middle;whiteSpace=wrap;rounded=0;fontSize=12;fontStyle=2;fontColor=#333333;".toList

/-- Style of the text label of a data point. -/
def pointLabelStyle : Str :=
  "text;html=1;strokeColor=none;fillColor=none;align=left;verticalAlign=middle;whiteSpace=wrap;rounded=0;fontSize=11;fontColor=#000000;fontStyle=1".toList

/-- The template literal giving the style of a marker of the given colour. -/
def markerStyle (color : Str) : Str :=
  "ellipse;whiteSpace=wrap;html=1;aspect=fixed;fillColor=".toList ++ color
    ++ ";strokeColor=none;".toList

/-- The variable `color` of a data point after the chain of tests. -/
def pointColor (p : Point) : Str :=
  if jsGe p.x (.fin 0.5) && jsGe p.y (.fin 0.5) then "#28a745".toList
  else if jsLt p.x (.fin 0.5) && jsGe p.y (.fin 0.5) then "#007bff".toList
  else if jsLt p.x (.fin 0.5) && jsLt p.y (.fin 0.5) then "#6c757d".toList
  else if jsGe p.x (.fin 0.5) && jsLt p.y (.fin 0.5) then "#ffc107".toList
  else "#999999".toList

/-- The variable `pixelX` of a data point: the product is rounded, then the sum. -/
def pixelX (p : Point) : JSNumber := PADDING + (p.x * CANVAS_SIZE)

/-- The variable `pixelY` of a data point, with the parentheses of the source:
the product, the difference and the sum are each rounded. -/
def pixelY (p : Point) : JSNumber := PADDING + (CANVAS_SIZE - (p.y * CANVAS_SIZE))

/-- The body of `data.points.forEach`: a marker, then its label. -/
def drawPoint (b : Builder) (p : Point) : Builder :=
  let b1 := addCell b [] (markerStyle (pointColor p)) (pixelX p - 6) (pixelY p - 6) 12 12 false
  addCell b1 p.label pointLabelStyle (pixelX p + 10) (pixelY p - 10) 150 20 false

/-- The statements of `generateDrawioXml` from `let idCounter = 2` up to the
axis labels: title, container, watermarks, grid lines, axis labels.  The
x-left label is placed at `PADDING`, as the call in the source does; the
comment above that call speaks of `PADDING - 100`, which the code does not
use. -/
def drawFrame (data : ChartData) : Builder :=
  let b : Builder := { idCounter := 2, cells := [] }
  let b := addCell b data.title titleStyle PADDING 10 CANVAS_SIZE 40 false
  let b := addCell b [] boxStyle PADDING PADDING CANVAS_SIZE CANVAS_SIZE false
  let qW := CANVAS_SIZE / 2
  let qH := CANVAS_SIZE / 2
  let midX := PADDING + qW
  let midY := PADDING + qH
  let b := addCell b data.quadrants.q2 wmStyle PADDING PADDING qW qH false
  let b := addCell b data.quadrants.q1 wmStyle midX PADDING qW qH false
  let b := addCell b data.quadrants.q3 wmStyle PADDING midY qW qH false
  let b := addCell b data.quadrants.q4 wmStyle midX midY qW qH false
  let b := addCell b [] gridStyle midX PADDING midX (PADDING + CANVAS_SIZE) true
  let b := addCell b [] gridStyle PADDING midY (PADDING + CANVAS_SIZE) midY true
  let b := addCell b data.xAxis.left (lblStyle ++ "align=left;".toList) PADDING (midY + 10) 150 20
    false
  let b := addCell b data.xAxis.right (lblStyle ++ "align=right;".toList)
    (PADDING + CANVAS_SIZE - 150) (midY + 10) 150 20 false
  let b := addCell b data.yAxis.top lblStyle (midX - 75) (PADDING - 30) 150 20 false
  addCell b data.yAxis.bottom lblStyle (midX - 75) (PADDING + CANVAS_SIZE + 10) 150 20 false

/-- The function `generateDrawioXml(data)`, with the value of
`new Date().toISOString()` passed in as `now`.  The result is the element tree
handed to the serializer of the XML library. -/
def generateDrawioXml (now : Str) (data : ChartData) : Document :=
  { declaration := [("version".toList, "1.0".toList), ("encoding".toList, "UTF-8".toList)]
    mxfile := [("host".toList, "Electron".toList), ("modified".toList, now),
      ("agent".toList, "MermaidCLI".toList), ("type".toList, "device".toList)]
    diagram := [("id".toList, "mermaid-diagram".toList)]
    mxGraphModel := [("dx".toList, "1000".toList), ("dy".toList, "1000".toList),
      ("grid".toList, "1".toList), ("gridSize".toList, "10".toList),
      ("guides".toList, "1".toList), ("tooltips".toList, "1".toList),
      ("connect".toList, "1".toList), ("arrows".toList, "1".toList),
      ("fold".toList, "1".toList), ("page".toList, "1".toList),
      ("pageScale".toList, "1".toList), ("pageWidth".toList, "827".toList),
      ("pageHeight".toList, "1169".toList), ("math".toList, "0".toList),
      ("shadow".toList, "0".toList)]
    bootstrap := [(0, none), (1, some 0)]
    shapes := (data.points.foldl drawPoint (drawFrame data)).cells }

/-! ## The renderer: notions used in the statements -/

/-- A vertex cell with the given identifier, text, style and box, as `addCell`
builds it. -/
def vertexCell (id : Nat) (value style : Str) (x y w h : JSNumber) : Cell :=
  { id := id, value := value, style := style, parent := 1
    vertex := some "1".toList, edge := none, geometry := .vertex x y w h }

/-- An edge cell with the given identifier, style, source and target point. -/
def edgeCell (id : Nat) (value style : Str) (sx sy tx ty : JSNumber) : Cell :=
  { id := id, value := value, style := style, parent := 1
    vertex := none, edge := some "1".toList, geometry := .edge sx sy tx ty }

/-- The twelve shapes expected before the data points, with their numbers
worked out: title, container, watermarks of q2, q1, q3, q4, the vertical and
the horizontal divider, and the labels x-left, x-right, y-top, y-bottom. -/
def frameShapes (data : ChartData) : List Cell :=
  [ vertexCell 2 data.title titleStyle (.fin 100) (.fin 10) (.fin 600) (.fin 40),
    vertexCell 3 [] boxStyle (.fin 100) (.fin 100) (.fin 600) (.fin 600),
    vertexCell 4 data.quadrants.q2 wmStyle (.fin 100) (.fin 100) (.fin 300) (.fin 300),
    vertexCell 5 data.quadrants.q1 wmStyle (.fin 400) (.fin 100) (.fin 300) (.fin 300),
    vertexCell 6 data.quadrants.q3 wmStyle (.fin 100) (.fin 400) (.fin 300) (.fin 300),
    vertexCell 7 data.quadrants.q4 wmStyle (.fin 400) (.fin 400) (.fin 300) (.fin 300),
    edgeCell 8 [] gridStyle (.fin 400) (.fin 100) (.fin 400) (.fin 700),
    edgeCell 9 [] gridStyle (.fin 100) (.fin 400) (.fin 700) (.fin 400),
    vertexCell 10 data.xAxis.left (lblStyle ++ "align=left;".toList)
      (.fin 100) (.fin 410) (.fin 150) (.fin 20),
    vertexCell 11 data.xAxis.right (lblStyle ++ "align=right;".toList)
      (.fin 550) (.fin 410) (.fin 150) (.fin 20),
    vertexCell 12 data.yAxis.top lblStyle (.fin 325) (.fin 70) (.fin 150) (.fin 20),
    vertexCell 13 data.yAxis.bottom lblStyle (.fin 325) (.fin 710) (.fin 150) (.fin 20) ]

/-- The marker expected for a point: no text, ellipse style filled with the
colour of the point, a box of side 12 around the pixel of the point. -/
def markerCell (id : Nat) (p : Point) : Cell :=
  vertexCell id [] (markerStyle (pointColor p)) (pixelX p - 6) (pixelY p - 6) 12 12

/-- The label expected for a point: its text, 150 by 20, offset by `+10` and
`-10` from the pixel of the point. -/
def labelCell (id : Nat) (p : Point) : Cell :=
  vertexCell id p.label pointLabelStyle (pixelX p + 10) (pixelY p - 10) 150 20

/-- The shapes expected for a list of points when the next free identifier is
`id`: for each point in order its marker, then its label. -/
def pointShapes (id : Nat) : List Point → List Cell
  | [] => []
  | p :: ps => markerCell id p :: labelCell (id + 1) p :: pointShapes (id + 2) ps

/-- An axis-parallel rectangle given by its corner, width and height. -/
structure Rect where
  x : ℚ
  y : ℚ
  w : ℚ
  h : ℚ
  deriving DecidableEq, Repr

/-- The pixel `(u, v)` lies in the closed rectangle. -/
def Rect.closed (r : Rect) (u v : ℚ) : Prop :=
  r.x ≤ u ∧ u ≤ r.x + r.w ∧ r.y ≤ v ∧ v ≤ r.y + r.h

/-- The pixel `(u, v)` lies in the interior of the rectangle. -/
def Rect.interior (r : Rect) (u v : ℚ) : Prop :=
  r.x < u ∧ u < r.x + r.w ∧ r.y < v ∧ v < r.y + r.h

/-- The rectangle a vertex cell occupies, when its four numbers are finite. -/
def cellRect (c : Cell) : Option Rect :=
  match c.geometry with
  | .vertex (.fin x) (.fin y) (.fin w) (.fin h) => some { x := x, y := y, w := w, h := h }
  | _ => none

/-- The centre of the box of a vertex cell. -/
def cellCentre (c : Cell) : Option (ℚ × ℚ) :=
  (cellRect c).map fun r => (r.x + r.w / 2, r.y + r.h / 2)

/-! ## Lines -/

theorem split_newline_cons (c : Char) (s : Str) :
    split (c :: s) "\n".toList =
      if c = '\n' then [] :: split s "\n".toList else consHead c (split s "\n".toList) := by
  simp only [split, splitAux, String.toList, List.isPrefixOf, List.length_singleton]
  by_cases h : c = '\n'
  · subst h; simp
  · have : ('\n' == c) = false := by simpa using fun h' => h h'.symm
    simp [h, this]

theorem split_newline_ne_nil (s : Str) : split s "\n".toList ≠ [] := by
  cases s with
  | nil => simp [split, splitAux]
  | cons c s =>
    rw [split_newline_cons]
    split
    · simp
    · cases split s "\n".toList <;> simp [consHead]

theorem split_newline_append (a b : Str) :
    split (a ++ "\n".toList ++ b) "\n".toList = split a "\n".toList ++ split b "\n".toList := by
  induction a with
  | nil =>
    have : ([] : Str) ++ "\n".toList ++ b = '\n' :: b := rfl
    rw [this, split_newline_cons]
    simp [split, splitAux]
  | cons c a ih =>
    have : (c :: a) ++ "\n".toList ++ b = c :: (a ++ "\n".toList ++ b) := rfl
    rw [this, split_newline_cons, split_newline_cons, ih]
    by_cases h : c = '\n'
    · simp [h]
    · simp only [h, if_false]
      have hne := split_newline_ne_nil a
      cases hs : split a "\n".toList with
      | nil => exact absurd hs hne
      | cons p ps => simp [consHead]

theorem split_no_newline (s : Str) (h : '\n' ∉ s) : split s "\n".toList = [s] := by
  induction s with
  | nil => simp [split, splitAux]
  | cons c s ih =>
    rw [split_newline_cons]
    have hc : c ≠ '\n' := fun e => h (by simp [e])
    have hs : '\n' ∉ s := fun e => h (by simp [e])
    rw [if_neg hc, ih hs]; rfl

theorem sourceLines_append (a b : Str) :
    sourceLines (a ++ "\n".toList ++ b) = sourceLines a ++ sourceLines b := by
  simp only [sourceLines, split_newline_append, List.map_append, List.filter_append]

theorem sourceLines_single (s : Str) (h : '\n' ∉ s) :
    sourceLines s = if (trim s).isEmpty then [] else [trim s] := by
  simp only [sourceLines, split_no_newline s h, List.map, List.filter]
  cases (trim s).isEmpty <;> simp

/-! ## One line at a time -/

theorem parseMermaid_eq_foldl (content : Str) :
    parseMermaid content = (sourceLines content).foldl processLine defaultData := rfl

/-- A line that starts with the comment marker leaves `data` unchanged. -/
theorem processLine_comment (d : ChartData) (line : Str)
    (h : startsWith line "%%".toList = true) : processLine d line = d := by
  unfold processLine; rw [if_pos h]

theorem processLine_title (d : ChartData) (line : Str)
    (h0 : ¬ startsWith line "%%".toList = true)
    (h1 : startsWith line "title".toList = true) :
    processLine d line = { d with title := trim (replaceFirst "title".toList [] line) } := by
  unfold processLine; rw [if_neg h0, if_pos h1]

theorem processLine_xAxis (d : ChartData) (line : Str)
    (h0 : ¬ startsWith line "%%".toList = true)
    (h1 : ¬ startsWith line "title".toList = true)
    (h2 : startsWith line "x-axis".toList = true) :
    processLine d line =
      match split (replaceFirst "x-axis".toList [] line) "-->".toList with
      | [p0, p1] => { d with xAxis := { left := trim p0, right := trim p1 } }
      | _ => d := by
  unfold processLine; rw [if_neg h0, if_neg h1, if_pos h2]

theorem processLine_yAxis (d : ChartData) (line : Str)
    (h0 : ¬ startsWith line "%%".toList = true)
    (h1 : ¬ startsWith line "title".toList = true)
    (h2 : ¬ startsWith line "x-axis".toList = true)
    (h3 : startsWith line "y-axis".toList = true) :
    processLine d line =
      match split (replaceFirst "y-axis".toList [] line) "-->".toList with
      | [p0, p1] => { d with yAxis := { bottom := trim p0, top := trim p1 } }
      | _ => d := by
  unfold processLine; rw [if_neg h0, if_neg h1, if_neg h2, if_pos h3]

theorem processLine_q1 (d : ChartData) (line : Str)
    (h0 : ¬ startsWith line "%%".toList = true)
    (h1 : ¬ startsWith line "title".toList = true)
    (h2 : ¬ startsWith line "x-axis".toList = true)
    (h3 : ¬ startsWith line "y-axis".toList = true)
    (h4 : startsWith line "quadrant-1".toList = true) :
    processLine d line = { d with quadrants :=
      { d.quadrants with q1 := trim (replaceFirst "quadrant-1".toList [] line) } } := by
  unfold processLine; rw [if_neg h0, if_neg h1, if_neg h2, if_neg h3, if_pos h4]

theorem processLine_q2 (d : ChartData) (line : Str)
    (h0 : ¬ startsWith line "%%".toList = true)
    (h1 : ¬ startsWith line "title".toList = true)
    (h2 : ¬ startsWith line "x-axis".toList = true)
    (h3 : ¬ startsWith line "y-axis".toList = true)
    (h4 : ¬ startsWith line "quadrant-1".toList = true)
    (h5 : startsWith line "quadrant-2".toList = true) :
    processLine d line = { d with quadrants :=
      { d.quadrants with q2 := trim (replaceFirst "quadrant-2".toList [] line) } } := by
  unfold processLine; rw [if_neg h0, if_neg h1, if_neg h2, if_neg h3, if_neg h4, if_pos h5]

theorem processLine_q3 (d : ChartData) (line : Str)
    (h0 : ¬ startsWith line "%%".toList = true)
    (h1 : ¬ startsWith line "title".toList = true)
    (h2 : ¬ startsWith line "x-axis".toList = true)
    (h3 : ¬ startsWith line "y-axis".toList = true)
    (h4 : ¬ startsWith line "quadrant-1".toList = true)
    (h5 : ¬ startsWith line "quadrant-2".toList = true)
    (h6 : startsWith line "quadrant-3".toList = true) :
    processLine d line = { d with quadrants :=
      { d.quadrants with q3 := trim (replaceFirst "quadrant-3".toList [] line) } } := by
  unfold processLine
  rw [if_neg h0, if_neg h1, if_neg h2, if_neg h3, if_neg h4, if_neg h5, if_pos h6]

theorem processLine_q4 (d : ChartData) (line : Str)
    (h0 : ¬ startsWith line "%%".toList = true)
    (h1 : ¬ startsWith line "title".toList = true)
    (h2 : ¬ startsWith line "x-axis".toList = true)
    (h3 : ¬ startsWith line "y-axis".toList = true)
    (h4 : ¬ startsWith line "quadrant-1".toList = true)
    (h5 : ¬ startsWith line "quadrant-2".toList = true)
    (h6 : ¬ startsWith line "quadrant-3".toList = true)
    (h7 : startsWith line "quadrant-4".toList = true) :
    processLine d line = { d with quadrants :=
      { d.quadrants with q4 := trim (replaceFirst "quadrant-4".toList [] line) } } := by
  unfold processLine
  rw [if_neg h0, if_neg h1, if_neg h2, if_neg h3, if_neg h4, if_neg h5, if_neg h6, if_pos h7]

theorem noReservedPrefix_iff (line : Str) :
    noReservedPrefix line = true ↔
      (¬ startsWith line "%%".toList = true) ∧ (¬ startsWith line "title".toList = true) ∧
      (¬ startsWith line "x-axis".toList = true) ∧ (¬ startsWith line "y-axis".toList = true) ∧
      (¬ startsWith line "quadrant-1".toList = true) ∧
      (¬ startsWith line "quadrant-2".toList = true) ∧
      (¬ startsWith line "quadrant-3".toList = true) ∧
      (¬ startsWith line "quadrant-4".toList = true) := by
  unfold noReservedPrefix reservedTokens
  simp only [List.all_cons, List.all_nil, Bool.and_true, Bool.and_eq_true, Bool.not_eq_true',
    Bool.not_eq_true]

/-- A line with no reserved prefix reaches the data-point rule. -/
theorem processLine_dataRule (d : ChartData) (line : Str)
    (hp : noReservedPrefix line = true) :
    processLine d line =
      if includes line ":".toList && includes line "[".toList && includes line "]".toList then
        match regexExec line with
        | some (g1, g2, g3) =>
          { d with points := d.points ++
              [{ label := trim g1, x := clampCoord g2, y := clampCoord g3 }] }
        | none => d
      else d := by
  obtain ⟨h0, h1, h2, h3, h4, h5, h6, h7⟩ := (noReservedPrefix_iff line).1 hp
  conv_lhs => unfold processLine
  rw [if_neg h0, if_neg h1, if_neg h2, if_neg h3, if_neg h4, if_neg h5, if_neg h6, if_neg h7]

/-- A line with no reserved prefix on which the regex fails leaves `data` unchanged. -/
theorem processLine_unrecognized (d : ChartData) (line : Str)
    (hp : noReservedPrefix line = true) (hr : regexExec line = none) :
    processLine d line = d := by
  rw [processLine_dataRule d line hp, hr]
  split <;> rfl

/-- Whatever the line, `processLine` leaves the earlier points in place and
appends the point of the line, if it has one. -/
theorem processLine_points (d : ChartData) (line : Str) :
    (processLine d line).points = d.points ++ (pointOfLine line).toList := by
  unfold pointOfLine
  by_cases h0 : startsWith line "%%".toList = true
  · rw [processLine_comment _ _ h0, processLine_comment _ _ h0]; simp [defaultData]
  by_cases h1 : startsWith line "title".toList = true
  · rw [processLine_title _ _ h0 h1, processLine_title _ _ h0 h1]; simp [defaultData]
  by_cases h2 : startsWith line "x-axis".toList = true
  · rw [processLine_xAxis _ _ h0 h1 h2, processLine_xAxis _ _ h0 h1 h2]
    split <;> simp [defaultData]
  by_cases h3 : startsWith line "y-axis".toList = true
  · rw [processLine_yAxis _ _ h0 h1 h2 h3, processLine_yAxis _ _ h0 h1 h2 h3]
    split <;> simp [defaultData]
  by_cases h4 : startsWith line "quadrant-1".toList = true
  · rw [processLine_q1 _ _ h0 h1 h2 h3 h4, processLine_q1 _ _ h0 h1 h2 h3 h4]; simp [defaultData]
  by_cases h5 : startsWith line "quadrant-2".toList = true
  · rw [processLine_q2 _ _ h0 h1 h2 h3 h4 h5, processLine_q2 _ _ h0 h1 h2 h3 h4 h5]
    simp [defaultData]
  by_cases h6 : startsWith line "quadrant-3".toList = true
  · rw [processLine_q3 _ _ h0 h1 h2 h3 h4 h5 h6, processLine_q3 _ _ h0 h1 h2 h3 h4 h5 h6]
    simp [defaultData]
  by_cases h7 : startsWith line "quadrant-4".toList = true
  · rw [processLine_q4 _ _ h0 h1 h2 h3 h4 h5 h6 h7, processLine_q4 _ _ h0 h1 h2 h3 h4 h5 h6 h7]
    simp [defaultData]
  have hp : noReservedPrefix line = true :=
    (noReservedPrefix_iff line).2 ⟨h0, h1, h2, h3, h4, h5, h6, h7⟩
  rw [processLine_dataRule _ _ hp, processLine_dataRule _ _ hp]
  split
  · cases regexExec line with
    | none => simp [defaultData]
    | some m => obtain ⟨g1, g2, g3⟩ := m; simp [defaultData]
  · simp [defaultData]

theorem foldl_processLine_points (ls : List Str) (d : ChartData) :
    (ls.foldl processLine d).points = d.points ++ ls.filterMap pointOfLine := by
  induction ls generalizing d with
  | nil => simp
  | cons l ls ih =>
    rw [List.foldl_cons, ih, processLine_points, List.append_assoc]
    cases h : pointOfLine l <;> simp [List.filterMap_cons, h]

theorem parseMermaid_points (content : Str) :
    (parseMermaid content).points = (sourceLines content).filterMap pointOfLine := by
  rw [parseMermaid_eq_foldl, foldl_processLine_points]; rfl

theorem sourceLines_joinLines (ls : List Str) :
    sourceLines (joinLines ls) = ls.flatMap sourceLines := by
  induction ls with
  | nil => rfl
  | cons l ls ih =>
    cases ls with
    | nil => simp [joinLines]
    | cons l2 ls =>
      rw [joinLines, sourceLines_append, ih]
      simp

theorem foldl_processLine_ignored (ls : List Str) (d : ChartData)
    (h : ∀ l ∈ ls, ∀ e, processLine e l = e) : ls.foldl processLine d = d := by
  induction ls generalizing d with
  | nil => rfl
  | cons l ls ih =>
    rw [List.foldl_cons, h l (List.mem_cons_self _ _)]
    exact ih d fun l' hl' => h l' (List.mem_cons_of_mem _ hl')

/-! ## Claims about whole texts -/

/-- C10: points are collected in source order.  Parsing `A`, a newline, `B`
gives the points of `A` followed by the points of `B`; the points of a text are
the points of its accepted lines in order of appearance, so their number is
the number of lines accepted as data points. -/
theorem points_in_source_order (A B : Str) :
    (parseMermaid (A ++ "\n".toList ++ B)).points
        = (parseMermaid A).points ++ (parseMermaid B).points
    ∧ (parseMermaid A).points = (sourceLines A).filterMap pointOfLine
    ∧ (parseMermaid A).points.length
        = (sourceLines A).countP fun l => (pointOfLine l).isSome := by
  refine ⟨?_, parseMermaid_points A, ?_⟩
  · rw [parseMermaid_points, parseMermaid_points, parseMermaid_points, sourceLines_append,
      List.filterMap_append]
  · rw [parseMermaid_points]
    induction sourceLines A with
    | nil => rfl
    | cons l ls ih =>
      cases h : pointOfLine l <;> simp [List.filterMap_cons, List.countP_cons, h, ih]

/-- C6: a text made only of blank lines and comment lines parses to the
all-default model. -/
theorem blank_and_comment_lines_default (content : Str)
    (h : ∀ l ∈ split content "\n".toList,
      trim l = [] ∨ startsWith (trim l) "%%".toList = true) :
    parseMermaid content =
      { title := "Quadrant Chart".toList
        xAxis := { left := [], right := [] }
        yAxis := { bottom := [], top := [] }
        quadrants := { q1 := [], q2 := [], q3 := [], q4 := [] }
        points := [] } := by
  rw [parseMermaid_eq_foldl]
  apply foldl_processLine_ignored
  intro l hl e
  simp only [sourceLines, List.mem_filter, List.mem_map] at hl
  obtain ⟨⟨r, hr, rfl⟩, hne⟩ := hl
  rcases h r hr with h0 | h0
  · rw [h0] at hne; simp at hne
  · exact processLine_comment e _ h0

theorem blank_and_comment_lines_default_witness :
    (∀ l ∈ split "%% title X\n\n \t \n  %% A: [0.1, 0.2]".toList "\n".toList,
      trim l = [] ∨ startsWith (trim l) "%%".toList = true) ∧
    parseMermaid "%% title X\n\n \t \n  %% A: [0.1, 0.2]".toList =
      { title := "Quadrant Chart".toList
        xAxis := { left := [], right := [] }
        yAxis := { bottom := [], top := [] }
        quadrants := { q1 := [], q2 := [], q3 := [], q4 := [] }
        points := [] } :=
  ⟨by decide, blank_and_comment_lines_default _ (by decide)⟩

/-- Inserting a line that `processLine` ignores leaves the parsed model unchanged. -/
theorem parseMermaid_insert_ignored (xs ys : List Str) (U : Str) (hU : '\n' ∉ U)
    (h : ∀ e, processLine e (trim U) = e) :
    parseMermaid (joinLines (xs ++ U :: ys)) = parseMermaid (joinLines (xs ++ ys)) := by
  rw [parseMermaid_eq_foldl, parseMermaid_eq_foldl, sourceLines_joinLines,
    sourceLines_joinLines, List.flatMap_append, List.flatMap_append, List.flatMap_cons,
    List.foldl_append, List.foldl_append, List.foldl_append]
  congr 1
  apply foldl_processLine_ignored
  intro l hl e
  rw [sourceLines_single U hU] at hl
  split at hl
  · simp at hl
  · rw [List.mem_singleton] at hl
    subst hl
    exact h e

/-- C5: an unrecognized line is ignored.  If the line `U`, once trimmed, starts
with none of the reserved tokens and the data-point pattern does not match it,
then inserting `U` as an additional line at any line position of a text leaves
the parsed model unchanged. -/
theorem unrecognized_line_ignored (xs ys : List Str) (U : Str)
    (hU : '\n' ∉ U) (hp : noReservedPrefix (trim U) = true)
    (hr : regexExec (trim U) = none) :
    parseMermaid (joinLines (xs ++ U :: ys)) = parseMermaid (joinLines (xs ++ ys)) :=
  parseMermaid_insert_ignored xs ys U hU fun e => processLine_unrecognized e _ hp hr

theorem unrecognized_line_ignored_witness :
    ('\n' ∉ "foo bar baz".toList ∧ noReservedPrefix (trim "foo bar baz".toList) = true ∧
      regexExec (trim "foo bar baz".toList) = none) ∧
    parseMermaid (joinLines ([] ++ "foo bar baz".toList :: [])) = parseMermaid (joinLines ([] ++ [])) ∧
    parseMermaid "foo bar baz".toList = defaultData ∧ defaultData.points.length = 0 :=
  ⟨by decide, unrecognized_line_ignored [] [] "foo bar baz".toList (by decide) (by decide) (by decide),
    unrecognized_line_ignored [] [] "foo bar baz".toList (by decide) (by decide) (by decide), rfl⟩

/-! ## Trimming and prefix removal -/

theorem trim_of_trimmed (s : Str) (h : Trimmed s) : trim s = s := by
  obtain ⟨hh, hl⟩ := h
  cases s with
  | nil => rfl
  | cons c s =>
    have hc : isWhiteSpace c = false := hh c rfl
    have h1 : (c :: s).dropWhile isWhiteSpace = c :: s := by
      simp [List.dropWhile_cons, hc]
    unfold trim
    rw [h1, List.rdropWhile_eq_self_iff]
    intro hne
    have := hl _ (List.getLast?_eq_getLast _ hne)
    simp [this]

theorem trim_cons_whiteSpace (c : Char) (s : Str) (hc : isWhiteSpace c = true) :
    trim (c :: s) = trim s := by
  unfold trim
  rw [List.dropWhile_cons, if_pos hc]

theorem trimmed_append (a b : Str) (ha : a ≠ []) (hb : b ≠ [])
    (hh : ∀ c ∈ a.head?, isWhiteSpace c = false)
    (hl : ∀ c ∈ b.getLast?, isWhiteSpace c = false) : Trimmed (a ++ b) := by
  constructor
  · intro c hc
    apply hh c
    cases a with
    | nil => exact absurd rfl ha
    | cons x a => simpa using hc
  · intro c hc
    apply hl c
    rw [List.getLast?_append] at hc
    cases hb' : b.getLast? with
    | none => exact absurd (List.getLast?_eq_none_iff.1 hb') hb
    | some y => rw [hb'] at hc; simpa using hc

theorem replaceFirst_leading (pat s : Str) (hp : pat ≠ []) :
    replaceFirst pat [] (pat ++ s) = s := by
  cases pat with
  | nil => exact absurd rfl hp
  | cons p pat =>
    have hpre : (p :: pat).isPrefixOf (p :: (pat ++ s)) = true := by
      rw [← List.cons_append, List.isPrefixOf_iff_prefix]
      exact List.prefix_append _ _
    show replaceFirst (p :: pat) [] (p :: (pat ++ s)) = s
    rw [replaceFirst, if_pos hpre, ← List.cons_append, List.drop_left]
    rfl

/-- The second, third and fourth quadrant tokens are not matched by an earlier rule. -/
theorem quadrant_line (d : ChartData) (rest : Str) :
    processLine d ("quadrant-1".toList ++ rest)
      = { d with quadrants := { d.quadrants with q1 := trim rest } } ∧
    processLine d ("quadrant-2".toList ++ rest)
      = { d with quadrants := { d.quadrants with q2 := trim rest } } ∧
    processLine d ("quadrant-3".toList ++ rest)
      = { d with quadrants := { d.quadrants with q3 := trim rest } } ∧
    processLine d ("quadrant-4".toList ++ rest)
      = { d with quadrants := { d.quadrants with q4 := trim rest } } := by
  refine ⟨?_, ?_, ?_, ?_⟩
  · rw [processLine_q1 d _ (by simp [startsWith, List.isPrefixOf_cons₂])
      (by simp [startsWith, List.isPrefixOf_cons₂]) (by simp [startsWith, List.isPrefixOf_cons₂])
      (by simp [startsWith, List.isPrefixOf_cons₂]) (by simp [startsWith, List.isPrefixOf_cons₂]),
      replaceFirst_leading _ _ (by decide)]
  · rw [processLine_q2 d _ (by simp [startsWith, List.isPrefixOf_cons₂])
      (by simp [startsWith, List.isPrefixOf_cons₂]) (by simp [startsWith, List.isPrefixOf_cons₂])
      (by simp [startsWith, List.isPrefixOf_cons₂]) (by simp [startsWith, List.isPrefixOf_cons₂])
      (by simp [startsWith, List.isPrefixOf_cons₂]),
      replaceFirst_leading _ _ (by decide)]
  · rw [processLine_q3 d _ (by simp [startsWith, List.isPrefixOf_cons₂])
      (by simp [startsWith, List.isPrefixOf_cons₂]) (by simp [startsWith, List.isPrefixOf_cons₂])
      (by simp [startsWith, List.isPrefixOf_cons₂]) (by simp [startsWith, List.isPrefixOf_cons₂])
      (by simp [startsWith, List.isPrefixOf_cons₂]) (by simp [startsWith, List.isPrefixOf_cons₂]),
      replaceFirst_leading _ _ (by decide)]
  · rw [processLine_q4 d _ (by simp [startsWith, List.isPrefixOf_cons₂])
      (by simp [startsWith, List.isPrefixOf_cons₂]) (by simp [startsWith, List.isPrefixOf_cons₂])
      (by simp [startsWith, List.isPrefixOf_cons₂]) (by simp [startsWith, List.isPrefixOf_cons₂])
      (by simp [startsWith, List.isPrefixOf_cons₂]) (by simp [startsWith, List.isPrefixOf_cons₂])
      (by simp [startsWith, List.isPrefixOf_cons₂]),
      replaceFirst_leading _ _ (by decide)]

theorem title_line (d : ChartData) (rest : Str) :
    processLine d ("title".toList ++ rest) = { d with title := trim rest } := by
  rw [processLine_title d _ (by simp [startsWith, List.isPrefixOf_cons₂])
      (by simp [startsWith, List.isPrefixOf_cons₂]), replaceFirst_leading _ _ (by decide)]

theorem parseMermaid_single (s : Str) (h : '\n' ∉ s) (hne : trim s ≠ []) :
    parseMermaid s = processLine defaultData (trim s) := by
  rw [parseMermaid_eq_foldl, sourceLines_single s h]
  cases ht : trim s with
  | nil => exact absurd ht hne
  | cons c r => rfl

/-- Trimming a line `tok t`, where `tok` is a token without white space at its
ends and `t` is trimmed, keeps the token in front; what follows the token
trims to `t`. -/
theorem trim_token_space (tok t : Str) (htok : tok ≠ [])
    (hh : ∀ c ∈ tok.head?, isWhiteSpace c = false)
    (hl : ∀ c ∈ tok.getLast?, isWhiteSpace c = false) (ht : Trimmed t) :
    ∃ r, trim (tok ++ ' ' :: t) = tok ++ r ∧ trim r = t := by
  cases t with
  | nil =>
    refine ⟨[], ?_, rfl⟩
    have h1 : (tok ++ [' ']).dropWhile isWhiteSpace = tok ++ [' '] := by
      cases tok with
      | nil => exact absurd rfl htok
      | cons x tok =>
        have hx : isWhiteSpace x = false := hh x rfl
        simp [List.dropWhile_cons, hx]
    unfold trim
    rw [h1, List.rdropWhile_concat, if_pos (by decide), List.append_nil,
      List.rdropWhile_eq_self_iff]
    intro hne
    have := hl _ (List.getLast?_eq_getLast _ hne)
    simp [this]
  | cons y t =>
    refine ⟨' ' :: y :: t, ?_, ?_⟩
    · apply trim_of_trimmed
      apply trimmed_append _ _ htok (by simp) hh
      intro c hc
      apply ht.2 c
      simpa [List.getLast?_cons_cons] using hc
    · rw [trim_cons_whiteSpace _ _ (by decide)]
      exact trim_of_trimmed _ ht

theorem not_mem_token_space (tok t : Str) (h1 : '\n' ∉ tok) (h2 : '\n' ∉ t) :
    '\n' ∉ tok ++ ' ' :: t := by
  intro h
  rcases List.mem_append.1 h with h | h
  · exact h1 h
  · rcases List.mem_cons.1 h with h | h
    · exact absurd h (by decide)
    · exact h2 h

/-- C8: directive text round-trips unchanged.  For a string `t` without line
break and without leading or trailing white space, the text `title t` parses
to the default model with title exactly `t`, and `quadrant-k t` to the default
model with that quadrant label exactly `t`. -/
theorem directive_text_roundtrip (t : Str) (hnl : '\n' ∉ t) (ht : Trimmed t) :
    parseMermaid ("title ".toList ++ t) = { defaultData with title := t } ∧
    parseMermaid ("quadrant-1 ".toList ++ t)
      = { defaultData with quadrants := { defaultData.quadrants with q1 := t } } ∧
    parseMermaid ("quadrant-2 ".toList ++ t)
      = { defaultData with quadrants := { defaultData.quadrants with q2 := t } } ∧
    parseMermaid ("quadrant-3 ".toList ++ t)
      = { defaultData with quadrants := { defaultData.quadrants with q3 := t } } ∧
    parseMermaid ("quadrant-4 ".toList ++ t)
      = { defaultData with quadrants := { defaultData.quadrants with q4 := t } } := by
  refine ⟨?_, ?_, ?_, ?_, ?_⟩
  · obtain ⟨r, h1, h2⟩ := trim_token_space "title".toList t (by decide) (by decide) (by decide) ht
    show parseMermaid ("title".toList ++ ' ' :: t) = _
    rw [parseMermaid_single _ (not_mem_token_space _ _ (by decide) hnl) (by rw [h1]; simp),
      h1, title_line, h2]
  · obtain ⟨r, h1, h2⟩ :=
      trim_token_space "quadrant-1".toList t (by decide) (by decide) (by decide) ht
    show parseMermaid ("quadrant-1".toList ++ ' ' :: t) = _
    rw [parseMermaid_single _ (not_mem_token_space _ _ (by decide) hnl) (by rw [h1]; simp),
      h1, (quadrant_line _ _).1, h2]
  · obtain ⟨r, h1, h2⟩ :=
      trim_token_space "quadrant-2".toList t (by decide) (by decide) (by decide) ht
    show parseMermaid ("quadrant-2".toList ++ ' ' :: t) = _
    rw [parseMermaid_single _ (not_mem_token_space _ _ (by decide) hnl) (by rw [h1]; simp),
      h1, (quadrant_line _ _).2.1, h2]
  · obtain ⟨r, h1, h2⟩ :=
      trim_token_space "quadrant-3".toList t (by decide) (by decide) (by decide) ht
    show parseMermaid ("quadrant-3".toList ++ ' ' :: t) = _
    rw [parseMermaid_single _ (not_mem_token_space _ _ (by decide) hnl) (by rw [h1]; simp),
      h1, (quadrant_line _ _).2.2.1, h2]
  · obtain ⟨r, h1, h2⟩ :=
      trim_token_space "quadrant-4".toList t (by decide) (by decide) (by decide) ht
    show parseMermaid ("quadrant-4".toList ++ ' ' :: t) = _
    rw [parseMermaid_single _ (not_mem_token_space _ _ (by decide) hnl) (by rw [h1]; simp),
      h1, (quadrant_line _ _).2.2.2, h2]

theorem directive_text_roundtrip_witness :
    ('\n' ∉ "My title: a Title".toList ∧ Trimmed "My title: a Title".toList) ∧
    (parseMermaid "title My title: a Title".toList).title = "My title: a Title".toList ∧
    (parseMermaid "quadrant-3 My title: a Title".toList).quadrants.q3
      = "My title: a Title".toList :=
  ⟨⟨by decide, by decide⟩,
   congrArg ChartData.title
      (directive_text_roundtrip "My title: a Title".toList (by decide) (by decide)).1,
   congrArg (fun d => d.quadrants.q3)
      (directive_text_roundtrip "My title: a Title".toList (by decide) (by decide)).2.2.2.1⟩

/-- C9: quadrant directives are prefix-matched.  A line that starts with the
token `quadrant-k` sets that quadrant label to the trimmed rest of the line and
changes nothing else; so `quadrant-10` sets `q1` to `0` and `quadrant-10 X`
sets `q1` to `0 X`. -/
theorem quadrant_prefix_matched (d : ChartData) (rest : Str) :
    processLine d ("quadrant-1".toList ++ rest)
      = { d with quadrants := { d.quadrants with q1 := trim rest } } ∧
    processLine d ("quadrant-2".toList ++ rest)
      = { d with quadrants := { d.quadrants with q2 := trim rest } } ∧
    processLine d ("quadrant-3".toList ++ rest)
      = { d with quadrants := { d.quadrants with q3 := trim rest } } ∧
    processLine d ("quadrant-4".toList ++ rest)
      = { d with quadrants := { d.quadrants with q4 := trim rest } } ∧
    processLine d "quadrant-10".toList
      = { d with quadrants := { d.quadrants with q1 := "0".toList } } ∧
    processLine d "quadrant-10 X".toList
      = { d with quadrants := { d.quadrants with q1 := "0 X".toList } } ∧
    parseMermaid "quadrant-10".toList
      = { defaultData with quadrants := { defaultData.quadrants with q1 := "0".toList } } ∧
    parseMermaid "quadrant-10 X".toList
      = { defaultData with quadrants := { defaultData.quadrants with q1 := "0 X".toList } } :=
  ⟨(quadrant_line d rest).1, (quadrant_line d rest).2.1, (quadrant_line d rest).2.2.1,
    (quadrant_line d rest).2.2.2, (quadrant_line d "0".toList).1,
    (quadrant_line d "0 X".toList).1, by decide, by decide⟩

/-! ## Splitting at the arrow separator -/

theorem split_arrow_head (r : Str) :
    split ("-->".toList ++ r) "-->".toList = [] :: split r "-->".toList := by
  show splitAux _ ('-' :: '-' :: '>' :: r) 0 = _
  rw [splitAux, if_pos (by simp [List.isPrefixOf_cons₂])]
  rfl

theorem split_arrow_cons (c : Char) (rest : Str)
    (h : ¬ "-->".toList.isPrefixOf (c :: rest) = true) :
    split (c :: rest) "-->".toList = consHead c (split rest "-->".toList) := by
  show splitAux _ (c :: rest) 0 = _
  rw [splitAux, if_neg h]
  rfl

theorem countOcc_arrow_head (r : Str) :
    countOcc "-->".toList ("-->".toList ++ r) = 1 + countOcc "-->".toList r := by
  show countOcc _ ('-' :: '-' :: '>' :: r) = _
  rw [countOcc, countOcc, countOcc, if_pos (by simp [List.isPrefixOf_cons₂]),
    if_neg (by simp [List.isPrefixOf_cons₂]), if_neg (by simp [List.isPrefixOf_cons₂])]
  omega

theorem arrow_prefix_form (s : Str) (h : "-->".toList.isPrefixOf s = true) :
    ∃ r, s = "-->".toList ++ r := by
  rw [List.isPrefixOf_iff_prefix] at h
  obtain ⟨r, hr⟩ := h
  exact ⟨r, hr.symm⟩

theorem split_arrow_of_countOcc_zero (s : Str) (h : countOcc "-->".toList s = 0) :
    split s "-->".toList = [s] := by
  induction s with
  | nil => rfl
  | cons c s ih =>
    rw [countOcc] at h
    have hp : ¬ "-->".toList.isPrefixOf (c :: s) = true := by
      intro hp; rw [if_pos hp] at h; omega
    rw [if_neg hp] at h
    rw [split_arrow_cons c s hp, ih (by omega)]
    rfl

theorem countOcc_arrow_pos (b a : Str) :
    1 ≤ countOcc "-->".toList (b ++ "-->".toList ++ a) := by
  induction b with
  | nil =>
    rw [List.nil_append, countOcc_arrow_head]; omega
  | cons c b ih =>
    rw [List.cons_append, List.cons_append, countOcc]; omega

theorem split_arrow_once (b a : Str)
    (h : countOcc "-->".toList (b ++ "-->".toList ++ a) = 1) :
    split (b ++ "-->".toList ++ a) "-->".toList = [b, a] := by
  induction b with
  | nil =>
    rw [List.nil_append] at h ⊢
    rw [countOcc_arrow_head] at h
    rw [split_arrow_head, split_arrow_of_countOcc_zero a (by omega)]
  | cons c b ih =>
    rw [List.cons_append, List.cons_append] at h ⊢
    rw [countOcc] at h
    have hpos := countOcc_arrow_pos b a
    have hp : ¬ "-->".toList.isPrefixOf (c :: (b ++ "-->".toList ++ a)) = true := by
      intro hp; rw [if_pos hp] at h; omega
    rw [if_neg hp] at h
    rw [split_arrow_cons c _ hp, ih (by omega)]
    rfl

theorem split_arrow_length (n : Nat) :
    ∀ s : Str, s.length ≤ n →
      (split s "-->".toList).length = countOcc "-->".toList s + 1 := by
  induction n with
  | zero =>
    intro s hs
    have : s = [] := List.length_eq_zero.1 (by omega)
    subst this; rfl
  | succ n ih =>
    intro s hs
    cases s with
    | nil => rfl
    | cons c rest =>
      by_cases hp : "-->".toList.isPrefixOf (c :: rest) = true
      · obtain ⟨r, hr⟩ := arrow_prefix_form _ hp
        rw [hr, split_arrow_head, countOcc_arrow_head, List.length_cons, ih r]
        · omega
        · have : (c :: rest).length = ("-->".toList ++ r).length := by rw [hr]
          simp only [List.length_cons, List.length_append, String.toList] at this hs
          simp at this
          omega
      · rw [split_arrow_cons c rest hp, countOcc, if_neg hp, Nat.zero_add]
        have h1 := ih rest (by simpa using hs)
        cases hs' : split rest "-->".toList with
        | nil => rw [hs'] at h1; simp at h1
        | cons p ps => rw [hs'] at h1; simpa [consHead] using h1

theorem xAxis_line (d : ChartData) (rest : Str) :
    processLine d ("x-axis".toList ++ rest) =
      match split rest "-->".toList with
      | [p0, p1] => { d with xAxis := { left := trim p0, right := trim p1 } }
      | _ => d := by
  rw [processLine_xAxis d _ (by simp [startsWith, List.isPrefixOf_cons₂])
      (by simp [startsWith, List.isPrefixOf_cons₂]) (by simp [startsWith, List.isPrefixOf_cons₂]),
      replaceFirst_leading _ _ (by decide)]

theorem yAxis_line (d : ChartData) (rest : Str) :
    processLine d ("y-axis".toList ++ rest) =
      match split rest "-->".toList with
      | [p0, p1] => { d with yAxis := { bottom := trim p0, top := trim p1 } }
      | _ => d := by
  rw [processLine_yAxis d _ (by simp [startsWith, List.isPrefixOf_cons₂])
      (by simp [startsWith, List.isPrefixOf_cons₂]) (by simp [startsWith, List.isPrefixOf_cons₂])
      (by simp [startsWith, List.isPrefixOf_cons₂]),
      replaceFirst_leading _ _ (by decide)]

theorem split_arrow_not_two (rest : Str) (h : countOcc "-->".toList rest ≠ 1) (p0 p1 : Str) :
    split rest "-->".toList ≠ [p0, p1] := by
  intro he
  have := split_arrow_length rest.length rest (Nat.le_refl _)
  rw [he] at this
  simp only [List.length_cons, List.length_nil] at this
  omega

theorem countOcc_arrow_space (R : Str) :
    countOcc "-->".toList (' ' :: R) = countOcc "-->".toList R := by
  rw [countOcc, if_neg (by simp [List.isPrefixOf_cons₂])]; omega

/-- C7: axis directives.  On a line `x-axis R` (resp. `y-axis R`) in which the
separator `-->` occurs exactly once, the axis labels become the trimmed texts
before and after the separator (bottom then top for the y axis); when the
separator occurs never or more than once the line changes nothing.  No other
field of the model is touched.  The same holds for whatever follows the token
directly (`rest`), of which `R` after a space is the instance written in the
notation. -/
theorem axis_directives (d : ChartData) (b a R : Str) :
    (countOcc "-->".toList (b ++ "-->".toList ++ a) = 1 →
      processLine d ("x-axis ".toList ++ (b ++ "-->".toList ++ a))
        = { d with xAxis := { left := trim b, right := trim a } } ∧
      processLine d ("y-axis ".toList ++ (b ++ "-->".toList ++ a))
        = { d with yAxis := { bottom := trim b, top := trim a } } ∧
      processLine d ("x-axis".toList ++ (b ++ "-->".toList ++ a))
        = { d with xAxis := { left := trim b, right := trim a } } ∧
      processLine d ("y-axis".toList ++ (b ++ "-->".toList ++ a))
        = { d with yAxis := { bottom := trim b, top := trim a } }) ∧
    (countOcc "-->".toList R ≠ 1 →
      processLine d ("x-axis ".toList ++ R) = d ∧ processLine d ("y-axis ".toList ++ R) = d ∧
      processLine d ("x-axis".toList ++ R) = d ∧ processLine d ("y-axis".toList ++ R) = d) ∧
    processLine d "x-axis a --> b --> c".toList = d ∧
    parseMermaid "x-axis Low --> High\ny-axis Weak --> Strong".toList =
      { defaultData with
        xAxis := { left := "Low".toList, right := "High".toList }
        yAxis := { bottom := "Weak".toList, top := "Strong".toList } } := by
  refine ⟨?_, ?_, ?_, by decide⟩
  rotate_left 2
  · have e1 : "x-axis a --> b --> c".toList = "x-axis".toList ++ " a --> b --> c".toList := rfl
    rw [e1, xAxis_line]
    split
    · next p0 p1 he => exact absurd he (split_arrow_not_two _ (by decide) p0 p1)
    · rfl
  · intro h
    have hs : countOcc "-->".toList ((' ' :: b) ++ "-->".toList ++ a) = 1 := by
      rw [List.cons_append, List.cons_append, countOcc_arrow_space]; exact h
    have e1 : "x-axis ".toList ++ (b ++ "-->".toList ++ a)
        = "x-axis".toList ++ ((' ' :: b) ++ "-->".toList ++ a) := rfl
    have e2 : "y-axis ".toList ++ (b ++ "-->".toList ++ a)
        = "y-axis".toList ++ ((' ' :: b) ++ "-->".toList ++ a) := rfl
    refine ⟨?_, ?_, ?_, ?_⟩
    · rw [e1, xAxis_line, split_arrow_once _ _ hs]
      show { d with xAxis := { left := trim (' ' :: b), right := trim a } } = _
      rw [trim_cons_whiteSpace _ _ (by decide)]
    · rw [e2, yAxis_line, split_arrow_once _ _ hs]
      show { d with yAxis := { bottom := trim (' ' :: b), top := trim a } } = _
      rw [trim_cons_whiteSpace _ _ (by decide)]
    · rw [xAxis_line, split_arrow_once _ _ h]
    · rw [yAxis_line, split_arrow_once _ _ h]
  · intro h
    have hs : countOcc "-->".toList (' ' :: R) ≠ 1 := by
      rw [countOcc_arrow_space]; exact h
    have e1 : "x-axis ".toList ++ R = "x-axis".toList ++ (' ' :: R) := rfl
    have e2 : "y-axis ".toList ++ R = "y-axis".toList ++ (' ' :: R) := rfl
    refine ⟨?_, ?_, ?_, ?_⟩
    · rw [e1, xAxis_line]
      split
      · next p0 p1 he => exact absurd he (split_arrow_not_two _ hs p0 p1)
      · rfl
    · rw [e2, yAxis_line]
      split
      · next p0 p1 he => exact absurd he (split_arrow_not_two _ hs p0 p1)
      · rfl
    · rw [xAxis_line]
      split
      · next p0 p1 he => exact absurd he (split_arrow_not_two _ h p0 p1)
      · rfl
    · rw [yAxis_line]
      split
      · next p0 p1 he => exact absurd he (split_arrow_not_two _ h p0 p1)
      · rfl

theorem axis_directives_witness :
    (countOcc "-->".toList ("Low ".toList ++ "-->".toList ++ " High".toList) = 1 ∧
      countOcc "-->".toList "a --> b --> c".toList ≠ 1) ∧
    processLine defaultData "x-axis Low --> High".toList
      = { defaultData with xAxis := { left := "Low".toList, right := "High".toList } } ∧
    processLine defaultData "y-axis a --> b --> c".toList = defaultData :=
  ⟨by decide,
   ((axis_directives defaultData "Low ".toList " High".toList "a --> b --> c".toList).1
      (by decide)).1,
   ((axis_directives defaultData "Low ".toList " High".toList "a --> b --> c".toList).2.1
      (by decide)).2.1⟩

/-! ## The data-point rule -/

theorem isPrefixOf_append_colon (tok L rest : Str) (h : ':' ∉ tok) :
    tok.isPrefixOf (L ++ ':' :: rest) = tok.isPrefixOf L := by
  induction tok generalizing L with
  | nil => simp
  | cons t ts ih =>
    have ht : t ≠ ':' := fun e => h (by simp [e])
    have hts : ':' ∉ ts := fun e => h (by simp [e])
    cases L with
    | nil => simp [List.isPrefixOf, ht]
    | cons c L => simp [List.isPrefixOf_cons₂, ih L hts]

theorem noReservedPrefix_append_colon (L rest : Str) :
    noReservedPrefix (L ++ ':' :: rest) = noReservedPrefix L := by
  unfold noReservedPrefix reservedTokens startsWith
  simp only [List.all_cons, List.all_nil]
  rw [isPrefixOf_append_colon _ _ _ (by decide), isPrefixOf_append_colon _ _ _ (by decide),
    isPrefixOf_append_colon _ _ _ (by decide), isPrefixOf_append_colon _ _ _ (by decide),
    isPrefixOf_append_colon _ _ _ (by decide), isPrefixOf_append_colon _ _ _ (by decide),
    isPrefixOf_append_colon _ _ _ (by decide), isPrefixOf_append_colon _ _ _ (by decide)]

theorem includes_of_mem (c : Char) (s : Str) (h : c ∈ s) : includes s [c] = true := by
  induction s with
  | nil => simp at h
  | cons d s ih =>
    rw [includes]
    rcases List.mem_cons.1 h with h | h
    · subst h; simp [List.isPrefixOf_cons₂]
    · rw [ih h]; simp

theorem takeWhile_append_stop (p : Char → Bool) (x : Str) (c : Char) (r : Str)
    (hx : ∀ a ∈ x, p a = true) (hc : p c = false) :
    (x ++ c :: r).takeWhile p = x ∧ (x ++ c :: r).dropWhile p = c :: r := by
  induction x with
  | nil => simp [List.takeWhile_cons, List.dropWhile_cons, hc]
  | cons a x ih =>
    have ha : p a = true := hx a (List.mem_cons_self _ _)
    obtain ⟨h1, h2⟩ := ih fun b hb => hx b (List.mem_cons_of_mem _ hb)
    simp [List.takeWhile_cons, List.dropWhile_cons, ha, h1, h2]

theorem numRun_append_stop (x : Str) (c : Char) (r : Str) (hne : x ≠ [])
    (hx : ∀ a ∈ x, isNumChar a = true) (hc : isNumChar c = false) :
    numRun (x ++ c :: r) = some (x, c :: r) := by
  obtain ⟨h1, h2⟩ := takeWhile_append_stop isNumChar x c r hx hc
  unfold numRun
  rw [h1, h2]
  cases x with
  | nil => exact absurd rfl hne
  | cons a x => rfl

/-- The tail of the pattern matches the text `: [x, y]` and captures `x`, `y`. -/
theorem matchTail_shape (x y : Str) (hx : x ≠ []) (hy : y ≠ [])
    (hxn : ∀ a ∈ x, isNumChar a = true) (hyn : ∀ a ∈ y, isNumChar a = true) :
    matchTail (':' :: ' ' :: '[' :: (x ++ ',' :: ' ' :: (y ++ [']']))) = some (x, y) := by
  unfold matchTail
  have e1 : expectChar ':' (':' :: ' ' :: '[' :: (x ++ ',' :: ' ' :: (y ++ [']'])))
      = some (' ' :: '[' :: (x ++ ',' :: ' ' :: (y ++ [']']))) := rfl
  have e2 : (' ' :: '[' :: (x ++ ',' :: ' ' :: (y ++ [']']))).dropWhile isWhiteSpace
      = '[' :: (x ++ ',' :: ' ' :: (y ++ [']'])) := by
    rw [List.dropWhile_cons, if_pos (by decide), List.dropWhile_cons, if_neg (by decide)]
  have e3 : (' ' :: (y ++ [']'])).dropWhile isWhiteSpace = y ++ [']'] := by
    rw [List.dropWhile_cons, if_pos (by decide)]
    cases y with
    | nil => exact absurd rfl hy
    | cons a y =>
      have ha : isNumChar a = true := hyn a (List.mem_cons_self _ _)
      have hw : isWhiteSpace a = false := by
        unfold isNumChar isDigit at ha
        unfold isWhiteSpace
        rcases Bool.or_eq_true _ _ ▸ ha with h | h
        · simp only [Bool.and_eq_true, decide_eq_true_eq] at h
          simp only [Bool.or_eq_false_iff, decide_eq_false_iff_not, Bool.and_eq_false_iff]
          omega
        · have : a = '.' := by simpa using h
          subst this; decide
      rw [List.cons_append, List.dropWhile_cons, if_neg (by simp [hw])]
  rw [e1, Option.some_bind, e2]
  simp only [expectChar, if_true, Option.some_bind]
  unfold matchCoords
  rw [numRun_append_stop x ',' _ hx hxn (by decide)]
  simp only [Option.some_bind, expectChar, if_true]
  rw [e3, numRun_append_stop y ']' [] hy hyn (by decide)]
  simp only [Option.some_bind, expectChar, if_true]

theorem matchTail_none_of_head (s : Str) (h : ∀ r, s ≠ ':' :: r) : matchTail s = none := by
  unfold matchTail
  cases s with
  | nil => rfl
  | cons c r =>
    have hc : c ≠ ':' := fun e => h r (by rw [e])
    simp [expectChar, hc]

theorem matchHere_none_of_no_colon (s : Str) (h : ':' ∉ s) : matchHere s = none := by
  induction s with
  | nil => rfl
  | cons c s ih =>
    have hs : ':' ∉ s := fun e => h (List.mem_cons_of_mem _ e)
    rw [matchHere, ih hs, matchTail_none_of_head s (fun r e => hs (by rw [e]; simp))]
    split <;> rfl

theorem matchHere_colon_none (s : Str) (h : ':' ∉ s) : matchHere (':' :: s) = none := by
  rw [matchHere, matchHere_none_of_no_colon s h,
    matchTail_none_of_head s (fun r e => h (by rw [e]; simp))]
  split <;> rfl

/-- The greedy group takes the whole label when no later colon exists. -/
theorem matchHere_label (L T : Str) (g : Str × Str) (hL : L ≠ [])
    (hlt : ∀ c ∈ L, isLineTerminator c = false) (hT : ':' ∉ T)
    (htail : matchTail (':' :: T) = some g) :
    matchHere (L ++ ':' :: T) = some (L, g.1, g.2) := by
  induction L with
  | nil => exact absurd rfl hL
  | cons c L ih =>
    have hc : isLineTerminator c = false := hlt c (List.mem_cons_self _ _)
    rw [List.cons_append, matchHere]
    simp only [hc, Bool.false_eq_true, if_false]
    cases L with
    | nil =>
      rw [List.nil_append, matchHere_colon_none T hT, htail]
    | cons c2 L =>
      rw [ih (by simp) fun a ha => hlt a (List.mem_cons_of_mem _ ha)]

theorem regexExec_of_matchHere (s : Str) (m : Str × Str × Str) (h : matchHere s = some m) :
    regexExec s = some m := by
  cases s with
  | nil => simp [matchHere] at h
  | cons c s => rw [regexExec, h]

/-! ## Rounding to the nearest double -/

theorem roundHalfEven_cases (m : ℚ) : roundHalfEven m = ⌊m⌋ ∨ roundHalfEven m = ⌊m⌋ + 1 := by
  unfold roundHalfEven
  split_ifs <;> simp

theorem roundHalfEven_intCast (z : ℤ) : roundHalfEven (z : ℚ) = z := by
  unfold roundHalfEven
  rw [Int.floor_intCast]
  simp

theorem roundHalfEven_mono (m₁ m₂ : ℚ) (h : m₁ ≤ m₂) : roundHalfEven m₁ ≤ roundHalfEven m₂ := by
  have hf : ⌊m₁⌋ ≤ ⌊m₂⌋ := Int.floor_mono h
  rcases lt_or_eq_of_le hf with hlt | heq
  · have h1 : roundHalfEven m₁ ≤ ⌊m₁⌋ + 1 := by
      rcases roundHalfEven_cases m₁ with e | e <;> omega
    have h2 : ⌊m₂⌋ ≤ roundHalfEven m₂ := by
      rcases roundHalfEven_cases m₂ with e | e <;> omega
    omega
  · unfold roundHalfEven
    rw [← heq]
    have hd : m₁ - ⌊m₁⌋ ≤ m₂ - ⌊m₁⌋ := by linarith
    split_ifs <;> first | omega | (exfalso; linarith)

theorem roundHalfEven_near (m : ℚ) : |(roundHalfEven m : ℚ) - m| ≤ 1 / 2 := by
  have h1 := Int.floor_le m
  have h2 := Int.lt_floor_add_one m
  unfold roundHalfEven
  rw [abs_le]
  split_ifs <;> push_cast <;> constructor <;> linarith

theorem roundHalfEven_eq_of_near (m : ℚ) (n : ℤ) (h1 : (n : ℚ) - 1 / 2 < m)
    (h2 : m < (n : ℚ) + 1 / 2) : roundHalfEven m = n := by
  have hf : ⌊m⌋ = n ∨ ⌊m⌋ = n - 1 := by
    have a1 : (n : ℚ) - 1 < m := by linarith
    have a2 : m < (n : ℚ) + 1 := by linarith
    have b1 : n - 1 ≤ ⌊m⌋ := Int.le_floor.2 (by push_cast; linarith)
    have b2 : ⌊m⌋ < n + 1 := Int.floor_lt.2 (by push_cast; linarith)
    omega
  have g1 := Int.floor_le m
  have g2 := Int.lt_floor_add_one m
  unfold roundHalfEven
  rcases hf with hf | hf
  · rw [hf] at g1 g2 ⊢
    rw [if_pos (by linarith)]
  · rw [hf] at g1 g2 ⊢
    push_cast at g1 g2 ⊢
    rw [if_neg (by linarith), if_pos (by linarith)]
    ring

theorem two_zpow_pos (k : ℤ) : (0 : ℚ) < 2 ^ k := zpow_pos (by norm_num) k

theorem log_le_self (q : ℚ) (hq : 0 < q) : (2 : ℚ) ^ Int.log 2 q ≤ q := by
  have h := Int.zpow_log_le_self (b := 2) (by norm_num) hq
  simpa using h

theorem lt_log_succ (q : ℚ) : q < (2 : ℚ) ^ (Int.log 2 q + 1) := by
  have h := Int.lt_zpow_succ_log_self (b := 2) (by norm_num) q
  simpa using h

theorem log_eq_of_bounds (q : ℚ) (e : ℤ) (hq : 0 < q) (h1 : (2 : ℚ) ^ e ≤ q)
    (h2 : q < (2 : ℚ) ^ (e + 1)) : Int.log 2 q = e := by
  have a : e ≤ Int.log 2 q := by
    rw [← Int.zpow_le_iff_le_log (by norm_num) hq]
    simpa using h1
  have b : Int.log 2 q < e + 1 := by
    rw [← Int.lt_zpow_iff_log_lt (by norm_num) hq]
    simpa using h2
  omega

theorem doubleExponent_normal (q : ℚ) (e : ℤ) (hq : 0 < q) (he : -1022 ≤ e)
    (h1 : (2 : ℚ) ^ e ≤ q) (h2 : q < (2 : ℚ) ^ (e + 1)) : doubleExponent q = e := by
  unfold doubleExponent
  rw [log_eq_of_bounds q e hq h1 h2]
  exact max_eq_left he

theorem doubleExponent_subnormal (q : ℚ) (hq : 0 < q) (h : q < (2 : ℚ) ^ (-1022 : ℤ)) :
    doubleExponent q = -1022 := by
  unfold doubleExponent
  apply max_eq_right
  have b : Int.log 2 q < -1022 := by
    rw [← Int.lt_zpow_iff_log_lt (by norm_num) hq]
    simpa using h
  omega

theorem doubleExponent_mono (q₁ q₂ : ℚ) (h1 : 0 < q₁) (h : q₁ ≤ q₂) :
    doubleExponent q₁ ≤ doubleExponent q₂ := by
  unfold doubleExponent
  exact max_le_max (Int.log_mono_right h1 h) le_rfl

theorem quot_lt (q : ℚ) : q / 2 ^ (doubleExponent q - 52) < 2 ^ 53 := by
  rw [div_lt_iff₀ (two_zpow_pos _)]
  have h1 := lt_log_succ q
  have h2 : (2 : ℚ) ^ (Int.log 2 q + 1) ≤ 2 ^ (doubleExponent q + 1) :=
    zpow_le_zpow_right₀ (by norm_num) (by unfold doubleExponent; have := le_max_left (Int.log 2 q) (-1022); omega)
  have h3 : (2 : ℚ) ^ (doubleExponent q + 1) = 2 ^ 53 * 2 ^ (doubleExponent q - 52) := by
    rw [show doubleExponent q + 1 = 53 + (doubleExponent q - 52) by ring,
      zpow_add₀ (by norm_num)]
    norm_num
  linarith

theorem quot_ge (q : ℚ) (hq : 0 < q) (hn : -1022 ≤ Int.log 2 q) :
    2 ^ 52 ≤ q / 2 ^ (doubleExponent q - 52) := by
  rw [le_div_iff₀ (two_zpow_pos _)]
  have hE : doubleExponent q = Int.log 2 q := max_eq_left hn
  have h1 := log_le_self q hq
  have h3 : (2 : ℚ) ^ (Int.log 2 q) = 2 ^ 52 * 2 ^ (doubleExponent q - 52) := by
    rw [hE]
    conv_lhs => rw [show Int.log 2 q = 52 + (Int.log 2 q - 52) by ring, zpow_add₀ (by norm_num)]
    norm_num
  linarith

theorem roundPos_nonneg (q : ℚ) (hq : 0 < q) : 0 ≤ roundPos q := by
  unfold roundPos
  apply mul_nonneg _ (two_zpow_pos _).le
  have h0 : (0 : ℚ) ≤ q / 2 ^ (doubleExponent q - 52) := (div_pos hq (two_zpow_pos _)).le
  have := roundHalfEven_mono _ _ (by simpa using h0 : ((0 : ℤ) : ℚ) ≤ _)
  rw [roundHalfEven_intCast] at this
  exact_mod_cast this

theorem roundPos_le_top (q : ℚ) : roundPos q ≤ 2 ^ (doubleExponent q + 1) := by
  have h3 : (2 : ℚ) ^ (doubleExponent q + 1) = 2 ^ 53 * 2 ^ (doubleExponent q - 52) := by
    rw [show doubleExponent q + 1 = 53 + (doubleExponent q - 52) by ring,
      zpow_add₀ (by norm_num)]
    norm_num
  rw [h3]
  unfold roundPos
  apply mul_le_mul_of_nonneg_right _ (two_zpow_pos _).le
  have h := roundHalfEven_mono _ (((2 ^ 53 : ℤ)) : ℚ) (by push_cast; exact (quot_lt q).le)
  rw [roundHalfEven_intCast] at h
  exact_mod_cast h

theorem roundPos_ge_bottom (q : ℚ) (hq : 0 < q) (hn : -1022 ≤ Int.log 2 q) :
    2 ^ (doubleExponent q) ≤ roundPos q := by
  have h3 : (2 : ℚ) ^ (doubleExponent q) = 2 ^ 52 * 2 ^ (doubleExponent q - 52) := by
    conv_lhs => rw [show doubleExponent q = 52 + (doubleExponent q - 52) by ring,
      zpow_add₀ (by norm_num)]
    norm_num
  rw [h3]
  unfold roundPos
  apply mul_le_mul_of_nonneg_right _ (two_zpow_pos _).le
  have h := roundHalfEven_mono (((2 ^ 52 : ℤ)) : ℚ) _ (by push_cast; exact quot_ge q hq hn)
  rw [roundHalfEven_intCast] at h
  exact_mod_cast h

theorem roundPos_mono (q₁ q₂ : ℚ) (h1 : 0 < q₁) (h : q₁ ≤ q₂) : roundPos q₁ ≤ roundPos q₂ := by
  have h2 : 0 < q₂ := lt_of_lt_of_le h1 h
  rcases lt_or_eq_of_le (doubleExponent_mono q₁ q₂ h1 h) with hlt | heq
  · have a := roundPos_le_top q₁
    have hn : -1022 ≤ Int.log 2 q₂ := by
      unfold doubleExponent at hlt
      have := le_max_right (Int.log 2 q₁) (-1022)
      rcases le_total (Int.log 2 q₂) (-1022) with c | c
      · rw [max_eq_right c] at hlt; omega
      · exact c
    have b := roundPos_ge_bottom q₂ h2 hn
    have c : (2 : ℚ) ^ (doubleExponent q₁ + 1) ≤ 2 ^ (doubleExponent q₂) :=
      zpow_le_zpow_right₀ (by norm_num) (by omega)
    linarith
  · unfold roundPos
    rw [heq]
    apply mul_le_mul_of_nonneg_right _ (two_zpow_pos _).le
    have := roundHalfEven_mono (q₁ / 2 ^ (doubleExponent q₂ - 52)) (q₂ / 2 ^ (doubleExponent q₂ - 52))
      (div_le_div_of_nonneg_right h (two_zpow_pos _).le)
    exact_mod_cast this

theorem roundPos_near (q : ℚ) :
    |roundPos q - q| ≤ 2 ^ (doubleExponent q - 52) / 2 := by
  have hu := two_zpow_pos (doubleExponent q - 52)
  have h := roundHalfEven_near (q / 2 ^ (doubleExponent q - 52))
  have e : roundPos q - q
      = ((roundHalfEven (q / 2 ^ (doubleExponent q - 52)) : ℚ) - q / 2 ^ (doubleExponent q - 52))
        * 2 ^ (doubleExponent q - 52) := by
    unfold roundPos
    field_simp
  rw [e, abs_mul, abs_of_pos hu]
  calc _ ≤ 1 / 2 * 2 ^ (doubleExponent q - 52) := mul_le_mul_of_nonneg_right h hu.le
    _ = _ := by ring

theorem roundPos_natCast (n : ℕ) (h1 : 1 ≤ n) (h2 : n < 2 ^ 53) : roundPos (n : ℚ) = n := by
  have hl : Int.log 2 (n : ℚ) = (Nat.log 2 n : ℤ) := Int.log_natCast 2 n
  have hk : Nat.log 2 n < 53 := Nat.log_lt_of_lt_pow (by omega) h2
  have hE : doubleExponent (n : ℚ) = (Nat.log 2 n : ℤ) := by
    unfold doubleExponent
    rw [hl]
    apply max_eq_left
    omega
  obtain ⟨d, hd⟩ : ∃ d : ℕ, (Nat.log 2 n : ℤ) - 52 = -(d : ℤ) := ⟨52 - Nat.log 2 n, by omega⟩
  have hq : (n : ℚ) / 2 ^ (doubleExponent (n : ℚ) - 52) = ((n * 2 ^ d : ℤ) : ℚ) := by
    rw [hE, hd, zpow_neg, zpow_natCast]
    push_cast
    field_simp
  unfold roundPos
  rw [hq, roundHalfEven_intCast, hE, hd, zpow_neg, zpow_natCast]
  push_cast
  field_simp

theorem roundDouble_natCast (n : ℕ) (h2 : n < 2 ^ 53) : roundDouble (n : ℚ) = .fin n := by
  unfold roundDouble
  rcases Nat.eq_zero_or_pos n with h | h
  · subst h
    simp
  · have hp : (0 : ℚ) < n := by exact_mod_cast h
    rw [if_neg hp.ne', if_pos hp, roundPos_natCast n h h2, if_pos]
    have : (n : ℚ) < 2 ^ 53 := by exact_mod_cast h2
    have : (2 : ℚ) ^ 53 < 2 ^ 1024 := by norm_num
    linarith

theorem roundDouble_bounds (q : ℚ) (a b : ℕ) (hb : b < 2 ^ 53) (h1 : (a : ℚ) ≤ q)
    (h2 : q ≤ b) : ∃ r, roundDouble q = .fin r ∧ (a : ℚ) ≤ r ∧ r ≤ b := by
  have ha0 : (0 : ℚ) ≤ a := Nat.cast_nonneg a
  rcases eq_or_lt_of_le (le_trans ha0 h1) with h | hq
  · refine ⟨0, by rw [← h]; simp [roundDouble], by rw [h]; exact h1, by rw [h]; exact h2⟩
  · have hbq : (0 : ℚ) < b := lt_of_lt_of_le hq h2
    have hb1 : 1 ≤ b := by exact_mod_cast hbq
    have hub : roundPos q ≤ b := by
      have := roundPos_mono q b hq h2
      rwa [roundPos_natCast b hb1 hb] at this
    have hlb : (a : ℚ) ≤ roundPos q := by
      rcases Nat.eq_zero_or_pos a with h | h
      · subst h
        simpa using roundPos_nonneg q hq
      · have hap : (0 : ℚ) < a := by exact_mod_cast h
        have := roundPos_mono a q hap h1
        rwa [roundPos_natCast a h (by
          have : (a : ℚ) ≤ b := le_trans h1 h2
          have : a ≤ b := by exact_mod_cast this
          omega)] at this
    refine ⟨roundPos q, ?_, hlb, hub⟩
    unfold roundDouble
    rw [if_neg hq.ne', if_pos hq, if_pos]
    have : (b : ℚ) < 2 ^ 53 := by exact_mod_cast hb
    have : (2 : ℚ) ^ 53 < 2 ^ 1024 := by norm_num
    linarith

theorem roundDouble_lower (q : ℚ) (a : ℕ) (ha : a < 2 ^ 53) (h1 : (a : ℚ) ≤ q) :
    roundDouble q = .posInf ∨ ∃ r, roundDouble q = .fin r ∧ (a : ℚ) ≤ r := by
  have ha0 : (0 : ℚ) ≤ a := Nat.cast_nonneg a
  rcases eq_or_lt_of_le (le_trans ha0 h1) with h | hq
  · right
    refine ⟨0, by rw [← h]; simp [roundDouble], by rw [h]; exact h1⟩
  · have hlb : (a : ℚ) ≤ roundPos q := by
      rcases Nat.eq_zero_or_pos a with h | h
      · subst h
        simpa using roundPos_nonneg q hq
      · have hap : (0 : ℚ) < a := by exact_mod_cast h
        have := roundPos_mono a q hap h1
        rwa [roundPos_natCast a h ha] at this
    unfold roundDouble
    rw [if_neg hq.ne', if_pos hq]
    by_cases hf : roundPos q < 2 ^ 1024
    · right
      exact ⟨roundPos q, by rw [if_pos hf], hlb⟩
    · left
      rw [if_neg hf]

theorem roundDouble_near (q r : ℚ) (h0 : 0 ≤ q) (h1 : q < 1024) (h : roundDouble q = .fin r) :
    |r - q| ≤ 1 / 2 ^ 44 := by
  rcases eq_or_lt_of_le h0 with h0 | hq
  · subst h0
    simp only [roundDouble, if_true] at h
    injection h with h
    subst h
    norm_num
  · unfold roundDouble at h
    rw [if_neg hq.ne', if_pos hq] at h
    split_ifs at h
    injection h with h
    subst h
    have hn := roundPos_near q
    have hE : doubleExponent q ≤ 9 := by
      unfold doubleExponent
      apply max_le _ (by norm_num)
      have : Int.log 2 q < 10 := by
        rw [← Int.lt_zpow_iff_log_lt (by norm_num) hq]
        norm_num
        linarith
      omega
    have hu : (2 : ℚ) ^ (doubleExponent q - 52) ≤ 2 ^ (-43 : ℤ) :=
      zpow_le_zpow_right₀ (by norm_num) (by omega)
    have e : (2 : ℚ) ^ (-43 : ℤ) / 2 = 1 / 2 ^ 44 := by
      rw [zpow_neg]
      norm_num
    calc |roundPos q - q| ≤ 2 ^ (doubleExponent q - 52) / 2 := hn
      _ ≤ 2 ^ (-43 : ℤ) / 2 := div_le_div_of_nonneg_right hu (by norm_num)
      _ = 1 / 2 ^ 44 := e

theorem roundHalfEven_tie (m : ℚ) (n : ℤ) (hn : n % 2 = 0)
    (h : m = (n : ℚ) + 1 / 2 ∨ m = (n : ℚ) - 1 / 2) : roundHalfEven m = n := by
  rcases h with h | h
  · have hf : ⌊m⌋ = n := by
      rw [Int.floor_eq_iff]
      constructor <;> linarith
    unfold roundHalfEven
    rw [hf, h, if_neg (by norm_num), if_neg (by norm_num), if_pos hn]
  · have hf : ⌊m⌋ = n - 1 := by
      rw [Int.floor_eq_iff]
      push_cast
      constructor <;> linarith
    unfold roundHalfEven
    rw [hf, h]
    push_cast
    rw [if_neg (by norm_num), if_neg (by norm_num), if_neg (by omega)]
    ring

/-- Evaluation of `roundDouble` in the normal range below `2 ^ 53`: the value
scaled by `2 ^ k` has its leading bit at position 52, and is rounded there. -/
theorem roundDouble_normal (q : ℚ) (k : ℕ) (n : ℤ) (hk : k ≤ 1074)
    (h1 : 2 ^ 52 ≤ q * 2 ^ k) (h2 : q * 2 ^ k < 2 ^ 53)
    (hr : roundHalfEven (q * 2 ^ k) = n) : roundDouble q = .fin ((n : ℚ) / 2 ^ k) := by
  have hkp : (0 : ℚ) < 2 ^ k := by positivity
  have hq : 0 < q := by
    by_contra hc
    have : q * 2 ^ k ≤ 0 := mul_nonpos_of_nonpos_of_nonneg (not_lt.1 hc) hkp.le
    have : (0 : ℚ) < 2 ^ 52 := by positivity
    linarith
  have hz : (2 : ℚ) ^ ((52 : ℤ) - k - 52) = 1 / 2 ^ k := by
    rw [show (52 : ℤ) - k - 52 = -(k : ℤ) by ring, zpow_neg, zpow_natCast, one_div]
  have hE : doubleExponent q = 52 - (k : ℤ) := by
    apply doubleExponent_normal q _ hq (by omega)
    · rw [show (52 : ℤ) - k = 52 + -(k : ℤ) by ring, zpow_add₀ (by norm_num), zpow_neg,
        zpow_natCast]
      rw [← div_eq_mul_inv, div_le_iff₀ hkp]
      exact_mod_cast h1
    · rw [show (52 : ℤ) - k + 1 = 53 + -(k : ℤ) by ring, zpow_add₀ (by norm_num), zpow_neg,
        zpow_natCast]
      rw [← div_eq_mul_inv, lt_div_iff₀ hkp]
      exact_mod_cast h2
  have hm : q / 2 ^ (doubleExponent q - 52) = q * 2 ^ k := by
    rw [hE, hz]
    field_simp
  have hp : roundPos q = (n : ℚ) / 2 ^ k := by
    unfold roundPos
    rw [hm, hr, hE, hz]
    field_simp
  have hle : (n : ℚ) ≤ 2 ^ 53 := by
    have := roundHalfEven_mono _ (((2 ^ 53 : ℤ)) : ℚ) (by push_cast; exact h2.le)
    rw [hr, roundHalfEven_intCast] at this
    exact_mod_cast this
  unfold roundDouble
  rw [if_neg hq.ne', if_pos hq, hp, if_pos]
  have h1k : (1 : ℚ) ≤ 2 ^ k := one_le_pow₀ (by norm_num)
  calc (n : ℚ) / 2 ^ k ≤ n := div_le_self (by
          have := roundHalfEven_mono (((0 : ℤ)) : ℚ) (q * 2 ^ k) (by
            push_cast; exact (mul_pos hq hkp).le)
          rw [hr, roundHalfEven_intCast] at this
          exact_mod_cast this) h1k
    _ ≤ 2 ^ 53 := hle
    _ < 2 ^ 1024 := by norm_num

/-- Evaluation of `roundDouble` in the subnormal range: the spacing is `2 ^ -1074`. -/
theorem roundDouble_subnormal (q : ℚ) (n : ℤ) (hq : 0 < q) (h2 : q * 2 ^ 1074 < 2 ^ 52)
    (hr : roundHalfEven (q * 2 ^ 1074) = n) : roundDouble q = .fin ((n : ℚ) / 2 ^ 1074) := by
  have hkp : (0 : ℚ) < 2 ^ 1074 := by positivity
  have hz : (2 : ℚ) ^ ((-1022 : ℤ) - 52) = 1 / 2 ^ 1074 := by
    rw [show (-1022 : ℤ) - 52 = -((1074 : ℕ) : ℤ) by norm_num, zpow_neg, zpow_natCast, one_div]
  have hE : doubleExponent q = -1022 := by
    apply doubleExponent_subnormal q hq
    rw [show (-1022 : ℤ) = ((52 : ℕ) : ℤ) + -((1074 : ℕ) : ℤ) by norm_num,
      zpow_add₀ (by norm_num), zpow_neg, zpow_natCast, zpow_natCast, ← div_eq_mul_inv,
      lt_div_iff₀ hkp]
    exact h2
  have hm : q / 2 ^ (doubleExponent q - 52) = q * 2 ^ 1074 := by
    rw [hE, hz]
    field_simp
  have hp : roundPos q = (n : ℚ) / 2 ^ 1074 := by
    unfold roundPos
    rw [hm, hr, hE, hz]
    field_simp
  have hle : (n : ℚ) ≤ 2 ^ 52 := by
    have := roundHalfEven_mono _ (((2 ^ 52 : ℤ)) : ℚ) (by push_cast; exact h2.le)
    rw [hr, roundHalfEven_intCast] at this
    exact_mod_cast this
  unfold roundDouble
  rw [if_neg hq.ne', if_pos hq, hp, if_pos]
  have h1k : (1 : ℚ) ≤ 2 ^ 1074 := one_le_pow₀ (by norm_num)
  calc (n : ℚ) / 2 ^ 1074 ≤ n := div_le_self (by
          have := roundHalfEven_mono (((0 : ℤ)) : ℚ) (q * 2 ^ 1074) (by
            push_cast; exact (mul_pos hq hkp).le)
          rw [hr, roundHalfEven_intCast] at this
          exact_mod_cast this) h1k
    _ ≤ 2 ^ 52 := hle
    _ < 2 ^ 1024 := by norm_num

/-- One rounded operation with a result between two small integers: the result
is finite, stays between them, and is within `2 ^ -44` of the exact value. -/
theorem roundDouble_step (q : ℚ) (a b : ℕ) (hb : b ≤ 1000) (h1 : (a : ℚ) ≤ q) (h2 : q ≤ b) :
    ∃ r, roundDouble q = .fin r ∧ (a : ℚ) ≤ r ∧ r ≤ b ∧ |r - q| ≤ 1 / 2 ^ 44 := by
  obtain ⟨r, hr, ha, hb2⟩ := roundDouble_bounds q a b (by omega) h1 h2
  refine ⟨r, hr, ha, hb2, roundDouble_near q r (le_trans (Nat.cast_nonneg a) h1) ?_ hr⟩
  have : (b : ℚ) ≤ 1000 := by exact_mod_cast hb
  linarith

theorem roundDouble_example_half : roundDouble (1 / 2) = .fin (1 / 2) := by
  have h := roundDouble_normal (1 / 2) 53 (2 ^ 52) (by norm_num) (by norm_num) (by norm_num)
    (by
      have e : (1 / 2 : ℚ) * 2 ^ 53 = ((2 ^ 52 : ℤ) : ℚ) := by norm_num
      rw [e, roundHalfEven_intCast])
  rw [h]
  norm_num

theorem roundDouble_example_long :
    roundDouble (49999999999999999 / 10 ^ 17) = .fin (1 / 2) := by
  have h := roundDouble_normal (49999999999999999 / 10 ^ 17) 54 9007199254740992 (by norm_num)
    (by norm_num) (by norm_num)
    (roundHalfEven_eq_of_near _ _ (by norm_num) (by norm_num))
  rw [h]
  norm_num

theorem roundDouble_example_tiny : roundDouble (1 / 10 ^ 331) = .fin 0 := by
  have h := roundDouble_subnormal (1 / 10 ^ 331) 0 (by positivity) (by norm_num)
    (roundHalfEven_eq_of_near _ _ (by norm_num) (by norm_num))
  rw [h]
  norm_num

/-- A result of magnitude `2 ^ 1024` or more overflows to `Infinity`. -/
theorem roundDouble_overflow (q : ℚ) (h : 2 ^ 1024 ≤ q) : roundDouble q = .posInf := by
  have hq : 0 < q := lt_of_lt_of_le (by positivity) h
  have hl : (1024 : ℤ) ≤ Int.log 2 q := by
    have h2 : (((2 : ℕ) : ℚ)) = 2 := by norm_num
    have h' : (((2 : ℕ) : ℚ)) ^ ((1024 : ℕ) : ℤ) ≤ q := by
      rw [zpow_natCast, h2]
      exact h
    exact (Int.zpow_le_iff_le_log (by norm_num) hq).1 h'
  have hE : (1024 : ℤ) ≤ doubleExponent q := le_trans hl (le_max_left _ _)
  have hb := roundPos_ge_bottom q hq (by omega)
  have hz : (2 : ℚ) ^ ((1024 : ℕ) : ℤ) ≤ 2 ^ (doubleExponent q) :=
    zpow_le_zpow_right₀ (by norm_num) hE
  rw [zpow_natCast] at hz
  unfold roundDouble
  rw [if_neg hq.ne', if_pos hq, if_neg (not_lt.2 (le_trans hz hb))]

/-! ## Decimal numerals -/

theorem digitsVal_foldl (ds : Str) (n : Nat) :
    ds.foldl (fun n c => 10 * n + digitVal c) n = n * 10 ^ ds.length + digitsVal ds := by
  unfold digitsVal
  induction ds generalizing n with
  | nil => simp
  | cons d ds ih =>
    rw [List.foldl_cons, List.foldl_cons, ih, ih (10 * 0 + digitVal d), List.length_cons]
    ring

theorem digitsVal_append (a b : Str) :
    digitsVal (a ++ b) = digitsVal a * 10 ^ b.length + digitsVal b := by
  conv_lhs => unfold digitsVal
  rw [List.foldl_append, digitsVal_foldl]
  rfl

theorem takeWhile_all (p : Char → Bool) (x : Str) (hx : ∀ a ∈ x, p a = true) :
    x.takeWhile p = x ∧ x.dropWhile p = [] := by
  induction x with
  | nil => simp
  | cons a x ih =>
    have ha : p a = true := hx a (List.mem_cons_self _ _)
    obtain ⟨h1, h2⟩ := ih fun b hb => hx b (List.mem_cons_of_mem _ hb)
    simp [List.takeWhile_cons, List.dropWhile_cons, ha, h1, h2]

theorem filter_all (p : Char → Bool) (x : Str) (hx : ∀ a ∈ x, p a = true) :
    x.filter p = x := List.filter_eq_self.2 hx

/-- A numeral is a digit string, or two digit strings around one decimal point. -/
theorem isNumeral_form (s : Str) (h : isNumeral s = true) :
    ∃ ip fp : Str, (∀ a ∈ ip, isDigit a = true) ∧ (∀ a ∈ fp, isDigit a = true) ∧
      ((s = ip ∧ ip ≠ []) ∨ (s = ip ++ '.' :: fp ∧ (ip ≠ [] ∨ fp ≠ []))) := by
  unfold isNumeral at h
  simp only [Bool.and_eq_true, List.all_eq_true, decide_eq_true_eq, List.any_eq_true] at h
  obtain ⟨⟨hall, hcount⟩, d, hd, hdd⟩ := h
  have hsplit := List.takeWhile_append_dropWhile isDigit s
  have hip : ∀ a ∈ s.takeWhile isDigit, isDigit a = true := fun a ha => List.mem_takeWhile_imp ha
  cases hr : s.dropWhile isDigit with
  | nil =>
    rw [hr, List.append_nil] at hsplit
    refine ⟨s.takeWhile isDigit, [], hip, by simp, Or.inl ⟨hsplit.symm, ?_⟩⟩
    intro he
    rw [he] at hsplit
    rw [← hsplit] at hd
    simp at hd
  | cons c fp =>
    rw [hr] at hsplit
    have hcnd : isDigit c = false := by
      have := List.head_dropWhile_not isDigit s (by rw [hr]; simp)
      simpa [hr] using this
    have hcs : c ∈ s := by rw [← hsplit]; simp
    have hc : c = '.' := by
      have := hall c hcs
      unfold isNumChar at this
      rw [hcnd] at this
      simpa using this
    subst hc
    have hfp : ∀ a ∈ fp, isDigit a = true := by
      intro a ha
      have has : a ∈ s := by rw [← hsplit]; simp [ha]
      have hna := hall a has
      unfold isNumChar at hna
      rcases Bool.or_eq_true _ _ ▸ hna with h | h
      · exact h
      · have ha' : a = '.' := by simpa using h
        subst ha'
        exfalso
        rw [← hsplit, List.count_append, List.count_cons_self] at hcount
        have : 0 < List.count '.' fp := List.count_pos_iff.2 ha
        omega
    refine ⟨s.takeWhile isDigit, fp, hip, hfp, Or.inr ⟨hsplit.symm, ?_⟩⟩
    by_contra hcon
    push_neg at hcon
    obtain ⟨h1, h2⟩ := hcon
    rw [h1, h2] at hsplit
    rw [← hsplit] at hd
    simp at hd
    subst hd
    exact absurd hdd (by decide)

theorem digit_facts (a : Char) (h : isDigit a = true) :
    isWhiteSpace a = false ∧ a ≠ '+' ∧ a ≠ '-' ∧ a ≠ 'I' ∧ a ≠ '.' := by
  refine ⟨?_, ?_, ?_, ?_, ?_⟩
  · unfold isDigit at h
    unfold isWhiteSpace
    simp only [Bool.and_eq_true, decide_eq_true_eq] at h
    simp only [Bool.or_eq_false_iff, decide_eq_false_iff_not, Bool.and_eq_false_iff]
    omega
  all_goals intro e; subst e; exact absurd h (by decide)

/-- On a text that starts with a digit or a decimal point `parseFloat` has no
white space to skip and no sign to read. -/
theorem parseFloat_unsigned (c : Char) (r : Str) (hc : isDigit c = true ∨ c = '.') :
    parseFloat (c :: r) = parseUnsigned (c :: r) := by
  have hw : isWhiteSpace c = false := by
    rcases hc with h | h
    · exact (digit_facts c h).1
    · subst h; decide
  have hp : c ≠ '+' := by
    rcases hc with h | h
    · exact (digit_facts c h).2.1
    · subst h; decide
  have hm : c ≠ '-' := by
    rcases hc with h | h
    · exact (digit_facts c h).2.2.1
    · subst h; decide
  unfold parseFloat
  rw [List.dropWhile_cons_of_neg (by rw [hw]; decide)]
  split
  · rename_i heq
    exact absurd (List.cons.inj heq).1 hp
  · rename_i heq
    exact absurd (List.cons.inj heq).1 hm
  · rfl

theorem not_infinity (c : Char) (r : Str) (hc : isDigit c = true ∨ c = '.') :
    "Infinity".toList.isPrefixOf (c :: r) = false := by
  have hi : c ≠ 'I' := by
    rcases hc with h | h
    · exact (digit_facts c h).2.2.2.1
    · subst h; decide
  show ('I' :: "nfinity".toList).isPrefixOf (c :: r) = false
  rw [List.isPrefixOf_cons₂]
  have : ('I' == c) = false := by
    rw [beq_eq_false_iff_ne]
    exact fun e => hi e.symm
  rw [this]
  rfl

theorem parseFloat_digits (ip : Str) (hip : ∀ a ∈ ip, isDigit a = true) (hne : ip ≠ []) :
    parseFloat ip = roundDouble (digitsVal ip) := by
  obtain ⟨h1, h2⟩ := takeWhile_all isDigit ip hip
  cases ip with
  | nil => exact absurd rfl hne
  | cons a ip =>
    have ha : isDigit a = true := hip a (List.mem_cons_self _ _)
    rw [parseFloat_unsigned a ip (Or.inl ha)]
    unfold parseUnsigned
    rw [not_infinity a ip (Or.inl ha), h2]
    simp only [h1]
    rfl

theorem parseFloat_point (ip fp : Str) (hip : ∀ a ∈ ip, isDigit a = true)
    (hfp : ∀ a ∈ fp, isDigit a = true) (hne : ip ≠ [] ∨ fp ≠ []) :
    parseFloat (ip ++ '.' :: fp)
      = roundDouble ((digitsVal ip : ℚ) + (digitsVal fp : ℚ) / 10 ^ fp.length) := by
  obtain ⟨h1, h2⟩ := takeWhile_append_stop isDigit ip '.' fp hip (by decide)
  obtain ⟨h3, h4⟩ := takeWhile_all isDigit fp hfp
  have hhead : ∃ c r, ip ++ '.' :: fp = c :: r ∧ (isDigit c = true ∨ c = '.') := by
    cases ip with
    | nil => exact ⟨'.', fp, rfl, Or.inr rfl⟩
    | cons a ip => exact ⟨a, ip ++ '.' :: fp, rfl, Or.inl (hip a (List.mem_cons_self _ _))⟩
  obtain ⟨c, r, hcr, hc⟩ := hhead
  have e1 : parseFloat (ip ++ '.' :: fp) = parseUnsigned (ip ++ '.' :: fp) := by
    rw [hcr]
    exact parseFloat_unsigned c r hc
  have e2 : "Infinity".toList.isPrefixOf (ip ++ '.' :: fp) = false := by
    rw [hcr]
    exact not_infinity c r hc
  rw [e1]
  unfold parseUnsigned
  rw [e2, h2]
  simp only [h1, h3, h4, if_true]
  have : (ip.isEmpty && fp.isEmpty) = false := by
    rcases hne with h | h
    · cases ip with
      | nil => exact absurd rfl h
      | cons a ip => rfl
    · cases fp with
      | nil => exact absurd rfl h
      | cons a fp => simp
  rw [this]
  simp [exponentPart]

theorem decimalValue_nonneg (s : Str) : 0 ≤ decimalValue s := by
  unfold decimalValue
  positivity

/-- On a decimal numeral `parseFloat` reads the whole text and returns the
double nearest to the number it denotes. -/
theorem parseFloat_numeral (s : Str) (h : isNumeral s = true) :
    parseFloat s = roundDouble (decimalValue s) := by
  obtain ⟨ip, fp, hip, hfp, hs | hs⟩ := isNumeral_form s h
  · obtain ⟨rfl, hne⟩ := hs
    rw [parseFloat_digits _ hip hne]
    unfold decimalValue
    rw [filter_all _ _ hip, (takeWhile_all isDigit _ hip).2]
    simp
  · obtain ⟨rfl, hne⟩ := hs
    rw [parseFloat_point ip fp hip hfp hne]
    unfold decimalValue
    rw [(takeWhile_append_stop isDigit ip '.' fp hip (by decide)).2, List.filter_append,
      filter_all _ _ hip, List.filter_cons_of_neg (by decide), filter_all _ _ hfp,
      digitsVal_append]
    simp only [List.length_cons, Nat.add_sub_cancel, Nat.cast_add, Nat.cast_mul, Nat.cast_pow,
      Nat.cast_ofNat]
    congr 1
    field_simp

/-- Clamping after rounding is rounding after clamping: for an exact value
`v ≥ 0` the clamp of the double nearest to `v` is the double nearest to
`min v 1`. -/
theorem clamp_roundDouble (v : ℚ) (hv : 0 ≤ v) :
    mathMin (mathMax (roundDouble v) (.fin 0)) (.fin 1) = roundDouble (min v 1) := by
  rcases le_or_lt v 1 with h1 | h1
  · obtain ⟨r, hr, h0, h2⟩ := roundDouble_bounds v 0 1 (by norm_num) (by simpa using hv)
      (by simpa using h1)
    rw [min_eq_left h1, hr]
    simp only [mathMax, mathMin]
    rw [max_eq_left (by simpa using h0), min_eq_left (by simpa using h2)]
  · have e1 : roundDouble 1 = .fin 1 := by simpa using roundDouble_natCast 1 (by norm_num)
    rw [min_eq_right h1.le, e1]
    rcases roundDouble_lower v 1 (by norm_num) (by simpa using h1.le) with h | ⟨r, hr, h2⟩
    · rw [h]
      rfl
    · rw [hr]
      simp only [mathMax, mathMin]
      have h2' : (1 : ℚ) ≤ r := by simpa using h2
      rw [max_eq_left (by linarith), min_eq_right h2']

theorem clampCoord_numeral (s : Str) (h : isNumeral s = true) :
    clampCoord s = roundDouble (min (decimalValue s) 1) := by
  unfold clampCoord
  rw [parseFloat_numeral s h]
  exact clamp_roundDouble _ (decimalValue_nonneg s)

theorem digitsVal_zeros (n : Nat) : digitsVal (List.replicate n '0') = 0 := by
  induction n with
  | zero => rfl
  | succ n ih =>
    rw [List.replicate_succ', digitsVal_append, ih]
    rfl

theorem digitsVal_nines (n : Nat) : digitsVal (List.replicate n '9') + 1 = 10 ^ n := by
  induction n with
  | zero => rfl
  | succ n ih =>
    rw [List.replicate_succ', digitsVal_append]
    have e : digitsVal ['9'] = 9 := by decide
    rw [e]
    simp only [List.length_singleton, pow_one]
    rw [pow_succ]
    omega

/-- The numeral `0.0…01` with `n` zeros after the point is read as the double
nearest to `10 ^ -(n+1)`. -/
theorem parseFloat_small (n : Nat) :
    parseFloat ("0.".toList ++ List.replicate n '0' ++ "1".toList)
      = roundDouble (1 / 10 ^ (n + 1)) := by
  have e : "0.".toList ++ List.replicate n '0' ++ "1".toList
      = "0".toList ++ '.' :: (List.replicate n '0' ++ "1".toList) := by
    simp
  have hfp : ∀ a ∈ List.replicate n '0' ++ "1".toList, isDigit a = true := by
    intro a ha
    rcases List.mem_append.1 ha with h | h
    · rw [List.eq_of_mem_replicate h]
      decide
    · have : a = '1' := by simpa using h
      rw [this]
      decide
  rw [e, parseFloat_point _ _ (by decide) hfp (Or.inl (by decide)), digitsVal_append,
    digitsVal_zeros]
  have e0 : digitsVal "0".toList = 0 := by decide
  have e1 : digitsVal "1".toList = 1 := by decide
  have el : (List.replicate n '0' ++ "1".toList).length = n + 1 := by simp
  rw [e0, e1, el]
  congr 1
  norm_num

/-- The numeral made of `n` nines is read as the double nearest to `10 ^ n - 1`. -/
theorem parseFloat_nines (n : Nat) (hn : 0 < n) :
    parseFloat (List.replicate n '9') = roundDouble (10 ^ n - 1) := by
  have h9 : ∀ a ∈ List.replicate n '9', isDigit a = true := by
    intro a ha
    rw [List.eq_of_mem_replicate ha]
    decide
  have hne : List.replicate n '9' ≠ [] := by
    intro h
    have := congrArg List.length h
    rw [List.length_replicate] at this
    simp at this
    omega
  rw [parseFloat_digits _ h9 hne]
  have h2 : ((digitsVal (List.replicate n '9') + 1 : ℕ) : ℚ) = ((10 ^ n : ℕ) : ℚ) := by
    rw [digitsVal_nines n]
  push_cast at h2
  congr 1
  linarith

/-- Long numerals: seventeen significant digits round to the neighbouring
double `0.5`; a numeral below the smallest subnormal underflows to zero; a
numeral of four hundred digits overflows to `Infinity`, which the clamp turns
into `1`. -/
theorem parseFloat_examples :
    parseFloat "0.49999999999999999".toList = .fin (1 / 2) ∧
    parseFloat ("0.".toList ++ List.replicate 330 '0' ++ "1".toList) = .fin 0 ∧
    parseFloat (List.replicate 400 '9') = .posInf ∧
    clampCoord (List.replicate 400 '9') = .fin 1 := by
  have p3 : parseFloat (List.replicate 400 '9') = .posInf := by
    rw [parseFloat_nines 400 (by norm_num)]
    apply roundDouble_overflow
    norm_num
  refine ⟨?_, ?_, p3, ?_⟩
  · rw [parseFloat_numeral _ (by decide)]
    have h1 : digitsVal ("0.49999999999999999".toList.filter isDigit) = 49999999999999999 := by
      decide
    have h2 : ("0.49999999999999999".toList.dropWhile isDigit).length - 1 = 17 := by decide
    unfold decimalValue
    rw [h1, h2]
    have e : ((49999999999999999 : ℕ) : ℚ) / 10 ^ 17 = 49999999999999999 / 10 ^ 17 := by
      norm_num
    rw [e]
    exact roundDouble_example_long
  · have e : (330 + 1 : ℕ) = 331 := rfl
    rw [parseFloat_small 330, e]
    exact roundDouble_example_tiny
  · unfold clampCoord
    rw [p3]
    rfl

theorem isNumeral_numChars (s : Str) (h : isNumeral s = true) :
    s ≠ [] ∧ ∀ a ∈ s, isNumChar a = true := by
  unfold isNumeral at h
  simp only [Bool.and_eq_true, List.all_eq_true, decide_eq_true_eq, List.any_eq_true] at h
  obtain ⟨⟨hall, _⟩, d, hd, _⟩ := h
  exact ⟨List.ne_nil_of_mem hd, hall⟩

theorem numChar_facts (a : Char) (h : isNumChar a = true) :
    a ≠ ':' ∧ a ≠ '\n' := by
  constructor <;> intro e <;> subst e <;> exact absurd h (by decide)

/-- The line `L: [x, y]` for a label without line terminators and two numerals
reaches the data-point rule and matches with captures `L`, `x`, `y`. -/
theorem regexExec_data_line (L x y : Str) (hL : L ≠ [])
    (hlt : ∀ c ∈ L, isLineTerminator c = false)
    (hx : isNumeral x = true) (hy : isNumeral y = true) :
    regexExec (L ++ ": [".toList ++ x ++ ", ".toList ++ y ++ "]".toList) = some (L, x, y) := by
  obtain ⟨hxne, hxn⟩ := isNumeral_numChars x hx
  obtain ⟨hyne, hyn⟩ := isNumeral_numChars y hy
  have e : L ++ ": [".toList ++ x ++ ", ".toList ++ y ++ "]".toList
      = L ++ ':' :: (' ' :: '[' :: (x ++ ',' :: ' ' :: (y ++ [']']))) := by
    simp
  rw [e]
  apply regexExec_of_matchHere
  apply matchHere_label L _ (x, y) hL hlt
  · intro hmem
    simp only [List.mem_cons, List.mem_append, List.mem_singleton, List.not_mem_nil] at hmem
    rcases hmem with h | h | h | h | h | h | h
    · exact absurd h (by decide)
    · exact absurd h (by decide)
    · exact (numChar_facts _ (hxn _ h)).1 rfl
    · exact absurd h (by decide)
    · exact absurd h (by decide)
    · exact (numChar_facts _ (hyn _ h)).1 rfl
    · rcases h with h | h
      · exact absurd h (by decide)
      · exact h
  · exact matchTail_shape x y hxne hyne hxn hyn

/-- The single line `L: [x, y]` with a trimmed label and two numerals parses to
one point; each coordinate is the double nearest to the clamped numeral. -/
theorem parse_data_line (L x y : Str) (hL : L ≠ []) (hT : Trimmed L)
    (hlt : ∀ c ∈ L, isLineTerminator c = false) (hres : noReservedPrefix L = true)
    (hx : isNumeral x = true) (hy : isNumeral y = true) :
    parseMermaid (L ++ ": [".toList ++ x ++ ", ".toList ++ y ++ "]".toList) =
      { defaultData with
        points := [{ label := L
                     x := roundDouble (min (decimalValue x) 1)
                     y := roundDouble (min (decimalValue y) 1) }] } := by
  obtain ⟨hxne, hxn⟩ := isNumeral_numChars x hx
  obtain ⟨hyne, hyn⟩ := isNumeral_numChars y hy
  have hreg := regexExec_data_line L x y hL hlt hx hy
  have e : L ++ ": [".toList ++ x ++ ", ".toList ++ y ++ "]".toList
      = L ++ ':' :: (' ' :: '[' :: (x ++ ',' :: ' ' :: (y ++ [']']))) := by
    simp
  rw [e] at hreg ⊢
  generalize hl : L ++ ':' :: (' ' :: '[' :: (x ++ ',' :: ' ' :: (y ++ [']']))) = line at hreg ⊢
  have hnl : '\n' ∉ line := by
    rw [← hl]
    intro hmem
    simp only [List.mem_cons, List.mem_append, List.mem_singleton, List.not_mem_nil] at hmem
    rcases hmem with h | h | h | h | h | h | h | h
    · exact absurd (hlt _ h) (by decide)
    · exact absurd h (by decide)
    · exact absurd h (by decide)
    · exact absurd h (by decide)
    · exact (numChar_facts _ (hxn _ h)).2 rfl
    · exact absurd h (by decide)
    · exact absurd h (by decide)
    · rcases h with h | h
      · exact (numChar_facts _ (hyn _ h)).2 rfl
      · rcases h with h | h
        · exact absurd h (by decide)
        · exact h
  have htrim : trim line = line := by
    apply trim_of_trimmed
    rw [← hl]
    apply trimmed_append L _ hL (by simp) hT.1
    intro c hc
    have : (':' :: ' ' :: '[' :: (x ++ ',' :: ' ' :: (y ++ [']']))).getLast? = some ']' := by
      rw [show (':' :: ' ' :: '[' :: (x ++ ',' :: ' ' :: (y ++ [']'])))
        = (':' :: ' ' :: '[' :: (x ++ ',' :: ' ' :: y)) ++ [']'] by simp]
      exact List.getLast?_concat _
    rw [this] at hc
    have : c = ']' := by simpa using hc.symm
    subst this; decide
  have hne : trim line ≠ [] := by
    rw [htrim, ← hl]; cases L with
    | nil => exact absurd rfl hL
    | cons a L => simp
  have hpre : noReservedPrefix line = true := by
    rw [← hl, noReservedPrefix_append_colon]; exact hres
  have hi1 : includes line ":".toList = true :=
    includes_of_mem ':' line (by rw [← hl]; simp)
  have hi2 : includes line "[".toList = true :=
    includes_of_mem '[' line (by rw [← hl]; simp)
  have hi3 : includes line "]".toList = true :=
    includes_of_mem ']' line (by rw [← hl]; simp)
  rw [parseMermaid_single line hnl hne, htrim, processLine_dataRule _ _ hpre, hi1, hi2, hi3,
    hreg]
  simp only [Bool.and_self, if_true]
  rw [trim_of_trimmed L hT, clampCoord_numeral x hx, clampCoord_numeral y hy]
  rfl

/-- C4: data-point round trip.  For a non-empty label `L` without leading or
trailing white space, without line-break characters and not starting with a
reserved token (colons and square brackets are allowed in it), and two unsigned
decimal numerals `x`, `y`, the single line `L: [x, y]` parses to the default
model with exactly one point, labelled exactly `L`, whose coordinates are the
JavaScript numbers `min(x,1)` and `min(y,1)`, that is the doubles nearest to
the numbers the clamped numerals denote. -/
theorem data_point_roundtrip (L x y : Str) (hL : L ≠ []) (hT : Trimmed L)
    (hlt : ∀ c ∈ L, isLineTerminator c = false) (hres : noReservedPrefix L = true)
    (hx : isNumeral x = true) (hy : isNumeral y = true) :
    parseMermaid (L ++ ": [".toList ++ x ++ ", ".toList ++ y ++ "]".toList) =
      { defaultData with
        points := [{ label := L
                     x := roundDouble (min (decimalValue x) 1)
                     y := roundDouble (min (decimalValue y) 1) }] } :=
  parse_data_line L x y hL hT hlt hres hx hy

theorem decimalValue_examples :
    min (decimalValue "0.8".toList) 1 = 8 / 10 ∧ min (decimalValue "0.9".toList) 1 = 9 / 10 := by
  have h1 : digitsVal ("0.8".toList.filter isDigit) = 8 := by decide
  have h2 : ("0.8".toList.dropWhile isDigit).length - 1 = 1 := by decide
  have h3 : digitsVal ("0.9".toList.filter isDigit) = 9 := by decide
  have h4 : ("0.9".toList.dropWhile isDigit).length - 1 = 1 := by decide
  unfold decimalValue
  rw [h1, h2, h3, h4]
  constructor <;> norm_num

/-- The doubles written `0.8` and `0.9`. -/
theorem roundDouble_examples :
    roundDouble (8 / 10) = .fin (3602879701896397 / 4503599627370496) ∧
    roundDouble (9 / 10) = .fin (8106479329266893 / 9007199254740992) := by
  constructor
  · rw [roundDouble_normal (8 / 10) 53 7205759403792794 (by norm_num) (by norm_num)
      (by norm_num) (roundHalfEven_eq_of_near _ _ (by norm_num) (by norm_num))]
    norm_num
  · rw [roundDouble_normal (9 / 10) 53 8106479329266893 (by norm_num) (by norm_num)
      (by norm_num) (roundHalfEven_eq_of_near _ _ (by norm_num) (by norm_num))]
    norm_num

theorem data_point_roundtrip_witness :
    ("Alpha".toList ≠ [] ∧ Trimmed "Alpha".toList ∧
      (∀ c ∈ "Alpha".toList, isLineTerminator c = false) ∧
      noReservedPrefix "Alpha".toList = true ∧
      isNumeral "0.8".toList = true ∧ isNumeral "0.9".toList = true) ∧
    parseMermaid "Alpha: [0.8, 0.9]".toList =
      { defaultData with
        points := [{ label := "Alpha".toList
                     x := .fin (3602879701896397 / 4503599627370496)
                     y := .fin (8106479329266893 / 9007199254740992) }] } := by
  refine ⟨⟨by decide, by decide, by decide, by decide, by decide, by decide⟩, ?_⟩
  have h := data_point_roundtrip "Alpha".toList "0.8".toList "0.9".toList (by decide)
    (by decide) (by decide) (by decide) (by decide) (by decide)
  rw [decimalValue_examples.1, decimalValue_examples.2, roundDouble_examples.1,
    roundDouble_examples.2] at h
  exact h

/-! ## Lines the pattern rejects -/

theorem regexExec_none_of_tails (s : Str) (h : ∀ t, t <:+ s → matchTail t = none) :
    matchHere s = none ∧ regexExec s = none := by
  induction s with
  | nil => exact ⟨rfl, rfl⟩
  | cons c s ih =>
    obtain ⟨h1, h2⟩ := ih fun t ht => h t (ht.trans (List.suffix_cons c s))
    have h3 : matchTail s = none := h s (List.suffix_cons c s)
    have h4 : matchHere (c :: s) = none := by
      rw [matchHere, h1, h3]
      split <;> rfl
    exact ⟨h4, by rw [regexExec, h4, h2]⟩

theorem matchTail_bracket (t : Str) (g : Str × Str) (h : matchTail t = some g) :
    ∃ pre r2, t = pre ++ '[' :: r2 ∧ matchCoords r2 = some g := by
  unfold matchTail at h
  cases t with
  | nil => simp [expectChar] at h
  | cons c r1 =>
    by_cases hc : c = ':'
    · subst hc
      simp only [expectChar, if_true, Option.some_bind] at h
      cases hd : r1.dropWhile isWhiteSpace with
      | nil => rw [hd] at h; simp [expectChar] at h
      | cons d r2 =>
        rw [hd] at h
        by_cases hd2 : d = '['
        · subst hd2
          simp only [expectChar, if_true, Option.some_bind] at h
          refine ⟨':' :: r1.takeWhile isWhiteSpace, r2, ?_, h⟩
          rw [List.cons_append, ← hd, List.takeWhile_append_dropWhile]
        · simp [expectChar, hd2] at h
    · simp [expectChar, hc] at h

theorem bracket_unique (c : Char) (x y P Q : Str) (h : x ++ c :: y = P ++ c :: Q)
    (hP : c ∉ P) (hQ : c ∉ Q) : y = Q := by
  induction x generalizing P with
  | nil =>
    cases P with
    | nil => simpa using h
    | cons d P =>
      simp only [List.nil_append, List.cons_append, List.cons.injEq] at h
      exact absurd (h.1 ▸ List.mem_cons_self _ _) hP
  | cons a x ih =>
    cases P with
    | nil =>
      simp only [List.nil_append, List.cons_append, List.cons.injEq] at h
      exact absurd (h.2 ▸ (by simp : c ∈ x ++ c :: y)) hQ
    | cons d P =>
      simp only [List.cons_append, List.cons.injEq] at h
      exact ih P h.2 fun hm => hP (List.mem_cons_of_mem _ hm)

theorem dropWhile_starts_stop (p : Char → Bool) (s : Str) (c : Char) (R R' : Str)
    (hc : c ∉ s) (h : (s ++ c :: R).dropWhile p = c :: R') : ∀ a ∈ s, p a = true := by
  induction s with
  | nil => simp
  | cons a s ih =>
    have hcs : c ∉ s := fun hm => hc (List.mem_cons_of_mem _ hm)
    by_cases ha : p a = true
    · rw [List.cons_append, List.dropWhile_cons, if_pos ha] at h
      intro b hb
      rcases List.mem_cons.1 hb with hb | hb
      · rw [hb]; exact ha
      · exact ih hcs h b hb
    · rw [List.cons_append, List.dropWhile_cons, if_neg ha] at h
      simp only [List.cons.injEq] at h
      exact absurd (h.1 ▸ List.mem_cons_self _ _) hc

theorem dropWhile_concat_stop (p : Char → Bool) (s : Str) (c : Char) (hc : p c = false) :
    (s ++ [c]).dropWhile p = s.dropWhile p ++ [c] := by
  induction s with
  | nil => simp [List.dropWhile_cons, hc]
  | cons a s ih =>
    by_cases ha : p a = true
    · rw [List.cons_append, List.dropWhile_cons, if_pos ha, List.dropWhile_cons, if_pos ha, ih]
    · rw [List.cons_append, List.dropWhile_cons, if_neg ha, List.dropWhile_cons, if_neg ha]
      rfl

/-- What `numRun` returns: the run is non-empty, made of `[\d\.]` characters,
and the rest is what `dropWhile` leaves. -/
theorem numRun_some (s g r : Str) (h : numRun s = some (g, r)) :
    g = s.takeWhile isNumChar ∧ r = s.dropWhile isNumChar ∧ g ≠ [] := by
  unfold numRun at h
  split at h
  · simp at h
  · next hne =>
    simp only [Option.some.injEq, Prod.mk.injEq] at h
    refine ⟨h.1.symm, h.2.symm, ?_⟩
    rw [← h.1]
    intro he
    exact hne (by rw [he]; rfl)

theorem isNumText_of_run (s : Str) (hne : s.takeWhile isNumChar ≠ [])
    (hall : ∀ a ∈ s, isNumChar a = true) : isNumText s = true := by
  have h1 := (takeWhile_all isNumChar s hall).1
  rw [h1] at hne
  unfold isNumText
  cases s with
  | nil => exact absurd rfl hne
  | cons a s =>
    simp only [List.isEmpty_cons, Bool.not_false, Bool.true_and, List.all_eq_true]
    exact hall

/-- The coordinate part of the pattern rejects `a, b]` when `a` is not a run of
`[\d\.]` characters or `b`, leading white space apart, is not one. -/
theorem matchCoords_malformed (a b : Str) (ha : ',' ∉ a) (hb : ']' ∉ b)
    (hbad : isNumText a = false ∨ isNumText (b.dropWhile isWhiteSpace) = false) :
    matchCoords (a ++ ',' :: ' ' :: (b ++ [']'])) = none := by
  cases hm : matchCoords (a ++ ',' :: ' ' :: (b ++ [']'])) with
  | none => rfl
  | some g =>
    exfalso
    unfold matchCoords at hm
    cases h1 : numRun (a ++ ',' :: ' ' :: (b ++ [']'])) with
    | none => rw [h1] at hm; simp at hm
    | some g2 =>
      obtain ⟨x, r⟩ := g2
      rw [h1] at hm
      simp only [Option.some_bind] at hm
      obtain ⟨hx, hr, hxne⟩ := numRun_some _ _ _ h1
      cases r with
      | nil => simp [expectChar] at hm
      | cons c r3 =>
        by_cases hc : c = ','
        · subst hc
          simp only [expectChar, if_true, Option.some_bind] at hm
          have hall := dropWhile_starts_stop isNumChar a ',' _ r3 ha hr.symm
          obtain ⟨ht, hd⟩ := takeWhile_append_stop isNumChar a ',' (' ' :: (b ++ [']'])) hall
            (by decide)
          have hta : a.takeWhile isNumChar ≠ [] := by
            rw [(takeWhile_all isNumChar a hall).1, ← ht, ← hx]; exact hxne
          have hgood : isNumText a = true := isNumText_of_run a hta hall
          rw [hd] at hr
          simp only [List.cons.injEq, true_and] at hr
          subst hr
          rw [List.dropWhile_cons, if_pos (by decide),
            dropWhile_concat_stop isWhiteSpace b ']' (by decide)] at hm
          cases h2 : numRun (b.dropWhile isWhiteSpace ++ [']']) with
          | none => rw [h2] at hm; simp at hm
          | some g3 =>
            obtain ⟨y, r'⟩ := g3
            rw [h2] at hm
            simp only [Option.some_bind] at hm
            obtain ⟨hy, hr', hyne⟩ := numRun_some _ _ _ h2
            cases r' with
            | nil => simp [expectChar] at hm
            | cons c' r4 =>
              by_cases hc' : c' = ']'
              · subst hc'
                have hb' : ']' ∉ b.dropWhile isWhiteSpace :=
                  fun hmem => hb ((List.dropWhile_sublist _).subset hmem)
                have hall' := dropWhile_starts_stop isNumChar (b.dropWhile isWhiteSpace)
                  ']' [] r4 hb' hr'.symm
                obtain ⟨ht', _⟩ := takeWhile_append_stop isNumChar
                  (b.dropWhile isWhiteSpace) ']' [] hall' (by decide)
                have htb : (b.dropWhile isWhiteSpace).takeWhile isNumChar ≠ [] := by
                  rw [(takeWhile_all isNumChar _ hall').1, ← ht', ← hy]; exact hyne
                have hgood' := isNumText_of_run _ htb hall'
                rcases hbad with hbad | hbad
                · rw [hgood] at hbad; exact absurd hbad (by decide)
                · rw [hgood'] at hbad; exact absurd hbad (by decide)
              · simp [expectChar, hc'] at hm
        · simp [expectChar, hc] at hm

theorem pointLine_form (L a b : Str) :
    pointLine L a b = (L ++ [':', ' ']) ++ '[' :: (a ++ ',' :: ' ' :: (b ++ [']'])) := by
  simp [pointLine]

theorem pointLine_concat (L a b : Str) :
    pointLine L a b = (L ++ ':' :: ' ' :: '[' :: (a ++ ',' :: ' ' :: b)) ++ [']'] := by
  simp [pointLine]

/-- The trimmed form of a line `L: [a, b]` is a final segment of it. -/
theorem trim_pointLine_suffix (L a b : Str) : trim (pointLine L a b) <:+ pointLine L a b := by
  have h : trim (pointLine L a b) = (pointLine L a b).dropWhile isWhiteSpace := by
    unfold trim
    rw [pointLine_concat, dropWhile_concat_stop _ _ _ (by decide), List.rdropWhile_concat,
      if_neg (by decide)]
  rw [h]
  exact List.dropWhile_suffix _

/-- With a single opening bracket in the line, the tail of the pattern can only
match in front of it, where the malformed coordinates make it fail. -/
theorem matchTail_pointLine_none (L a b : Str) (hL : '[' ∉ L)
    (ha : '[' ∉ a ∧ ',' ∉ a) (hb : '[' ∉ b ∧ ']' ∉ b)
    (hbad : isNumText a = false ∨ isNumText (b.dropWhile isWhiteSpace) = false) :
    ∀ t, t <:+ pointLine L a b → matchTail t = none := by
  intro t ht
  cases hm : matchTail t with
  | none => rfl
  | some g =>
    exfalso
    obtain ⟨pre, r2, hpre, hco⟩ := matchTail_bracket t g hm
    obtain ⟨u, hu⟩ := ht
    rw [hpre, pointLine_form, ← List.append_assoc] at hu
    have hP : '[' ∉ L ++ [':', ' '] := by
      intro hmem
      rcases List.mem_append.1 hmem with h | h
      · exact hL h
      · exact absurd h (by decide)
    have hQ : '[' ∉ a ++ ',' :: ' ' :: (b ++ [']']) := by
      intro hmem
      simp only [List.mem_append, List.mem_cons, List.mem_singleton, List.not_mem_nil] at hmem
      rcases hmem with h | h | h | h | h
      · exact ha.1 h
      · exact absurd h (by decide)
      · exact absurd h (by decide)
      · exact hb.1 h
      · rcases h with h | h
        · exact absurd h (by decide)
        · exact h
    have := bracket_unique '[' _ _ _ _ hu hP hQ
    rw [this, matchCoords_malformed a b ha.2 hb.2 hbad] at hco
    exact absurd hco (by simp)

/-- C3 (amended): a line `L: [a, b]` with malformed coordinates is dropped.
Let the trimmed line start with no reserved token, let `L`, `a`, `b` contain
no opening bracket, `a` no comma and `b` no closing bracket, and let neither
`a` nor `b` (leading white space apart) start with a minus sign.  If `a` is
not a non-empty string of digits and decimal points, or `b` without its
leading white space is not one, the line appends no point and changes nothing:
the model is the one parsed from the text without that line.  Signed numbers
are kept out of the statement: what becomes of them is the subject of C2. -/
theorem malformed_point_line_dropped (xs ys : List Str) (L a b : Str)
    (hnl : '\n' ∉ pointLine L a b)
    (hres : noReservedPrefix (trim (pointLine L a b)) = true)
    (hL : '[' ∉ L) (ha : '[' ∉ a ∧ ',' ∉ a) (hb : '[' ∉ b ∧ ']' ∉ b)
    (_hsign : a.head? ≠ some '-' ∧ (b.dropWhile isWhiteSpace).head? ≠ some '-')
    (hbad : isNumText a = false ∨ isNumText (b.dropWhile isWhiteSpace) = false) :
    pointOfLine (trim (pointLine L a b)) = none ∧
    (∀ e, processLine e (trim (pointLine L a b)) = e) ∧
    parseMermaid (joinLines (xs ++ pointLine L a b :: ys))
      = parseMermaid (joinLines (xs ++ ys)) := by
  have hreg : regexExec (trim (pointLine L a b)) = none :=
    (regexExec_none_of_tails _ fun t ht =>
      matchTail_pointLine_none L a b hL ha hb hbad t (ht.trans (trim_pointLine_suffix L a b))).2
  have hproc : ∀ e, processLine e (trim (pointLine L a b)) = e :=
    fun e => processLine_unrecognized e _ hres hreg
  refine ⟨?_, hproc, parseMermaid_insert_ignored xs ys _ hnl hproc⟩
  unfold pointOfLine
  rw [hproc]
  rfl

theorem malformed_point_line_dropped_witness :
    ('\n' ∉ pointLine "Beta".toList "abc".toList "0.5".toList ∧
      noReservedPrefix (trim (pointLine "Beta".toList "abc".toList "0.5".toList)) = true ∧
      '[' ∉ "Beta".toList ∧ ('[' ∉ "abc".toList ∧ ',' ∉ "abc".toList) ∧
      ('[' ∉ "0.5".toList ∧ ']' ∉ "0.5".toList) ∧
      ("abc".toList.head? ≠ some '-' ∧
        ("0.5".toList.dropWhile isWhiteSpace).head? ≠ some '-') ∧
      (isNumText "abc".toList = false ∨
        isNumText ("0.5".toList.dropWhile isWhiteSpace) = false)) ∧
    pointLine "Beta".toList "abc".toList "0.5".toList = "Beta: [abc, 0.5]".toList ∧
    parseMermaid (joinLines (["title T".toList] ++
        pointLine "Beta".toList "abc".toList "0.5".toList :: ["quadrant-1 Q".toList]))
      = parseMermaid (joinLines (["title T".toList] ++ ["quadrant-1 Q".toList])) :=
  ⟨by decide, by decide,
   (malformed_point_line_dropped ["title T".toList] ["quadrant-1 Q".toList]
      "Beta".toList "abc".toList "0.5".toList (by decide) (by decide) (by decide)
      (by decide) (by decide) (by decide) (by decide)).2.2⟩

/-- C3 (as stated) fails.  In each text below `a` or `b` is not a decimal number,
yet the line is not dropped: `1.2.3` is accepted as a run of digits and points;
a label that is a reserved token turns the line into a directive; a label, an
`a` or a `b` holding brackets or commas of its own lets the unanchored pattern
match elsewhere; and white space in front of `b` is skipped by the pattern. -/
theorem malformed_coordinates_counterexample :
    (isNumeral "1.2.3".toList = false ∧
      (parseMermaid (pointLine "A".toList "1.2.3".toList "0.5".toList)).points.length = 1) ∧
    (isNumeral "abc".toList = false ∧
      parseMermaid (pointLine "title".toList "abc".toList "0.5".toList) ≠ parseMermaid []) ∧
    (isNumeral "abc".toList = false ∧
      (parseMermaid (pointLine "X: [1, 2] y".toList "abc".toList "0.5".toList)).points.length
        = 1) ∧
    (isNumeral "x: [1,2] ".toList = false ∧
      (parseMermaid (pointLine "L".toList "x: [1,2] ".toList "0.5".toList)).points.length = 1) ∧
    (isNumeral "1,2] x".toList = false ∧
      (parseMermaid (pointLine "L".toList "1,2] x".toList "0.5".toList)).points.length = 1) ∧
    (isNumeral "0.5] x".toList = false ∧
      (parseMermaid (pointLine "L".toList "0.5".toList "0.5] x".toList)).points.length = 1) ∧
    (isNumeral "x: [1,2".toList = false ∧
      (parseMermaid (pointLine "L".toList "0.5".toList "x: [1,2".toList)).points.length = 1) ∧
    (isNumeral " 0.5".toList = false ∧
      (parseMermaid (pointLine "L".toList "0.5".toList " 0.5".toList)).points.length = 1) ∧
    (parseMermaid []).points.length = 0 := by
  refine ⟨⟨?_, ?_⟩, ⟨?_, ?_⟩, ⟨?_, ?_⟩, ⟨?_, ?_⟩, ⟨?_, ?_⟩, ⟨?_, ?_⟩, ⟨?_, ?_⟩, ⟨?_, ?_⟩, ?_⟩
  all_goals decide

/-! ## What the captured coordinates look like -/

theorem matchCoords_numChars (s : Str) (g : Str × Str) (h : matchCoords s = some g) :
    (∀ a ∈ g.1, isNumChar a = true) ∧ (∀ a ∈ g.2, isNumChar a = true) := by
  unfold matchCoords at h
  cases h1 : numRun s with
  | none => rw [h1] at h; simp at h
  | some g2 =>
    obtain ⟨x, r⟩ := g2
    rw [h1] at h
    simp only [Option.some_bind] at h
    cases h2 : expectChar ',' r with
    | none => rw [h2] at h; simp at h
    | some r3 =>
      rw [h2] at h
      simp only [Option.some_bind] at h
      cases h3 : numRun (r3.dropWhile isWhiteSpace) with
      | none => rw [h3] at h; simp at h
      | some g3 =>
        obtain ⟨y, r'⟩ := g3
        rw [h3] at h
        simp only [Option.some_bind] at h
        cases h4 : expectChar ']' r' with
        | none => rw [h4] at h; simp at h
        | some r5 =>
          rw [h4] at h
          simp only [Option.some_bind, Option.some.injEq] at h
          subst h
          obtain ⟨hx, _, _⟩ := numRun_some _ _ _ h1
          obtain ⟨hy, _, _⟩ := numRun_some _ _ _ h3
          exact ⟨fun a ha => List.mem_takeWhile_imp (hx ▸ ha),
            fun a ha => List.mem_takeWhile_imp (hy ▸ ha)⟩

theorem matchHere_numChars (s : Str) (m : Str × Str × Str) (h : matchHere s = some m) :
    (∀ a ∈ m.2.1, isNumChar a = true) ∧ (∀ a ∈ m.2.2, isNumChar a = true) := by
  induction s generalizing m with
  | nil => simp [matchHere] at h
  | cons c s ih =>
    rw [matchHere] at h
    split at h
    · simp at h
    · cases h1 : matchHere s with
      | some m1 =>
        obtain ⟨g1, g2, g3⟩ := m1
        rw [h1] at h
        simp only [Option.some.injEq] at h
        subst h
        exact ih (g1, g2, g3) h1
      | none =>
        rw [h1] at h
        cases h2 : matchTail s with
        | none => rw [h2] at h; simp at h
        | some g =>
          obtain ⟨g2, g3⟩ := g
          rw [h2] at h
          simp only [Option.some.injEq] at h
          subst h
          obtain ⟨pre, r2, _, hco⟩ := matchTail_bracket s _ h2
          exact matchCoords_numChars r2 _ hco

/-- Capture groups 2 and 3 of a match contain only digits and decimal points,
so `parseFloat` is only ever applied to such strings. -/
theorem regexExec_numChars (s : Str) (m : Str × Str × Str) (h : regexExec s = some m) :
    (∀ a ∈ m.2.1, isNumChar a = true) ∧ (∀ a ∈ m.2.2, isNumChar a = true) := by
  induction s with
  | nil => simp [regexExec] at h
  | cons c s ih =>
    rw [regexExec] at h
    cases h1 : matchHere (c :: s) with
    | some m1 =>
      rw [h1] at h
      simp only [Option.some.injEq] at h
      subst h
      exact matchHere_numChars _ _ h1
    | none =>
      rw [h1] at h
      exact ih h

/-- The clamp yields `NaN` or a value between `0` and `1`. -/
theorem clampCoord_nan_or_inUnit (s : Str) :
    clampCoord s = .nan ∨ (clampCoord s).inUnit := by
  unfold clampCoord
  cases parseFloat s with
  | nan => left; rfl
  | fin q =>
    right
    simp only [mathMax, mathMin, JSNumber.inUnit]
    exact ⟨le_min (le_max_right _ _) zero_le_one, min_le_right _ _⟩
  | posInf =>
    right
    simp only [mathMax, mathMin, JSNumber.inUnit]
    norm_num
  | negInf =>
    right
    simp only [mathMax, mathMin, JSNumber.inUnit]
    norm_num

/-! ## What the parser guarantees about coordinates -/

theorem pointOfLine_coords (line : Str) (p : Point) (h : pointOfLine line = some p) :
    ∃ g2 g3, p.x = clampCoord g2 ∧ p.y = clampCoord g3 := by
  unfold pointOfLine at h
  by_cases h0 : startsWith line "%%".toList = true
  · rw [processLine_comment _ _ h0] at h; simp [defaultData] at h
  by_cases h1 : startsWith line "title".toList = true
  · rw [processLine_title _ _ h0 h1] at h; simp [defaultData] at h
  by_cases h2 : startsWith line "x-axis".toList = true
  · rw [processLine_xAxis _ _ h0 h1 h2] at h
    split at h <;> simp [defaultData] at h
  by_cases h3 : startsWith line "y-axis".toList = true
  · rw [processLine_yAxis _ _ h0 h1 h2 h3] at h
    split at h <;> simp [defaultData] at h
  by_cases h4 : startsWith line "quadrant-1".toList = true
  · rw [processLine_q1 _ _ h0 h1 h2 h3 h4] at h; simp [defaultData] at h
  by_cases h5 : startsWith line "quadrant-2".toList = true
  · rw [processLine_q2 _ _ h0 h1 h2 h3 h4 h5] at h; simp [defaultData] at h
  by_cases h6 : startsWith line "quadrant-3".toList = true
  · rw [processLine_q3 _ _ h0 h1 h2 h3 h4 h5 h6] at h; simp [defaultData] at h
  by_cases h7 : startsWith line "quadrant-4".toList = true
  · rw [processLine_q4 _ _ h0 h1 h2 h3 h4 h5 h6 h7] at h; simp [defaultData] at h
  have hp : noReservedPrefix line = true :=
    (noReservedPrefix_iff line).2 ⟨h0, h1, h2, h3, h4, h5, h6, h7⟩
  rw [processLine_dataRule _ _ hp] at h
  split at h
  · cases hr : regexExec line with
    | none => rw [hr] at h; simp [defaultData] at h
    | some m =>
      obtain ⟨g1, g2, g3⟩ := m
      rw [hr] at h
      simp only [defaultData, List.nil_append, List.head?_cons, Option.some.injEq] at h
      exact ⟨g2, g3, by rw [← h], by rw [← h]⟩
  · simp [defaultData] at h

/-- Every coordinate of every parsed point is `NaN` or lies between `0` and `1`. -/
theorem parsed_coordinates_nan_or_inUnit (content : Str) (p : Point)
    (hp : p ∈ (parseMermaid content).points) :
    (p.x = .nan ∨ p.x.inUnit) ∧ (p.y = .nan ∨ p.y.inUnit) := by
  rw [parseMermaid_points, List.mem_filterMap] at hp
  obtain ⟨l, _, hl⟩ := hp
  obtain ⟨g2, g3, hx, hy⟩ := pointOfLine_coords l p hl
  rw [hx, hy]
  exact ⟨clampCoord_nan_or_inUnit g2, clampCoord_nan_or_inUnit g3⟩

/-- C1 (code defect): the text `A: [., 0.5]` is accepted by the pattern, and
the point it appends has the x coordinate `NaN`, which is not between `0` and
`1`. -/
theorem nan_coordinate_escapes_clamp :
    (parseMermaid "A: [., 0.5]".toList).points.map Point.x = [JSNumber.nan] ∧
    ¬ ∀ p ∈ (parseMermaid "A: [., 0.5]".toList).points, p.x.inUnit ∧ p.y.inUnit := by
  have h : (parseMermaid "A: [., 0.5]".toList).points.map Point.x = [JSNumber.nan] := by decide
  refine ⟨h, ?_⟩
  intro hall
  cases hp : (parseMermaid "A: [., 0.5]".toList).points with
  | nil => rw [hp] at h; simp at h
  | cons p ps =>
    rw [hp] at h hall
    simp only [List.map_cons, List.cons.injEq] at h
    have := (hall p (List.mem_cons_self _ _)).1
    rw [h.1] at this
    exact this

/-- C2 (code defect): the pattern has no place for a minus sign, so the line
`A: [-0.5, 0.5]` is not matched and appends no point at all. -/
theorem negative_coordinate_line_dropped :
    regexExec "A: [-0.5, 0.5]".toList = none ∧
    (parseMermaid "A: [-0.5, 0.5]".toList).points = [] ∧
    parseMermaid "A: [-0.5, 0.5]".toList = defaultData := by
  decide

/-! ## The matcher against the pattern read as a set of matches -/

theorem numChar_not_whiteSpace (a : Char) (ha : isNumChar a = true) :
    isWhiteSpace a = false := by
  unfold isNumChar isDigit at ha
  unfold isWhiteSpace
  rcases Bool.or_eq_true _ _ ▸ ha with h | h
  · simp only [Bool.and_eq_true, decide_eq_true_eq] at h
    simp only [Bool.or_eq_false_iff, decide_eq_false_iff_not, Bool.and_eq_false_iff]
    omega
  · have : a = '.' := by simpa using h
    subst this; decide

theorem matchCoords_complete (g2 ws2 g3 post : Str)
    (hws : ∀ c ∈ ws2, isWhiteSpace c = true)
    (h2 : g2 ≠ []) (h2n : ∀ c ∈ g2, isNumChar c = true)
    (h3 : g3 ≠ []) (h3n : ∀ c ∈ g3, isNumChar c = true) :
    matchCoords (g2 ++ ',' :: (ws2 ++ (g3 ++ ']' :: post))) = some (g2, g3) := by
  unfold matchCoords
  rw [numRun_append_stop g2 ',' _ h2 h2n (by decide)]
  simp only [Option.some_bind, expectChar, if_true]
  have hd : (ws2 ++ (g3 ++ ']' :: post)).dropWhile isWhiteSpace = g3 ++ ']' :: post := by
    cases g3 with
    | nil => exact absurd rfl h3
    | cons a g3 =>
      rw [List.cons_append]
      exact (takeWhile_append_stop isWhiteSpace ws2 a _ hws
        (numChar_not_whiteSpace a (h3n a (List.mem_cons_self _ _)))).2
  rw [hd, numRun_append_stop g3 ']' post h3 h3n (by decide)]
  simp only [Option.some_bind, expectChar, if_true]

theorem numRun_sound (s g r : Str) (h : numRun s = some (g, r)) :
    s = g ++ r ∧ g ≠ [] ∧ ∀ c ∈ g, isNumChar c = true := by
  obtain ⟨hg, hr, hne⟩ := numRun_some s g r h
  refine ⟨?_, hne, fun c hc => List.mem_takeWhile_imp (hg ▸ hc)⟩
  rw [hg, hr, List.takeWhile_append_dropWhile]

theorem expectChar_some (c : Char) (s r : Str) (h : expectChar c s = some r) : s = c :: r := by
  cases s with
  | nil => simp [expectChar] at h
  | cons d s =>
    by_cases hd : d = c
    · subst hd; simp only [expectChar, if_true, Option.some.injEq] at h; rw [h]
    · simp [expectChar, hd] at h

theorem matchCoords_sound (r : Str) (g : Str × Str) (h : matchCoords r = some g) :
    ∃ ws2 post, r = g.1 ++ ',' :: (ws2 ++ (g.2 ++ ']' :: post)) ∧
      (∀ c ∈ ws2, isWhiteSpace c = true) ∧
      g.1 ≠ [] ∧ (∀ c ∈ g.1, isNumChar c = true) ∧
      g.2 ≠ [] ∧ (∀ c ∈ g.2, isNumChar c = true) := by
  unfold matchCoords at h
  cases h1 : numRun r with
  | none => rw [h1] at h; simp at h
  | some p1 =>
    obtain ⟨x, r1⟩ := p1
    rw [h1] at h
    simp only [Option.some_bind] at h
    cases h2 : expectChar ',' r1 with
    | none => rw [h2] at h; simp at h
    | some r3 =>
      rw [h2] at h
      simp only [Option.some_bind] at h
      cases h3 : numRun (r3.dropWhile isWhiteSpace) with
      | none => rw [h3] at h; simp at h
      | some p3 =>
        obtain ⟨y, r4⟩ := p3
        rw [h3] at h
        simp only [Option.some_bind] at h
        cases h4 : expectChar ']' r4 with
        | none => rw [h4] at h; simp at h
        | some post =>
          rw [h4] at h
          simp only [Option.some_bind, Option.some.injEq] at h
          subst h
          obtain ⟨e1, hx, hxn⟩ := numRun_sound _ _ _ h1
          obtain ⟨e3, hy, hyn⟩ := numRun_sound _ _ _ h3
          have e2 := expectChar_some _ _ _ h2
          have e4 := expectChar_some _ _ _ h4
          refine ⟨r3.takeWhile isWhiteSpace, post, ?_,
            fun c hc => List.mem_takeWhile_imp hc, hx, hxn, hy, hyn⟩
          rw [e1, e2]
          congr 2
          rw [← e4, ← e3, List.takeWhile_append_dropWhile]

theorem matchTail_complete (ws1 R : Str) (hws : ∀ c ∈ ws1, isWhiteSpace c = true) :
    matchTail (':' :: (ws1 ++ '[' :: R)) = matchCoords R := by
  unfold matchTail
  simp only [expectChar, if_true, Option.some_bind]
  rw [(takeWhile_append_stop isWhiteSpace ws1 '[' R hws (by decide)).2]
  simp only [expectChar, if_true, Option.some_bind]

theorem matchTail_sound (t : Str) (g : Str × Str) (h : matchTail t = some g) :
    ∃ ws1 R, t = ':' :: (ws1 ++ '[' :: R) ∧ (∀ c ∈ ws1, isWhiteSpace c = true) ∧
      matchCoords R = some g := by
  unfold matchTail at h
  cases h1 : expectChar ':' t with
  | none => rw [h1] at h; simp at h
  | some r1 =>
    rw [h1] at h
    simp only [Option.some_bind] at h
    cases h2 : expectChar '[' (r1.dropWhile isWhiteSpace) with
    | none => rw [h2] at h; simp at h
    | some R =>
      rw [h2] at h
      simp only [Option.some_bind] at h
      refine ⟨r1.takeWhile isWhiteSpace, R, ?_, fun c hc => List.mem_takeWhile_imp hc, h⟩
      rw [expectChar_some _ _ _ h1, ← expectChar_some _ _ _ h2,
        List.takeWhile_append_dropWhile]

/-- Every result of `matchHere` is a match of the pattern that starts at the
first character. -/
theorem matchHere_sound (s : Str) (m : Str × Str × Str) (h : matchHere s = some m) :
    IsMatch s [] m.1 m.2.1 m.2.2 := by
  induction s generalizing m with
  | nil => simp [matchHere] at h
  | cons c s ih =>
    rw [matchHere] at h
    by_cases hc : isLineTerminator c = true
    · rw [if_pos hc] at h; simp at h
    · rw [if_neg hc] at h
      have hc' : isLineTerminator c = false := by simpa using hc
      cases h1 : matchHere s with
      | some m1 =>
        obtain ⟨g1, g2, g3⟩ := m1
        rw [h1] at h
        simp only [Option.some.injEq] at h
        subst h
        obtain ⟨ws1, ws2, post, e, hne, hlt, hw1, hw2, r⟩ := ih (g1, g2, g3) h1
        refine ⟨ws1, ws2, post, ?_, by simp, ?_, hw1, hw2, r⟩
        · rw [e]; rfl
        · intro a ha
          rcases List.mem_cons.1 ha with ha | ha
          · rw [ha]; exact hc'
          · exact hlt a ha
      | none =>
        rw [h1] at h
        cases h2 : matchTail s with
        | none => rw [h2] at h; simp at h
        | some g =>
          obtain ⟨g2, g3⟩ := g
          rw [h2] at h
          simp only [Option.some.injEq] at h
          subst h
          obtain ⟨ws1, R, e, hw1, hco⟩ := matchTail_sound s _ h2
          obtain ⟨ws2, post, e2, hw2, r⟩ := matchCoords_sound R _ hco
          refine ⟨ws1, ws2, post, ?_, by simp, ?_, hw1, hw2, r⟩
          · rw [e, e2]; rfl
          · intro a ha
            rw [List.mem_singleton] at ha
            rw [ha]; exact hc'

/-- Whenever the pattern has a match that starts at the first character,
`matchHere` succeeds, with a group 1 at least as long: the greedy choice. -/
theorem matchHere_complete (s g1 g2 g3 : Str) (h : IsMatch s [] g1 g2 g3) :
    ∃ m, matchHere s = some m ∧ g1.length ≤ m.1.length := by
  induction s generalizing g1 with
  | nil =>
    obtain ⟨ws1, ws2, post, e, hne, _⟩ := h
    cases g1 with
    | nil => exact absurd rfl hne
    | cons a g1 => simp at e
  | cons c s ih =>
    obtain ⟨ws1, ws2, post, e, hne, hlt, hw1, hw2, h2, h2n, h3, h3n⟩ := h
    cases g1 with
    | nil => exact absurd rfl hne
    | cons a g1 =>
      simp only [List.nil_append, List.cons_append, List.cons.injEq] at e
      obtain ⟨hca, es⟩ := e
      subst hca
      have hc : isLineTerminator c = false := hlt c (List.mem_cons_self _ _)
      rw [matchHere]
      simp only [hc, Bool.false_eq_true, if_false]
      cases g1 with
      | nil =>
        cases h1 : matchHere s with
        | some m1 =>
          obtain ⟨k1, k2, k3⟩ := m1
          exact ⟨_, rfl, by simp⟩
        | none =>
          rw [List.nil_append] at es
          rw [es, matchTail_complete ws1 _ hw1, matchCoords_complete g2 ws2 g3 post hw2 h2 h2n
            h3 h3n]
          exact ⟨_, rfl, by simp⟩
      | cons b g1 =>
        have hm : IsMatch s [] (b :: g1) g2 g3 :=
          ⟨ws1, ws2, post, by rw [es]; rfl, by simp,
            fun x hx => hlt x (List.mem_cons_of_mem _ hx), hw1, hw2, h2, h2n, h3, h3n⟩
        obtain ⟨m1, hm1, hlen⟩ := ih (b :: g1) hm
        obtain ⟨k1, k2, k3⟩ := m1
        rw [hm1]
        exact ⟨_, rfl, by simpa using hlen⟩

/-- The result of `regexExec` is a match of the pattern, no match starts
earlier, and no match with the same start has a longer group 1: the ECMAScript
priority of a leftmost start and a greedy `(.+)`. -/
theorem regexExec_sound (s : Str) (m : Str × Str × Str) (h : regexExec s = some m) :
    ∃ pre, IsMatch s pre m.1 m.2.1 m.2.2 ∧
      ∀ pre' g1' g2' g3', IsMatch s pre' g1' g2' g3' →
        pre.length ≤ pre'.length ∧ (pre'.length = pre.length → g1'.length ≤ m.1.length) := by
  induction s with
  | nil => simp [regexExec] at h
  | cons c s ih =>
    rw [regexExec] at h
    cases h1 : matchHere (c :: s) with
    | some m1 =>
      rw [h1] at h
      simp only [Option.some.injEq] at h
      subst h
      refine ⟨[], matchHere_sound _ _ h1, ?_⟩
      intro pre' g1' g2' g3' hm'
      refine ⟨Nat.zero_le _, fun hlen => ?_⟩
      have hp : pre' = [] := List.length_eq_zero.1 hlen
      subst hp
      obtain ⟨m2, hm2, hl⟩ := matchHere_complete _ _ _ _ hm'
      rw [h1] at hm2
      simp only [Option.some.injEq] at hm2
      subst hm2
      exact hl
    | none =>
      rw [h1] at h
      obtain ⟨pre, hm, hmin⟩ := ih h
      obtain ⟨ws1, ws2, post, e, r⟩ := hm
      refine ⟨c :: pre, ⟨ws1, ws2, post, by rw [e]; rfl, r⟩, ?_⟩
      intro pre' g1' g2' g3' hm'
      cases pre' with
      | nil =>
        obtain ⟨m2, hm2, _⟩ := matchHere_complete _ _ _ _ hm'
        rw [h1] at hm2
        exact absurd hm2 (by simp)
      | cons a pre' =>
        obtain ⟨ws1', ws2', post', e', r'⟩ := hm'
        simp only [List.cons_append, List.cons.injEq] at e'
        have := hmin pre' g1' g2' g3' ⟨ws1', ws2', post', e'.2, r'⟩
        simp only [List.length_cons, Nat.add_le_add_iff_right, Nat.add_right_cancel_iff]
        exact this

/-- Whenever the pattern has a match somewhere in `s`, `regexExec` succeeds. -/
theorem regexExec_complete (s pre g1 g2 g3 : Str) (h : IsMatch s pre g1 g2 g3) :
    ∃ m, regexExec s = some m := by
  induction pre generalizing s with
  | nil =>
    obtain ⟨m, hm, _⟩ := matchHere_complete s g1 g2 g3 h
    exact ⟨m, regexExec_of_matchHere s m hm⟩
  | cons a pre ih =>
    obtain ⟨ws1, ws2, post, e, r⟩ := h
    subst e
    rw [List.cons_append, regexExec]
    cases h1 : matchHere (a :: (pre ++ (g1 ++ ':' :: (ws1 ++ '[' :: (g2 ++ ',' ::
        (ws2 ++ (g3 ++ ']' :: post))))))) with
    | some m1 => exact ⟨m1, rfl⟩
    | none => exact ih _ ⟨ws1, ws2, post, rfl, r⟩

/-! ## The renderer: arithmetic on finite numbers -/

theorem fin_add (a b : ℚ) : (JSNumber.fin a) + (JSNumber.fin b) = roundDouble (a + b) := rfl

theorem fin_sub (a b : ℚ) : (JSNumber.fin a) - (JSNumber.fin b) = roundDouble (a - b) := rfl

theorem fin_mul (a b : ℚ) : (JSNumber.fin a) * (JSNumber.fin b) = roundDouble (a * b) := rfl

theorem fin_div (a b : ℚ) (h : b ≠ 0) :
    (JSNumber.fin a) / (JSNumber.fin b) = roundDouble (a / b) := by
  show jsDiv _ _ = _
  simp [jsDiv, h]

theorem jsnum_ofNat (n : Nat) : (OfNat.ofNat n : JSNumber) = JSNumber.fin (n : ℚ) := rfl

theorem canvas_size_eq : CANVAS_SIZE = JSNumber.fin 600 := by
  rw [CANVAS_SIZE, jsnum_ofNat]; norm_num

theorem padding_eq : PADDING = JSNumber.fin 100 := by
  rw [PADDING, jsnum_ofNat]; norm_num

/-- The numbers of the frame are integers, on which no operation rounds. -/
theorem roundDouble_frame_values :
    roundDouble 300 = .fin 300 ∧ roundDouble 400 = .fin 400 ∧ roundDouble 700 = .fin 700 ∧
    roundDouble 410 = .fin 410 ∧ roundDouble 550 = .fin 550 ∧ roundDouble 325 = .fin 325 ∧
    roundDouble 70 = .fin 70 ∧ roundDouble 710 = .fin 710 := by
  refine ⟨?_, ?_, ?_, ?_, ?_, ?_, ?_, ?_⟩
  · simpa using roundDouble_natCast 300 (by norm_num)
  · simpa using roundDouble_natCast 400 (by norm_num)
  · simpa using roundDouble_natCast 700 (by norm_num)
  · simpa using roundDouble_natCast 410 (by norm_num)
  · simpa using roundDouble_natCast 550 (by norm_num)
  · simpa using roundDouble_natCast 325 (by norm_num)
  · simpa using roundDouble_natCast 70 (by norm_num)
  · simpa using roundDouble_natCast 710 (by norm_num)

/-! ## The renderer: shapes in closed form -/

theorem drawFrame_eq (data : ChartData) :
    drawFrame data = { idCounter := 14, cells := frameShapes data } := by
  obtain ⟨r300, r400, r700, r410, r550, r325, r70, r710⟩ := roundDouble_frame_values
  have e1 : CANVAS_SIZE / 2 = .fin 300 := by
    rw [canvas_size_eq, jsnum_ofNat, fin_div _ _ (by norm_num)]
    norm_num
    exact r300
  have e2 : PADDING + JSNumber.fin 300 = .fin 400 := by
    rw [padding_eq, fin_add]
    norm_num
    exact r400
  have e3 : PADDING + CANVAS_SIZE = .fin 700 := by
    rw [padding_eq, canvas_size_eq, fin_add]
    norm_num
    exact r700
  have e4 : JSNumber.fin 400 + 10 = .fin 410 := by
    rw [jsnum_ofNat, fin_add]
    norm_num
    exact r410
  have e5 : JSNumber.fin 700 - 150 = .fin 550 := by
    rw [jsnum_ofNat, fin_sub]
    norm_num
    exact r550
  have e6 : JSNumber.fin 400 - 75 = .fin 325 := by
    rw [jsnum_ofNat, fin_sub]
    norm_num
    exact r325
  have e7 : PADDING - 30 = .fin 70 := by
    rw [padding_eq, jsnum_ofNat, fin_sub]
    norm_num
    exact r70
  have e8 : JSNumber.fin 700 + 10 = .fin 710 := by
    rw [jsnum_ofNat, fin_add]
    norm_num
    exact r710
  simp only [drawFrame, addCell, frameShapes, vertexCell, edgeCell, List.nil_append,
    List.cons_append, Bool.false_eq_true, if_false, if_true, e1, e2, e3, e4, e5, e6, e7, e8]
  simp only [canvas_size_eq, padding_eq, jsnum_ofNat]
  norm_num

theorem drawPoint_eq (b : Builder) (p : Point) :
    drawPoint b p =
      { idCounter := b.idCounter + 2
        cells := b.cells ++ [markerCell b.idCounter p, labelCell (b.idCounter + 1) p] } := by
  simp only [drawPoint, addCell, markerCell, labelCell, vertexCell,
    Bool.false_eq_true, if_false, List.append_assoc, List.singleton_append]

/-! ## The renderer: the pixel of a point -/

/-- The variable `pixelX` for `x * 600` between two integers `a ≤ b ≤ 600`: a
finite number between `100 + a` and `100 + b`, within `2 * 2 ^ -44` of the
exact value (two rounded operations). -/
theorem pixelX_bounds (p : Point) (x : ℚ) (a b : ℕ) (hb : b ≤ 600) (hx : p.x = .fin x)
    (h1 : (a : ℚ) ≤ x * 600) (h2 : x * 600 ≤ b) :
    ∃ t, pixelX p = .fin t ∧ 100 + (a : ℚ) ≤ t ∧ t ≤ 100 + (b : ℚ) ∧
      |t - (100 + x * 600)| ≤ 2 / 2 ^ 44 := by
  obtain ⟨t1, e1, l1, u1, n1⟩ := roundDouble_step (x * 600) a b (by omega) h1 h2
  obtain ⟨t2, e2, l2, u2, n2⟩ := roundDouble_step (100 + t1) (100 + a) (100 + b) (by omega)
    (by push_cast; linarith) (by push_cast; linarith)
  refine ⟨t2, ?_, by push_cast at l2; exact l2, by push_cast at u2; exact u2, ?_⟩
  · unfold pixelX
    rw [hx, canvas_size_eq, padding_eq, fin_mul, e1, fin_add, e2]
  · rw [abs_le] at n1 n2 ⊢
    constructor <;> linarith [n1.1, n1.2, n2.1, n2.2]

/-- The variable `pixelY` for `y * 600` between two integers `c ≤ d ≤ 600`: a
finite number between `700 - d` and `700 - c`, within `3 * 2 ^ -44` of the
exact value (three rounded operations). -/
theorem pixelY_bounds (p : Point) (y : ℚ) (c d : ℕ) (hd : d ≤ 600) (hy : p.y = .fin y)
    (h1 : (c : ℚ) ≤ y * 600) (h2 : y * 600 ≤ d) :
    ∃ t, pixelY p = .fin t ∧ 700 - (d : ℚ) ≤ t ∧ t ≤ 700 - (c : ℚ) ∧
      |t - (100 + (600 - y * 600))| ≤ 3 / 2 ^ 44 := by
  have hcd : c ≤ d := by
    have : (c : ℚ) ≤ d := le_trans h1 h2
    exact_mod_cast this
  have hc : c ≤ 600 := le_trans hcd hd
  obtain ⟨t1, e1, l1, u1, n1⟩ := roundDouble_step (y * 600) c d (by omega) h1 h2
  obtain ⟨t2, e2, l2, u2, n2⟩ := roundDouble_step (600 - t1) (600 - d) (600 - c) (by omega)
    (by rw [Nat.cast_sub hd]; push_cast; linarith) (by rw [Nat.cast_sub hc]; push_cast; linarith)
  rw [Nat.cast_sub hd] at l2
  rw [Nat.cast_sub hc] at u2
  push_cast at l2 u2
  obtain ⟨t3, e3, l3, u3, n3⟩ := roundDouble_step (100 + t2) (100 + (600 - d)) (100 + (600 - c))
    (by omega) (by rw [Nat.cast_add, Nat.cast_sub hd]; push_cast; linarith)
    (by rw [Nat.cast_add, Nat.cast_sub hc]; push_cast; linarith)
  rw [Nat.cast_add, Nat.cast_sub hd] at l3
  rw [Nat.cast_add, Nat.cast_sub hc] at u3
  push_cast at l3 u3
  refine ⟨t3, ?_, by linarith, by linarith, ?_⟩
  · unfold pixelY
    rw [hy, canvas_size_eq, padding_eq, fin_mul, e1, fin_sub, e2, fin_add, e3]
  · rw [abs_le] at n1 n2 n3 ⊢
    constructor <;> linarith [n1.1, n1.2, n2.1, n2.2, n3.1, n3.2]

/-- The box of the marker of a point with `x * 600` between `a` and `b` and
`y * 600` between `c` and `d`. -/
theorem markerCell_geometry (id : Nat) (p : Point) (x y : ℚ) (a b c d : ℕ) (hb : b ≤ 600)
    (hd : d ≤ 600) (hx : p.x = .fin x) (hy : p.y = .fin y)
    (hx1 : (a : ℚ) ≤ x * 600) (hx2 : x * 600 ≤ b) (hy1 : (c : ℚ) ≤ y * 600)
    (hy2 : y * 600 ≤ d) :
    ∃ gx gy, (markerCell id p).geometry = .vertex (.fin gx) (.fin gy) (.fin 12) (.fin 12) ∧
      94 + (a : ℚ) ≤ gx ∧ gx ≤ 94 + (b : ℚ) ∧ 694 - (d : ℚ) ≤ gy ∧ gy ≤ 694 - (c : ℚ) ∧
      |gx - (100 + x * 600 - 6)| ≤ 3 / 2 ^ 44 ∧
      |gy - (100 + 600 - y * 600 - 6)| ≤ 4 / 2 ^ 44 := by
  have hcd : c ≤ d := by
    have : (c : ℚ) ≤ d := le_trans hy1 hy2
    exact_mod_cast this
  have hc : c ≤ 600 := le_trans hcd hd
  obtain ⟨tx, ex, lx, ux, nx⟩ := pixelX_bounds p x a b hb hx hx1 hx2
  obtain ⟨ty, ey, ly, uy, ny⟩ := pixelY_bounds p y c d hd hy hy1 hy2
  obtain ⟨gx, egx, lgx, ugx, ngx⟩ := roundDouble_step (tx - 6) (94 + a) (94 + b) (by omega)
    (by push_cast; linarith) (by push_cast; linarith)
  obtain ⟨gy, egy, lgy, ugy, ngy⟩ := roundDouble_step (ty - 6) (694 - d) (694 - c) (by omega)
    (by rw [Nat.cast_sub (by omega)]; push_cast; linarith)
    (by rw [Nat.cast_sub (by omega)]; push_cast; linarith)
  rw [Nat.cast_sub (by omega)] at lgy ugy
  push_cast at lgx ugx lgy ugy
  refine ⟨gx, gy, ?_, lgx, ugx, lgy, ugy, ?_, ?_⟩
  · have e6 : (6 : JSNumber) = .fin 6 := by rw [jsnum_ofNat]; norm_num
    have e12 : (12 : JSNumber) = .fin 12 := by rw [jsnum_ofNat]; norm_num
    simp only [markerCell, vertexCell]
    rw [ex, ey, e6, e12, fin_sub, fin_sub, egx, egy]
  · rw [abs_le] at nx ngx ⊢
    constructor <;> linarith [nx.1, nx.2, ngx.1, ngx.2]
  · rw [abs_le] at ny ngy ⊢
    constructor <;> linarith [ny.1, ny.2, ngy.1, ngy.2]

/-- The box of the label of a point with `x * 600` between `a` and `b` and
`y * 600` between `c` and `d`. -/
theorem labelCell_geometry (id : Nat) (p : Point) (x y : ℚ) (a b c d : ℕ) (hb : b ≤ 600)
    (hd : d ≤ 600) (hx : p.x = .fin x) (hy : p.y = .fin y)
    (hx1 : (a : ℚ) ≤ x * 600) (hx2 : x * 600 ≤ b) (hy1 : (c : ℚ) ≤ y * 600)
    (hy2 : y * 600 ≤ d) :
    ∃ gx gy, (labelCell id p).geometry = .vertex (.fin gx) (.fin gy) (.fin 150) (.fin 20) ∧
      110 + (a : ℚ) ≤ gx ∧ gx ≤ 110 + (b : ℚ) ∧ 690 - (d : ℚ) ≤ gy ∧ gy ≤ 690 - (c : ℚ) ∧
      |gx - (100 + x * 600 + 10)| ≤ 3 / 2 ^ 44 ∧
      |gy - (100 + 600 - y * 600 - 10)| ≤ 4 / 2 ^ 44 := by
  have hcd : c ≤ d := by
    have : (c : ℚ) ≤ d := le_trans hy1 hy2
    exact_mod_cast this
  have hc : c ≤ 600 := le_trans hcd hd
  obtain ⟨tx, ex, lx, ux, nx⟩ := pixelX_bounds p x a b hb hx hx1 hx2
  obtain ⟨ty, ey, ly, uy, ny⟩ := pixelY_bounds p y c d hd hy hy1 hy2
  obtain ⟨gx, egx, lgx, ugx, ngx⟩ := roundDouble_step (tx + 10) (110 + a) (110 + b) (by omega)
    (by push_cast; linarith) (by push_cast; linarith)
  obtain ⟨gy, egy, lgy, ugy, ngy⟩ := roundDouble_step (ty - 10) (690 - d) (690 - c) (by omega)
    (by rw [Nat.cast_sub (by omega)]; push_cast; linarith)
    (by rw [Nat.cast_sub (by omega)]; push_cast; linarith)
  rw [Nat.cast_sub (by omega)] at lgy ugy
  push_cast at lgx ugx lgy ugy
  refine ⟨gx, gy, ?_, lgx, ugx, lgy, ugy, ?_, ?_⟩
  · have e10 : (10 : JSNumber) = .fin 10 := by rw [jsnum_ofNat]; norm_num
    have e150 : (150 : JSNumber) = .fin 150 := by rw [jsnum_ofNat]; norm_num
    have e20 : (20 : JSNumber) = .fin 20 := by rw [jsnum_ofNat]; norm_num
    simp only [labelCell, vertexCell]
    rw [ex, ey, e10, e150, e20, fin_add, fin_sub, egx, egy]
  · rw [abs_le] at nx ngx ⊢
    constructor <;> linarith [nx.1, nx.2, ngx.1, ngx.2]
  · rw [abs_le] at ny ngy ⊢
    constructor <;> linarith [ny.1, ny.2, ngy.1, ngy.2]

/-- The centre of the marker of a point with `x * 600` between `a` and `b` and
`y * 600` between `c` and `d` lies between the corresponding pixels. -/
theorem markerCell_centre (id : Nat) (p : Point) (x y : ℚ) (a b c d : ℕ) (hb : b ≤ 600)
    (hd : d ≤ 600) (hx : p.x = .fin x) (hy : p.y = .fin y)
    (hx1 : (a : ℚ) ≤ x * 600) (hx2 : x * 600 ≤ b) (hy1 : (c : ℚ) ≤ y * 600)
    (hy2 : y * 600 ≤ d) :
    ∃ u v, cellCentre (markerCell id p) = some (u, v) ∧
      100 + (a : ℚ) ≤ u ∧ u ≤ 100 + (b : ℚ) ∧ 700 - (d : ℚ) ≤ v ∧ v ≤ 700 - (c : ℚ) ∧
      |u - (100 + x * 600)| ≤ 3 / 2 ^ 44 ∧ |v - (100 + 600 - y * 600)| ≤ 4 / 2 ^ 44 := by
  obtain ⟨gx, gy, hg, l1, u1, l2, u2, n1, n2⟩ :=
    markerCell_geometry id p x y a b c d hb hd hx hy hx1 hx2 hy1 hy2
  refine ⟨gx + 12 / 2, gy + 12 / 2, ?_, by linarith, by linarith, by linarith, by linarith,
    ?_, ?_⟩
  · simp only [cellCentre, cellRect, hg, Option.map_some']
  · rw [abs_le] at n1 ⊢
    constructor <;> linarith [n1.1, n1.2]
  · rw [abs_le] at n2 ⊢
    constructor <;> linarith [n2.1, n2.2]
theorem foldl_drawPoint (ps : List Point) (b : Builder) :
    ps.foldl drawPoint b =
      { idCounter := b.idCounter + 2 * ps.length
        cells := b.cells ++ pointShapes b.idCounter ps } := by
  induction ps generalizing b with
  | nil => simp [pointShapes]
  | cons p ps ih =>
    rw [List.foldl_cons, ih, drawPoint_eq]
    simp only [pointShapes, List.length_cons, List.append_assoc, List.cons_append,
      List.nil_append]
    congr 1
    omega

/-- The shapes of the document: the twelve frame shapes, then the shapes of the
points, numbered from 14. -/
theorem shapes_eq (now : Str) (data : ChartData) :
    (generateDrawioXml now data).shapes = frameShapes data ++ pointShapes 14 data.points := by
  simp only [generateDrawioXml, drawFrame_eq, foldl_drawPoint]

theorem frameShapes_length (data : ChartData) : (frameShapes data).length = 12 := rfl

theorem pointShapes_length (id : Nat) (ps : List Point) :
    (pointShapes id ps).length = 2 * ps.length := by
  induction ps generalizing id with
  | nil => rfl
  | cons p ps ih => simp only [pointShapes, List.length_cons, ih]; omega

theorem pointShapes_ids (id : Nat) (ps : List Point) :
    (pointShapes id ps).map Cell.id = List.range' id (2 * ps.length) := by
  induction ps generalizing id with
  | nil => rfl
  | cons p ps ih =>
    have h : 2 * (p :: ps).length = (2 * ps.length + 1) + 1 := by simp; omega
    rw [h, List.range'_succ, List.range'_succ]
    simp only [pointShapes, List.map_cons, ih, markerCell, labelCell, vertexCell]

theorem pointShapes_getElem (id : Nat) (ps : List Point) (i : Nat) (p : Point)
    (h : ps[i]? = some p) :
    (pointShapes id ps)[2 * i]? = some (markerCell (id + 2 * i) p) ∧
    (pointShapes id ps)[2 * i + 1]? = some (labelCell (id + 2 * i + 1) p) := by
  induction ps generalizing id i with
  | nil => simp at h
  | cons q ps ih =>
    cases i with
    | zero =>
      simp only [List.getElem?_cons_zero, Option.some.injEq] at h
      subst h
      simp [pointShapes]
    | succ i =>
      simp only [List.getElem?_cons_succ] at h
      obtain ⟨h1, h2⟩ := ih (id + 2) i h
      have e1 : 2 * (i + 1) = (2 * i + 1) + 1 := by omega
      have e2 : id + 2 + 2 * i = id + 2 * (i + 1) := by omega
      rw [e2] at h1 h2
      refine ⟨?_, ?_⟩
      · rw [e1]
        simpa only [pointShapes, List.getElem?_cons_succ] using h1
      · rw [e1]
        simpa only [pointShapes, List.getElem?_cons_succ] using h2

/-- The marker and the label of the point at index `i` in the document. -/
theorem shapes_point (now : Str) (data : ChartData) (i : Nat) (p : Point)
    (h : data.points[i]? = some p) :
    (generateDrawioXml now data).shapes[12 + 2 * i]? = some (markerCell (14 + 2 * i) p) ∧
    (generateDrawioXml now data).shapes[13 + 2 * i]? = some (labelCell (15 + 2 * i) p) := by
  obtain ⟨h1, h2⟩ := pointShapes_getElem 14 data.points i p h
  rw [shapes_eq]
  have e1 : 12 + 2 * i = (frameShapes data).length + 2 * i := by rw [frameShapes_length]
  have e2 : 13 + 2 * i = (frameShapes data).length + (2 * i + 1) := by
    rw [frameShapes_length]; omega
  have e3 : 15 + 2 * i = 14 + 2 * i + 1 := by omega
  rw [e1, e2, e3, List.getElem?_append_right (Nat.le_add_right _ _),
    List.getElem?_append_right (Nat.le_add_right _ _), Nat.add_sub_cancel_left,
    Nat.add_sub_cancel_left]
  exact ⟨h1, h2⟩

/-- C11 (amended): coordinate mapping in double arithmetic.  With `S = 600` and
`P = 100`, the point at index `i` gets a marker with geometry
`((P + x*S) - 6, (P + (S - y*S)) - 6, 12, 12)` and a label with geometry
`((P + x*S) + 10, (P + (S - y*S)) - 10, 150, 20)`, every operation rounded to
a double in the order shown.  For `x`, `y` in `[0,1]` these numbers are finite,
the centre of the marker is within `3 * 2 ^ -44` horizontally and
`4 * 2 ^ -44` vertically of the exact pixel `(P + x*S, P + S - y*S)`, the corner
of the label is within the same distances of `(P + x*S + 10, P + S - y*S - 10)`,
and at the coordinates `0`, `1/2` and `1` the centre is exactly `100`, `400`,
`700` horizontally and `700`, `400`, `100` vertically. -/
theorem coordinate_mapping (now : Str) (data : ChartData) (i : Nat) (p : Point)
    (h : data.points[i]? = some p) :
    CANVAS_SIZE = .fin 600 ∧ PADDING = .fin 100 ∧
    ∃ m l, (generateDrawioXml now data).shapes[12 + 2 * i]? = some m ∧
      (generateDrawioXml now data).shapes[13 + 2 * i]? = some l ∧
      m.geometry = .vertex ((PADDING + (p.x * CANVAS_SIZE)) - 6)
        ((PADDING + (CANVAS_SIZE - (p.y * CANVAS_SIZE))) - 6) 12 12 ∧
      l.geometry = .vertex ((PADDING + (p.x * CANVAS_SIZE)) + 10)
        ((PADDING + (CANVAS_SIZE - (p.y * CANVAS_SIZE))) - 10) 150 20 ∧
      ∀ x y, p.x = .fin x → p.y = .fin y → 0 ≤ x → x ≤ 1 → 0 ≤ y → y ≤ 1 →
        ∃ gx gy kx ky,
          m.geometry = .vertex (.fin gx) (.fin gy) (.fin 12) (.fin 12) ∧
          l.geometry = .vertex (.fin kx) (.fin ky) (.fin 150) (.fin 20) ∧
          cellCentre m = some (gx + 6, gy + 6) ∧
          |gx + 6 - (100 + x * 600)| ≤ 3 / 2 ^ 44 ∧
          |gy + 6 - (100 + 600 - y * 600)| ≤ 4 / 2 ^ 44 ∧
          |kx - (100 + x * 600 + 10)| ≤ 3 / 2 ^ 44 ∧
          |ky - (100 + 600 - y * 600 - 10)| ≤ 4 / 2 ^ 44 ∧
          (x = 0 → gx + 6 = 100) ∧ (x = 1 / 2 → gx + 6 = 400) ∧ (x = 1 → gx + 6 = 700) ∧
          (y = 0 → gy + 6 = 700) ∧ (y = 1 / 2 → gy + 6 = 400) ∧ (y = 1 → gy + 6 = 100) := by
  obtain ⟨h1, h2⟩ := shapes_point now data i p h
  refine ⟨canvas_size_eq, padding_eq, markerCell (14 + 2 * i) p, labelCell (15 + 2 * i) p,
    h1, h2, rfl, rfl, ?_⟩
  intro x y hx hy hx0 hx1 hy0 hy1
  obtain ⟨gx, gy, hg, _, _, _, _, n1, n2⟩ := markerCell_geometry (14 + 2 * i) p x y 0 600 0 600
    (by norm_num) (by norm_num) hx hy (by push_cast; linarith) (by push_cast; linarith)
    (by push_cast; linarith) (by push_cast; linarith)
  obtain ⟨kx, ky, hk, _, _, _, _, n3, n4⟩ := labelCell_geometry (15 + 2 * i) p x y 0 600 0 600
    (by norm_num) (by norm_num) hx hy (by push_cast; linarith) (by push_cast; linarith)
    (by push_cast; linarith) (by push_cast; linarith)
  have hx600 : (0 : ℚ) ≤ x * 600 ∧ x * 600 ≤ 600 := ⟨by linarith, by linarith⟩
  have hy600 : (0 : ℚ) ≤ y * 600 ∧ y * 600 ≤ 600 := ⟨by linarith, by linarith⟩
  have hexX : ∀ a : ℕ, a ≤ 600 → x * 600 = a → gx = 94 + (a : ℚ) := by
    intro a ha ea
    obtain ⟨gx', gy', hg', l1, u1, _, _, _, _⟩ := markerCell_geometry (14 + 2 * i) p x y a a
      0 600 ha (by norm_num) hx hy ea.ge ea.le (by push_cast; linarith) (by push_cast; linarith)
    rw [hg] at hg'
    injection hg' with e1 e2
    injection e1 with e1
    rw [e1]
    exact le_antisymm u1 l1
  have hexY : ∀ c : ℕ, c ≤ 600 → y * 600 = c → gy = 694 - (c : ℚ) := by
    intro c hc ec
    obtain ⟨gx', gy', hg', _, _, l2, u2, _, _⟩ := markerCell_geometry (14 + 2 * i) p x y 0 600
      c c (by norm_num) hc hx hy (by push_cast; linarith) (by push_cast; linarith) ec.ge ec.le
    rw [hg] at hg'
    injection hg' with e1 e2
    injection e2 with e2
    rw [e2]
    exact le_antisymm u2 l2
  refine ⟨gx, gy, kx, ky, hg, hk, ?_, ?_, ?_, n3, n4, ?_, ?_, ?_, ?_, ?_, ?_⟩
  · simp only [cellCentre, cellRect, hg, Option.map_some', Option.some.injEq, Prod.mk.injEq]
    constructor <;> norm_num
  · rw [abs_le] at n1 ⊢
    constructor <;> linarith [n1.1, n1.2]
  · rw [abs_le] at n2 ⊢
    constructor <;> linarith [n2.1, n2.2]
  · intro e
    rw [hexX 0 (by norm_num) (by rw [e]; norm_num)]
    norm_num
  · intro e
    rw [hexX 300 (by norm_num) (by rw [e]; norm_num)]
    norm_num
  · intro e
    rw [hexX 600 (by norm_num) (by rw [e]; norm_num)]
    norm_num
  · intro e
    rw [hexY 0 (by norm_num) (by rw [e]; norm_num)]
    norm_num
  · intro e
    rw [hexY 300 (by norm_num) (by rw [e]; norm_num)]
    norm_num
  · intro e
    rw [hexY 600 (by norm_num) (by rw [e]; norm_num)]
    norm_num

theorem coordinate_mapping_witness :
    (∃ m, (generateDrawioXml [] { defaultData with points := [⟨"O".toList, .fin 0, .fin 0⟩,
        ⟨"I".toList, .fin 1, .fin 1⟩, ⟨"M".toList, .fin (1 / 2), .fin (1 / 2)⟩] }).shapes[12]?
          = some m ∧ cellCentre m = some (100, 700)) ∧
    (∃ m, (generateDrawioXml [] { defaultData with points := [⟨"O".toList, .fin 0, .fin 0⟩,
        ⟨"I".toList, .fin 1, .fin 1⟩, ⟨"M".toList, .fin (1 / 2), .fin (1 / 2)⟩] }).shapes[14]?
          = some m ∧ cellCentre m = some (700, 100)) ∧
    (∃ m, (generateDrawioXml [] { defaultData with points := [⟨"O".toList, .fin 0, .fin 0⟩,
        ⟨"I".toList, .fin 1, .fin 1⟩, ⟨"M".toList, .fin (1 / 2), .fin (1 / 2)⟩] }).shapes[16]?
          = some m ∧ cellCentre m = some (400, 400)) := by
  refine ⟨?_, ?_, ?_⟩
  · obtain ⟨_, _, m, l, h1, _, _, _, h3⟩ := coordinate_mapping []
      { defaultData with points := [⟨"O".toList, .fin 0, .fin 0⟩, ⟨"I".toList, .fin 1, .fin 1⟩,
          ⟨"M".toList, .fin (1 / 2), .fin (1 / 2)⟩] } 0 ⟨"O".toList, .fin 0, .fin 0⟩ rfl
    obtain ⟨gx, gy, _, _, _, _, hc, _, _, _, _, ex, _, _, ey, _, _⟩ :=
      h3 0 0 rfl rfl (by norm_num) (by norm_num) (by norm_num) (by norm_num)
    refine ⟨m, h1, ?_⟩
    rw [hc, ex rfl, ey rfl]
  · obtain ⟨_, _, m, l, h1, _, _, _, h3⟩ := coordinate_mapping []
      { defaultData with points := [⟨"O".toList, .fin 0, .fin 0⟩, ⟨"I".toList, .fin 1, .fin 1⟩,
          ⟨"M".toList, .fin (1 / 2), .fin (1 / 2)⟩] } 1 ⟨"I".toList, .fin 1, .fin 1⟩ rfl
    obtain ⟨gx, gy, _, _, _, _, hc, _, _, _, _, _, _, ex, _, _, ey⟩ :=
      h3 1 1 rfl rfl (by norm_num) (by norm_num) (by norm_num) (by norm_num)
    refine ⟨m, h1, ?_⟩
    rw [hc, ex rfl, ey rfl]
  · obtain ⟨_, _, m, l, h1, _, _, _, h3⟩ := coordinate_mapping []
      { defaultData with points := [⟨"O".toList, .fin 0, .fin 0⟩, ⟨"I".toList, .fin 1, .fin 1⟩,
          ⟨"M".toList, .fin (1 / 2), .fin (1 / 2)⟩] } 2
      ⟨"M".toList, .fin (1 / 2), .fin (1 / 2)⟩ rfl
    obtain ⟨gx, gy, _, _, _, _, hc, _, _, _, _, _, ex, _, _, ey, _⟩ :=
      h3 (1 / 2) (1 / 2) rfl rfl (by norm_num) (by norm_num) (by norm_num) (by norm_num)
    refine ⟨m, h1, ?_⟩
    rw [hc, ex rfl, ey rfl]

/-- The rounded operations of the renderer on the doubles written `0.56` and
`0.1772112589385827`: the code's `P + (x * S)`, `- 6` and `P + (S - (y * S))`,
`- 6`, and the expression `(P + S) - (y * S)`, `- 6`.  The step `100 + ...` for
`y` is a tie, resolved to the even neighbour. -/
theorem pixel_example :
    (JSNumber.fin 100 + JSNumber.fin (1261007895663739 / 2251799813685248) * JSNumber.fin 600)
        - JSNumber.fin 6 = .fin (7564639999098881 / 17592186044416) ∧
    (JSNumber.fin 100 + (JSNumber.fin 600
        - JSNumber.fin (1596177119443315 / 9007199254740992) * JSNumber.fin 600))
        - JSNumber.fin 6 = .fin (2584614263244267 / 4398046511104) ∧
    ((JSNumber.fin 100 + JSNumber.fin 600)
        - JSNumber.fin (1596177119443315 / 9007199254740992) * JSNumber.fin 600)
        - JSNumber.fin 6 = .fin (5169228526488535 / 8796093022208) := by
  have x1 : roundDouble (1261007895663739 / 2251799813685248 * 600)
      = .fin (5910974510923777 / 17592186044416) :=
    (roundDouble_normal _ 44 5910974510923777 (by norm_num) (by norm_num) (by norm_num)
      (roundHalfEven_eq_of_near _ _ (by norm_num) (by norm_num))).trans (by norm_num)
  have x2 : roundDouble (100 + 5910974510923777 / 17592186044416)
      = .fin (7670193115365377 / 17592186044416) :=
    (roundDouble_normal _ 44 7670193115365377 (by norm_num) (by norm_num) (by norm_num)
      (roundHalfEven_eq_of_near _ _ (by norm_num) (by norm_num))).trans (by norm_num)
  have x3 : roundDouble (7670193115365377 / 17592186044416 - 6)
      = .fin (7564639999098881 / 17592186044416) :=
    (roundDouble_normal _ 44 7564639999098881 (by norm_num) (by norm_num) (by norm_num)
      (roundHalfEven_eq_of_near _ _ (by norm_num) (by norm_num))).trans (by norm_num)
  have y1 : roundDouble (1596177119443315 / 9007199254740992 * 600)
      = .fin (7482080247390539 / 70368744177664) :=
    (roundDouble_normal _ 46 7482080247390539 (by norm_num) (by norm_num) (by norm_num)
      (roundHalfEven_eq_of_near _ _ (by norm_num) (by norm_num))).trans (by norm_num)
  have y2 : roundDouble (600 - 7482080247390539 / 70368744177664)
      = .fin (8684791564801965 / 17592186044416) :=
    (roundDouble_normal _ 44 8684791564801965 (by norm_num) (by norm_num) (by norm_num)
      (roundHalfEven_eq_of_near _ _ (by norm_num) (by norm_num))).trans (by norm_num)
  have y3 : roundDouble (100 + 8684791564801965 / 17592186044416)
      = .fin (2611002542310891 / 4398046511104) :=
    (roundDouble_normal _ 43 5222005084621782 (by norm_num) (by norm_num) (by norm_num)
      (roundHalfEven_tie _ _ (by norm_num) (Or.inl (by norm_num)))).trans (by norm_num)
  have y4 : roundDouble (2611002542310891 / 4398046511104 - 6)
      = .fin (2584614263244267 / 4398046511104) :=
    (roundDouble_normal _ 43 5169228526488534 (by norm_num) (by norm_num) (by norm_num)
      (roundHalfEven_eq_of_near _ _ (by norm_num) (by norm_num))).trans (by norm_num)
  have c1 : roundDouble (100 + 600) = .fin 700 := by
    have e : (100 + 600 : ℚ) = 700 := by norm_num
    rw [e]
    exact roundDouble_frame_values.2.2.1
  have c2 : roundDouble (700 - 7482080247390539 / 70368744177664)
      = .fin (5222005084621783 / 8796093022208) :=
    (roundDouble_normal _ 43 5222005084621783 (by norm_num) (by norm_num) (by norm_num)
      (roundHalfEven_eq_of_near _ _ (by norm_num) (by norm_num))).trans (by norm_num)
  have c3 : roundDouble (5222005084621783 / 8796093022208 - 6)
      = .fin (5169228526488535 / 8796093022208) :=
    (roundDouble_normal _ 43 5169228526488535 (by norm_num) (by norm_num) (by norm_num)
      (roundHalfEven_eq_of_near _ _ (by norm_num) (by norm_num))).trans (by norm_num)
  refine ⟨?_, ?_, ?_⟩
  · rw [fin_mul, x1, fin_add, x2, fin_sub, x3]
  · rw [fin_mul, y1, fin_sub, y2, fin_add, y3, fin_sub, y4]
  · rw [fin_mul, y1, fin_add, c1, fin_sub, c2, fin_sub, c3]

/-- C11 (as stated) fails in double arithmetic.  The line
`A: [0.56, 0.1772112589385827]` parses to the point whose coordinates are the
doubles written `0.56` and `0.1772112589385827`.  Its marker is emitted with
`x = 430.00000000000006` and `y = 587.6732446368503`.  Neither is the value of
the claimed expression computed exactly (`P + x*S - 6` and `P + S - y*S - 6`
at these coordinates), and the claimed expression for `y`, evaluated in double
arithmetic in the order written, `((P + S) - y*S) - 6`, gives
`587.6732446368504`, which is not the emitted `y` either. -/
theorem coordinate_mapping_counterexample :
    parseMermaid "A: [0.56, 0.1772112589385827]".toList =
      { defaultData with
        points := [⟨"A".toList, .fin (1261007895663739 / 2251799813685248),
          .fin (1596177119443315 / 9007199254740992)⟩] } ∧
    (∃ m, (generateDrawioXml [] (parseMermaid "A: [0.56, 0.1772112589385827]".toList)).shapes[12]?
        = some m ∧
      m.geometry = .vertex (.fin (7564639999098881 / 17592186044416))
        (.fin (2584614263244267 / 4398046511104)) (.fin 12) (.fin 12)) ∧
    (7564639999098881 / 17592186044416 : ℚ)
      ≠ 100 + 1261007895663739 / 2251799813685248 * 600 - 6 ∧
    (2584614263244267 / 4398046511104 : ℚ)
      ≠ 100 + 600 - 1596177119443315 / 9007199254740992 * 600 - 6 ∧
    PADDING + CANVAS_SIZE - JSNumber.fin (1596177119443315 / 9007199254740992) * CANVAS_SIZE - 6
      = .fin (5169228526488535 / 8796093022208) ∧
    (5169228526488535 / 8796093022208 : ℚ) ≠ 2584614263244267 / 4398046511104 := by
  have e6 : (6 : JSNumber) = .fin 6 := by rw [jsnum_ofNat]; norm_num
  have e12 : (12 : JSNumber) = .fin 12 := by rw [jsnum_ofNat]; norm_num
  have hparse : parseMermaid "A: [0.56, 0.1772112589385827]".toList =
      { defaultData with
        points := [⟨"A".toList, .fin (1261007895663739 / 2251799813685248),
          .fin (1596177119443315 / 9007199254740992)⟩] } := by
    have h := parse_data_line "A".toList "0.56".toList "0.1772112589385827".toList (by decide)
      (by decide) (by decide) (by decide) (by decide) (by decide)
    have d1 : decimalValue "0.56".toList = 56 / 10 ^ 2 := by
      have h1 : digitsVal ("0.56".toList.filter isDigit) = 56 := by decide
      have h2 : ("0.56".toList.dropWhile isDigit).length - 1 = 2 := by decide
      unfold decimalValue
      rw [h1, h2]
      norm_num
    have d2 : decimalValue "0.1772112589385827".toList = 1772112589385827 / 10 ^ 16 := by
      have h1 : digitsVal ("0.1772112589385827".toList.filter isDigit) = 1772112589385827 := by
        decide
      have h2 : ("0.1772112589385827".toList.dropWhile isDigit).length - 1 = 16 := by decide
      unfold decimalValue
      rw [h1, h2]
      norm_num
    have r1 : roundDouble (min (56 / 10 ^ 2) 1) = .fin (1261007895663739 / 2251799813685248) := by
      rw [min_eq_left (by norm_num)]
      exact (roundDouble_normal _ 53 5044031582654956 (by norm_num) (by norm_num) (by norm_num)
        (roundHalfEven_eq_of_near _ _ (by norm_num) (by norm_num))).trans (by norm_num)
    have r2 : roundDouble (min (1772112589385827 / 10 ^ 16) 1)
        = .fin (1596177119443315 / 9007199254740992) := by
      rw [min_eq_left (by norm_num)]
      exact (roundDouble_normal _ 55 6384708477773260 (by norm_num) (by norm_num) (by norm_num)
        (roundHalfEven_eq_of_near _ _ (by norm_num) (by norm_num))).trans (by norm_num)
    rw [d1, d2, r1, r2] at h
    exact h
  refine ⟨hparse, ?_, by norm_num, by norm_num, ?_, by norm_num⟩
  · rw [hparse]
    refine ⟨_, (shapes_point []
      { defaultData with
        points := [⟨"A".toList, .fin (1261007895663739 / 2251799813685248),
          .fin (1596177119443315 / 9007199254740992)⟩] } 0
      ⟨"A".toList, .fin (1261007895663739 / 2251799813685248),
        .fin (1596177119443315 / 9007199254740992)⟩ rfl).1, ?_⟩
    simp only [markerCell, vertexCell, pixelX, pixelY, canvas_size_eq, padding_eq, e6, e12]
    rw [pixel_example.1, pixel_example.2.1]
  · rw [canvas_size_eq, padding_eq, e6]
    exact pixel_example.2.2

/-! ## The renderer: colours -/

theorem jsGe_fin (a b : ℚ) : jsGe (.fin a) (.fin b) = decide (b ≤ a) := rfl

theorem jsLt_fin (a b : ℚ) : jsLt (.fin a) (.fin b) = decide (a < b) := rfl

/-- The colour of a point with finite coordinates, bucket by bucket. -/
theorem pointColor_buckets (p : Point) (x y : ℚ) (hx : p.x = .fin x) (hy : p.y = .fin y) :
    (1 / 2 ≤ x ∧ 1 / 2 ≤ y → pointColor p = "#28a745".toList) ∧
    (x < 1 / 2 ∧ 1 / 2 ≤ y → pointColor p = "#007bff".toList) ∧
    (x < 1 / 2 ∧ y < 1 / 2 → pointColor p = "#6c757d".toList) ∧
    (1 / 2 ≤ x ∧ y < 1 / 2 → pointColor p = "#ffc107".toList) := by
  have e : (0.5 : ℚ) = 1 / 2 := by norm_num
  unfold pointColor
  rw [hx, hy, e]
  simp only [jsGe_fin, jsLt_fin, Bool.and_eq_true, decide_eq_true_eq]
  refine ⟨?_, ?_, ?_, ?_⟩
  · intro h
    rw [if_pos h]
  · intro h
    rw [if_neg (by intro h'; linarith [h.1, h'.1]), if_pos h]
  · intro h
    rw [if_neg (by intro h'; linarith [h.1, h'.1]), if_neg (by intro h'; linarith [h.2, h'.2]),
      if_pos h]
  · intro h
    rw [if_neg (by intro h'; linarith [h.2, h'.2]), if_neg (by intro h'; linarith [h.1, h'.1]),
      if_neg (by intro h'; linarith [h.1, h'.1]), if_pos h]

/-- C12: colour policy.  For a point with finite coordinates (so in particular
with both in `[0,1]`) the fill colour of its marker is green when `x >= 0.5`
and `y >= 0.5`, blue when `x < 0.5` and `y >= 0.5`, gray when both are below
`0.5`, amber when `x >= 0.5` and `y < 0.5`; one of the four always applies and
the default colour is never used. -/
theorem colour_policy (now : Str) (data : ChartData) (i : Nat) (p : Point) (x y : ℚ)
    (h : data.points[i]? = some p) (hx : p.x = .fin x) (hy : p.y = .fin y) :
    (∃ m, (generateDrawioXml now data).shapes[12 + 2 * i]? = some m ∧
      m.style = "ellipse;whiteSpace=wrap;html=1;aspect=fixed;fillColor=".toList ++ pointColor p
        ++ ";strokeColor=none;".toList) ∧
    (1 / 2 ≤ x ∧ 1 / 2 ≤ y → pointColor p = "#28a745".toList) ∧
    (x < 1 / 2 ∧ 1 / 2 ≤ y → pointColor p = "#007bff".toList) ∧
    (x < 1 / 2 ∧ y < 1 / 2 → pointColor p = "#6c757d".toList) ∧
    (1 / 2 ≤ x ∧ y < 1 / 2 → pointColor p = "#ffc107".toList) ∧
    pointColor p ∈ ["#28a745".toList, "#007bff".toList, "#6c757d".toList, "#ffc107".toList] ∧
    pointColor p ≠ "#999999".toList := by
  obtain ⟨b1, b2, b3, b4⟩ := pointColor_buckets p x y hx hy
  have hmem : pointColor p ∈
      ["#28a745".toList, "#007bff".toList, "#6c757d".toList, "#ffc107".toList] := by
    rcases le_or_lt (1 / 2) x with h1 | h1 <;> rcases le_or_lt (1 / 2) y with h2 | h2
    · rw [b1 ⟨h1, h2⟩]; decide
    · rw [b4 ⟨h1, h2⟩]; decide
    · rw [b2 ⟨h1, h2⟩]; decide
    · rw [b3 ⟨h1, h2⟩]; decide
  refine ⟨⟨markerCell (14 + 2 * i) p, (shapes_point now data i p h).1, rfl⟩, b1, b2, b3, b4,
    hmem, ?_⟩
  intro he
  rw [he] at hmem
  revert hmem
  decide

theorem colour_policy_witness :
    pointColor ⟨[], .fin (9 / 10), .fin (9 / 10)⟩ = "#28a745".toList ∧
    pointColor ⟨[], .fin (1 / 10), .fin (9 / 10)⟩ = "#007bff".toList ∧
    pointColor ⟨[], .fin (1 / 10), .fin (1 / 10)⟩ = "#6c757d".toList ∧
    pointColor ⟨[], .fin (9 / 10), .fin (1 / 10)⟩ = "#ffc107".toList ∧
    pointColor ⟨[], .fin (1 / 2), .fin (1 / 2)⟩ = "#28a745".toList :=
  ⟨(colour_policy [] { defaultData with points := [⟨[], .fin (9 / 10), .fin (9 / 10)⟩] } 0
      ⟨[], .fin (9 / 10), .fin (9 / 10)⟩ (9 / 10) (9 / 10) rfl rfl rfl).2.1
      (by norm_num),
   (colour_policy [] { defaultData with points := [⟨[], .fin (1 / 10), .fin (9 / 10)⟩] } 0
      ⟨[], .fin (1 / 10), .fin (9 / 10)⟩ (1 / 10) (9 / 10) rfl rfl rfl).2.2.1
      (by norm_num),
   (colour_policy [] { defaultData with points := [⟨[], .fin (1 / 10), .fin (1 / 10)⟩] } 0
      ⟨[], .fin (1 / 10), .fin (1 / 10)⟩ (1 / 10) (1 / 10) rfl rfl rfl).2.2.2.1
      (by norm_num),
   (colour_policy [] { defaultData with points := [⟨[], .fin (9 / 10), .fin (1 / 10)⟩] } 0
      ⟨[], .fin (9 / 10), .fin (1 / 10)⟩ (9 / 10) (1 / 10) rfl rfl rfl).2.2.2.2.1
      (by norm_num),
   (colour_policy [] { defaultData with points := [⟨[], .fin (1 / 2), .fin (1 / 2)⟩] } 0
      ⟨[], .fin (1 / 2), .fin (1 / 2)⟩ (1 / 2) (1 / 2) rfl rfl rfl).2.1
      (by norm_num)⟩

/-- A point with a `NaN` coordinate falls through all four tests. -/
theorem pointColor_nan (p : Point) (h : p.x = .nan ∨ p.y = .nan) :
    pointColor p = "#999999".toList := by
  unfold pointColor
  rcases h with h | h
  · rw [h]; simp [jsGe, jsLt]
  · rw [h]
    cases p.x <;> simp [jsGe, jsLt]

/-- The line `A: [0.49999999999999999, 0.5]`: the first numeral is stored as
the double `0.5`, so the point is drawn green. -/
theorem long_numeral_example :
    parseMermaid "A: [0.49999999999999999, 0.5]".toList =
      { defaultData with points := [⟨"A".toList, .fin (1 / 2), .fin (1 / 2)⟩] } ∧
    pointColor ⟨"A".toList, .fin (1 / 2), .fin (1 / 2)⟩ = "#28a745".toList := by
  constructor
  · have h := parse_data_line "A".toList "0.49999999999999999".toList "0.5".toList (by decide)
      (by decide) (by decide) (by decide) (by decide) (by decide)
    have d1 : decimalValue "0.49999999999999999".toList = 49999999999999999 / 10 ^ 17 := by
      have h1 : digitsVal ("0.49999999999999999".toList.filter isDigit)
          = 49999999999999999 := by decide
      have h2 : ("0.49999999999999999".toList.dropWhile isDigit).length - 1 = 17 := by decide
      unfold decimalValue
      rw [h1, h2]
      norm_num
    have d2 : decimalValue "0.5".toList = 1 / 2 := by
      have h1 : digitsVal ("0.5".toList.filter isDigit) = 5 := by decide
      have h2 : ("0.5".toList.dropWhile isDigit).length - 1 = 1 := by decide
      unfold decimalValue
      rw [h1, h2]
      norm_num
    rw [d1, d2, min_eq_left (by norm_num), min_eq_left (by norm_num), roundDouble_example_long,
      roundDouble_example_half] at h
    exact h
  · exact (pointColor_buckets ⟨"A".toList, .fin (1 / 2), .fin (1 / 2)⟩ (1 / 2) (1 / 2) rfl
      rfl).1 ⟨le_rfl, le_rfl⟩

/-! ## The renderer: frame, identifiers, order -/

theorem shapes_frame (now : Str) (data : ChartData) (k : Nat) (hk : k < 12) :
    (generateDrawioXml now data).shapes[k]? = (frameShapes data)[k]? := by
  rw [shapes_eq, List.getElem?_append_left (by rw [frameShapes_length]; exact hk)]

/-- C13: quadrant label placement.  The four watermarks are emitted in the
order q2, q1, q3, q4, each 300 by 300, at `(100,100)`, `(400,100)`,
`(100,400)` and `(400,400)`; their interiors are pairwise disjoint and together
the four closed cells are exactly the container box `(100,100,600,600)`. -/
theorem quadrant_label_placement (now : Str) (data : ChartData) :
    ((generateDrawioXml now data).shapes.drop 2).take 4 =
      [ vertexCell 4 data.quadrants.q2 wmStyle (.fin 100) (.fin 100) (.fin 300) (.fin 300),
        vertexCell 5 data.quadrants.q1 wmStyle (.fin 400) (.fin 100) (.fin 300) (.fin 300),
        vertexCell 6 data.quadrants.q3 wmStyle (.fin 100) (.fin 400) (.fin 300) (.fin 300),
        vertexCell 7 data.quadrants.q4 wmStyle (.fin 400) (.fin 400) (.fin 300) (.fin 300) ] ∧
    (((generateDrawioXml now data).shapes.drop 2).take 4).map cellRect =
      [ some ⟨100, 100, 300, 300⟩, some ⟨400, 100, 300, 300⟩, some ⟨100, 400, 300, 300⟩,
        some ⟨400, 400, 300, 300⟩ ] ∧
    (generateDrawioXml now data).shapes[1]?.bind cellRect = some ⟨100, 100, 600, 600⟩ ∧
    ((((generateDrawioXml now data).shapes.drop 2).take 4).filterMap cellRect).Pairwise
      (fun r s => ∀ u v, ¬ (r.interior u v ∧ s.interior u v)) ∧
    ∀ u v, Rect.closed ⟨100, 100, 600, 600⟩ u v ↔
      ∃ r ∈ (((generateDrawioXml now data).shapes.drop 2).take 4).filterMap cellRect,
        r.closed u v := by
  have hs : ((generateDrawioXml now data).shapes.drop 2).take 4 =
      [ vertexCell 4 data.quadrants.q2 wmStyle (.fin 100) (.fin 100) (.fin 300) (.fin 300),
        vertexCell 5 data.quadrants.q1 wmStyle (.fin 400) (.fin 100) (.fin 300) (.fin 300),
        vertexCell 6 data.quadrants.q3 wmStyle (.fin 100) (.fin 400) (.fin 300) (.fin 300),
        vertexCell 7 data.quadrants.q4 wmStyle (.fin 400) (.fin 400) (.fin 300)
          (.fin 300) ] := by
    rw [shapes_eq]; rfl
  have hr : (((generateDrawioXml now data).shapes.drop 2).take 4).filterMap cellRect =
      [⟨100, 100, 300, 300⟩, ⟨400, 100, 300, 300⟩, ⟨100, 400, 300, 300⟩,
        ⟨400, 400, 300, 300⟩] := by
    rw [hs]; rfl
  refine ⟨hs, by rw [hs]; rfl, by rw [shapes_frame now data 1 (by decide)]; rfl, ?_, ?_⟩
  · rw [hr]
    simp only [List.pairwise_cons, List.mem_cons, List.mem_singleton, List.not_mem_nil,
      forall_eq_or_imp, forall_eq, Rect.interior, List.Pairwise.nil, and_true, false_imp_iff,
      implies_true]
    refine ⟨⟨?_, ?_, ?_⟩, ⟨?_, ?_⟩, ?_⟩ <;> intro u v hh <;> norm_num at hh <;>
      linarith [hh.1.1, hh.1.2.1, hh.1.2.2.1, hh.1.2.2.2, hh.2.1, hh.2.2.1, hh.2.2.2.1,
        hh.2.2.2.2]
  · intro u v
    rw [hr]
    simp only [List.mem_cons, List.mem_singleton, List.not_mem_nil, or_false, exists_eq_or_imp,
      exists_eq_left, Rect.closed]
    norm_num
    constructor
    · rintro ⟨h1, h2, h3, h4⟩
      rcases le_total u 400 with hu | hu <;> rcases le_total v 400 with hv | hv
      · exact Or.inl ⟨h1, hu, h3, hv⟩
      · exact Or.inr (Or.inr (Or.inl ⟨h1, hu, hv, h4⟩))
      · exact Or.inr (Or.inl ⟨hu, h2, h3, hv⟩)
      · exact Or.inr (Or.inr (Or.inr ⟨hu, h2, hv, h4⟩))
    · rintro (⟨h1, h2, h3, h4⟩ | ⟨h1, h2, h3, h4⟩ | ⟨h1, h2, h3, h4⟩ | ⟨h1, h2, h3, h4⟩) <;>
        exact ⟨by linarith, by linarith, by linarith, by linarith⟩

theorem shapes_ids (now : Str) (data : ChartData) :
    (generateDrawioXml now data).shapes.map Cell.id
      = List.range' 2 (12 + 2 * data.points.length) := by
  rw [shapes_eq, List.map_append, pointShapes_ids]
  have h : (frameShapes data).map Cell.id = List.range' 2 12 := rfl
  rw [h, List.range'_append, Nat.add_comm]

theorem shapes_length (now : Str) (data : ChartData) :
    (generateDrawioXml now data).shapes.length = 12 + 2 * data.points.length := by
  rw [shapes_eq, List.length_append, frameShapes_length, pointShapes_length]

/-- C14: identity assignment.  After the two bootstrap nodes with identifiers
0 and 1 the document has `12 + 2n` shapes; the shape at position `k` has
identifier `2 + k`; all identifiers of the document are pairwise distinct; the
marker and the label of the point at index `i` have identifiers `14 + 2i` and
`15 + 2i`.  The only other `id` attribute, that of the `diagram` element, is
not a number. -/
theorem identity_assignment (now : Str) (data : ChartData) :
    (generateDrawioXml now data).diagram = [("id".toList, "mermaid-diagram".toList)] ∧
    "mermaid-diagram".toList.all isDigit = false ∧
    (generateDrawioXml now data).bootstrap.map Prod.fst = [0, 1] ∧
    (generateDrawioXml now data).shapes.length = 12 + 2 * data.points.length ∧
    (∀ k c, (generateDrawioXml now data).shapes[k]? = some c → c.id = 2 + k) ∧
    (generateDrawioXml now data).shapes.map Cell.id
      = List.range' 2 (12 + 2 * data.points.length) ∧
    ((generateDrawioXml now data).bootstrap.map Prod.fst
      ++ (generateDrawioXml now data).shapes.map Cell.id).Nodup ∧
    ∀ i p, data.points[i]? = some p →
      ∃ m l, (generateDrawioXml now data).shapes[12 + 2 * i]? = some m ∧
        (generateDrawioXml now data).shapes[13 + 2 * i]? = some l ∧
        m = markerCell (14 + 2 * i) p ∧ l = labelCell (15 + 2 * i) p ∧
        m.id = 14 + 2 * i ∧ l.id = 15 + 2 * i := by
  refine ⟨rfl, by decide, rfl, shapes_length now data, ?_, shapes_ids now data, ?_, ?_⟩
  · intro k c hk
    have h1 : ((generateDrawioXml now data).shapes.map Cell.id)[k]? = some c.id := by
      rw [List.getElem?_map, hk]; rfl
    rw [shapes_ids, List.getElem?_range'] at h1
    · simpa using h1.symm
    · by_contra hlt
      rw [List.getElem?_eq_none (by rw [List.length_range']; omega)] at h1
      exact absurd h1 (by simp)
  · have hb : (generateDrawioXml now data).bootstrap.map Prod.fst = List.range' 0 2 := rfl
    rw [hb, shapes_ids, List.range'_append]
    exact List.nodup_range' _ _
  · intro i p hp
    obtain ⟨h1, h2⟩ := shapes_point now data i p hp
    exact ⟨_, _, h1, h2, rfl, rfl, rfl, rfl⟩

theorem identity_assignment_witness :
    ({ defaultData with points := [⟨"Alpha".toList, .fin (4 / 5), .fin (9 / 10)⟩] }
      : ChartData).points[0]? = some ⟨"Alpha".toList, .fin (4 / 5), .fin (9 / 10)⟩ ∧
    ∃ m l, (generateDrawioXml [] { defaultData with
        points := [⟨"Alpha".toList, .fin (4 / 5), .fin (9 / 10)⟩] }).shapes[12]? = some m ∧
      (generateDrawioXml [] { defaultData with
        points := [⟨"Alpha".toList, .fin (4 / 5), .fin (9 / 10)⟩] }).shapes[13]? = some l ∧
      m.id = 14 ∧ l.id = 15 := by
  refine ⟨rfl, ?_⟩
  obtain ⟨m, l, h1, h2, _, _, h3, h4⟩ := (identity_assignment []
    { defaultData with points := [⟨"Alpha".toList, .fin (4 / 5), .fin (9 / 10)⟩] }).2.2.2.2.2.2.2
    0 ⟨"Alpha".toList, .fin (4 / 5), .fin (9 / 10)⟩ rfl
  exact ⟨m, l, h1, h2, h3, h4⟩

/-- C15: shape emission order.  The shapes are the title text, the container
box, the four watermarks, the two dashed dividers, the four axis labels x-left,
x-right, y-top, y-bottom, and then for each point in model order one marker
(no text, ellipse style) directly followed by one label carrying the text of
the point.  The first twelve shapes do not depend on the points. -/
theorem shape_emission_order (now : Str) (data : ChartData) :
    (generateDrawioXml now data).shapes =
      [ vertexCell 2 data.title titleStyle (.fin 100) (.fin 10) (.fin 600) (.fin 40),
        vertexCell 3 [] boxStyle (.fin 100) (.fin 100) (.fin 600) (.fin 600),
        vertexCell 4 data.quadrants.q2 wmStyle (.fin 100) (.fin 100) (.fin 300) (.fin 300),
        vertexCell 5 data.quadrants.q1 wmStyle (.fin 400) (.fin 100) (.fin 300) (.fin 300),
        vertexCell 6 data.quadrants.q3 wmStyle (.fin 100) (.fin 400) (.fin 300) (.fin 300),
        vertexCell 7 data.quadrants.q4 wmStyle (.fin 400) (.fin 400) (.fin 300) (.fin 300),
        edgeCell 8 [] gridStyle (.fin 400) (.fin 100) (.fin 400) (.fin 700),
        edgeCell 9 [] gridStyle (.fin 100) (.fin 400) (.fin 700) (.fin 400),
        vertexCell 10 data.xAxis.left (lblStyle ++ "align=left;".toList)
          (.fin 100) (.fin 410) (.fin 150) (.fin 20),
        vertexCell 11 data.xAxis.right (lblStyle ++ "align=right;".toList)
          (.fin 550) (.fin 410) (.fin 150) (.fin 20),
        vertexCell 12 data.yAxis.top lblStyle (.fin 325) (.fin 70) (.fin 150) (.fin 20),
        vertexCell 13 data.yAxis.bottom lblStyle (.fin 325) (.fin 710) (.fin 150) (.fin 20) ]
      ++ pointShapes 14 data.points ∧
    (∀ (id : Nat) (p : Point) (ps : List Point),
      pointShapes id (p :: ps) = markerCell id p :: labelCell (id + 1) p :: pointShapes (id + 2) ps
      ∧ (markerCell id p).value = [] ∧ "ellipse;".toList <+: (markerCell id p).style
      ∧ (labelCell (id + 1) p).value = p.label) ∧
    pointShapes 14 [] = [] ∧
    (∀ ps : List Point, (generateDrawioXml now { data with points := ps }).shapes.take 12
      = (generateDrawioXml now data).shapes.take 12) ∧
    (generateDrawioXml now { data with
        points := [⟨"Alpha".toList, .fin (4 / 5), .fin (9 / 10)⟩] }).shapes.drop 12
      = [ markerCell 14 ⟨"Alpha".toList, .fin (4 / 5), .fin (9 / 10)⟩,
          labelCell 15 ⟨"Alpha".toList, .fin (4 / 5), .fin (9 / 10)⟩ ] := by
  refine ⟨shapes_eq now data, ?_, rfl, ?_, ?_⟩
  · intro id p ps
    refine ⟨rfl, rfl, ?_, rfl⟩
    exact ⟨_, rfl⟩
  · intro ps
    rw [shapes_eq, shapes_eq, List.take_left' (frameShapes_length _),
      List.take_left' (frameShapes_length _)]
    rfl
  · rw [shapes_eq, List.drop_left' (frameShapes_length _)]
    rfl

/-- The centre of the marker of a point with coordinates in `[0,1]`: it lies
in the container box, and on the side of the dividers that the comparison of
each coordinate with `0.5` selects (rounding is monotone and `100`, `400`,
`700` are doubles). -/
theorem markerCell_centre_cell (id : Nat) (p : Point) (x y : ℚ) (hx : p.x = .fin x)
    (hy : p.y = .fin y) (hxr : 0 ≤ x ∧ x ≤ 1) (hyr : 0 ≤ y ∧ y ≤ 1) :
    ∃ u v, cellCentre (markerCell id p) = some (u, v) ∧
      100 ≤ u ∧ u ≤ 700 ∧ 100 ≤ v ∧ v ≤ 700 ∧
      (1 / 2 ≤ x → 400 ≤ u) ∧ (x < 1 / 2 → u ≤ 400) ∧
      (1 / 2 ≤ y → v ≤ 400) ∧ (y < 1 / 2 → 400 ≤ v) := by
  obtain ⟨hx0, hx1⟩ := hxr
  obtain ⟨hy0, hy1⟩ := hyr
  rcases le_or_lt (1 / 2) x with h1 | h1 <;> rcases le_or_lt (1 / 2) y with h2 | h2
  · obtain ⟨u, v, hc, lu, uu, lv, uv, _, _⟩ := markerCell_centre id p x y 300 600 300 600
      (by norm_num) (by norm_num) hx hy (by push_cast; linarith) (by push_cast; linarith)
      (by push_cast; linarith) (by push_cast; linarith)
    push_cast at lu uu lv uv
    exact ⟨u, v, hc, by linarith, by linarith, by linarith, by linarith, fun _ => by linarith,
      fun h => by linarith, fun _ => by linarith, fun h => by linarith⟩
  · obtain ⟨u, v, hc, lu, uu, lv, uv, _, _⟩ := markerCell_centre id p x y 300 600 0 300
      (by norm_num) (by norm_num) hx hy (by push_cast; linarith) (by push_cast; linarith)
      (by push_cast; linarith) (by push_cast; linarith)
    push_cast at lu uu lv uv
    exact ⟨u, v, hc, by linarith, by linarith, by linarith, by linarith, fun _ => by linarith,
      fun h => by linarith, fun h => by linarith, fun _ => by linarith⟩
  · obtain ⟨u, v, hc, lu, uu, lv, uv, _, _⟩ := markerCell_centre id p x y 0 300 300 600
      (by norm_num) (by norm_num) hx hy (by push_cast; linarith) (by push_cast; linarith)
      (by push_cast; linarith) (by push_cast; linarith)
    push_cast at lu uu lv uv
    exact ⟨u, v, hc, by linarith, by linarith, by linarith, by linarith, fun h => by linarith,
      fun _ => by linarith, fun _ => by linarith, fun h => by linarith⟩
  · obtain ⟨u, v, hc, lu, uu, lv, uv, _, _⟩ := markerCell_centre id p x y 0 300 0 300
      (by norm_num) (by norm_num) hx hy (by push_cast; linarith) (by push_cast; linarith)
      (by push_cast; linarith) (by push_cast; linarith)
    push_cast at lu uu lv uv
    exact ⟨u, v, hc, by linarith, by linarith, by linarith, by linarith, fun h => by linarith,
      fun _ => by linarith, fun h => by linarith, fun _ => by linarith⟩

/-- C20: colour and quadrant cell agree.  For a point with both coordinates in
`[0,1]` the pixel on which its marker is centred lies in the closed cell of
the watermark whose quadrant matches the colour: green in the cell of q1, blue
in that of q2, gray in that of q3, amber in that of q4; one of the four
applies, and the pixel lies in the container box. -/
theorem colour_matches_quadrant_cell (now : Str) (data : ChartData) (i : Nat) (p : Point)
    (x y : ℚ) (h : data.points[i]? = some p) (hx : p.x = .fin x) (hy : p.y = .fin y)
    (hxr : 0 ≤ x ∧ x ≤ 1) (hyr : 0 ≤ y ∧ y ≤ 1) :
    ∃ m u v, (generateDrawioXml now data).shapes[12 + 2 * i]? = some m ∧
      m.style = markerStyle (pointColor p) ∧ cellCentre m = some (u, v) ∧
      (pointColor p = "#28a745".toList →
        ∃ c r, (generateDrawioXml now data).shapes[3]? = some c ∧
          c.value = data.quadrants.q1 ∧ cellRect c = some r ∧ r.closed u v) ∧
      (pointColor p = "#007bff".toList →
        ∃ c r, (generateDrawioXml now data).shapes[2]? = some c ∧
          c.value = data.quadrants.q2 ∧ cellRect c = some r ∧ r.closed u v) ∧
      (pointColor p = "#6c757d".toList →
        ∃ c r, (generateDrawioXml now data).shapes[4]? = some c ∧
          c.value = data.quadrants.q3 ∧ cellRect c = some r ∧ r.closed u v) ∧
      (pointColor p = "#ffc107".toList →
        ∃ c r, (generateDrawioXml now data).shapes[5]? = some c ∧
          c.value = data.quadrants.q4 ∧ cellRect c = some r ∧ r.closed u v) ∧
      pointColor p ∈
        ["#28a745".toList, "#007bff".toList, "#6c757d".toList, "#ffc107".toList] ∧
      ∃ c r, (generateDrawioXml now data).shapes[1]? = some c ∧ cellRect c = some r ∧
        r.closed u v := by
  obtain ⟨b1, b2, b3, b4⟩ := pointColor_buckets p x y hx hy
  obtain ⟨u, v, hcen, hu0, hu1, hv0, hv1, hur, hul, hvt, hvb⟩ :=
    markerCell_centre_cell (14 + 2 * i) p x y hx hy hxr hyr
  refine ⟨markerCell (14 + 2 * i) p, u, v,
    (shapes_point now data i p h).1, rfl, hcen, ?_, ?_, ?_, ?_, ?_, ?_⟩
  · intro hc
    have hb : 1 / 2 ≤ x ∧ 1 / 2 ≤ y := by
      rcases le_or_lt (1 / 2) x with h1 | h1 <;> rcases le_or_lt (1 / 2) y with h2 | h2
      · exact ⟨h1, h2⟩
      · rw [b4 ⟨h1, h2⟩] at hc; exact absurd hc (by decide)
      · rw [b2 ⟨h1, h2⟩] at hc; exact absurd hc (by decide)
      · rw [b3 ⟨h1, h2⟩] at hc; exact absurd hc (by decide)
    refine ⟨vertexCell 5 data.quadrants.q1 wmStyle (.fin 400) (.fin 100) (.fin 300) (.fin 300),
      ⟨400, 100, 300, 300⟩, by rw [shapes_frame now data 3 (by decide)]; rfl, rfl, rfl, ?_⟩
    simp only [Rect.closed]
    refine ⟨?_, ?_, ?_, ?_⟩ <;> linarith [hur hb.1, hvt hb.2]
  · intro hc
    have hb : x < 1 / 2 ∧ 1 / 2 ≤ y := by
      rcases le_or_lt (1 / 2) x with h1 | h1 <;> rcases le_or_lt (1 / 2) y with h2 | h2
      · rw [b1 ⟨h1, h2⟩] at hc; exact absurd hc (by decide)
      · rw [b4 ⟨h1, h2⟩] at hc; exact absurd hc (by decide)
      · exact ⟨h1, h2⟩
      · rw [b3 ⟨h1, h2⟩] at hc; exact absurd hc (by decide)
    refine ⟨vertexCell 4 data.quadrants.q2 wmStyle (.fin 100) (.fin 100) (.fin 300) (.fin 300),
      ⟨100, 100, 300, 300⟩, by rw [shapes_frame now data 2 (by decide)]; rfl, rfl, rfl, ?_⟩
    simp only [Rect.closed]
    refine ⟨?_, ?_, ?_, ?_⟩ <;> linarith [hul hb.1, hvt hb.2]
  · intro hc
    have hb : x < 1 / 2 ∧ y < 1 / 2 := by
      rcases le_or_lt (1 / 2) x with h1 | h1 <;> rcases le_or_lt (1 / 2) y with h2 | h2
      · rw [b1 ⟨h1, h2⟩] at hc; exact absurd hc (by decide)
      · rw [b4 ⟨h1, h2⟩] at hc; exact absurd hc (by decide)
      · rw [b2 ⟨h1, h2⟩] at hc; exact absurd hc (by decide)
      · exact ⟨h1, h2⟩
    refine ⟨vertexCell 6 data.quadrants.q3 wmStyle (.fin 100) (.fin 400) (.fin 300) (.fin 300),
      ⟨100, 400, 300, 300⟩, by rw [shapes_frame now data 4 (by decide)]; rfl, rfl, rfl, ?_⟩
    simp only [Rect.closed]
    refine ⟨?_, ?_, ?_, ?_⟩ <;> linarith [hul hb.1, hvb hb.2]
  · intro hc
    have hb : 1 / 2 ≤ x ∧ y < 1 / 2 := by
      rcases le_or_lt (1 / 2) x with h1 | h1 <;> rcases le_or_lt (1 / 2) y with h2 | h2
      · rw [b1 ⟨h1, h2⟩] at hc; exact absurd hc (by decide)
      · exact ⟨h1, h2⟩
      · rw [b2 ⟨h1, h2⟩] at hc; exact absurd hc (by decide)
      · rw [b3 ⟨h1, h2⟩] at hc; exact absurd hc (by decide)
    refine ⟨vertexCell 7 data.quadrants.q4 wmStyle (.fin 400) (.fin 400) (.fin 300) (.fin 300),
      ⟨400, 400, 300, 300⟩, by rw [shapes_frame now data 5 (by decide)]; rfl, rfl, rfl, ?_⟩
    simp only [Rect.closed]
    refine ⟨?_, ?_, ?_, ?_⟩ <;> linarith [hur hb.1, hvb hb.2]
  · rcases le_or_lt (1 / 2) x with h1 | h1 <;> rcases le_or_lt (1 / 2) y with h2 | h2
    · rw [b1 ⟨h1, h2⟩]; decide
    · rw [b4 ⟨h1, h2⟩]; decide
    · rw [b2 ⟨h1, h2⟩]; decide
    · rw [b3 ⟨h1, h2⟩]; decide
  · refine ⟨vertexCell 3 [] boxStyle (.fin 100) (.fin 100) (.fin 600) (.fin 600),
      ⟨100, 100, 600, 600⟩, by rw [shapes_frame now data 1 (by decide)]; rfl, rfl, ?_⟩
    simp only [Rect.closed]
    refine ⟨?_, ?_, ?_, ?_⟩ <;> linarith

theorem colour_matches_quadrant_cell_witness :
    ((0 : ℚ) ≤ 4 / 5 ∧ (4 / 5 : ℚ) ≤ 1 ∧ (0 : ℚ) ≤ 9 / 10 ∧ (9 / 10 : ℚ) ≤ 1) ∧
    ∃ m u v, (generateDrawioXml [] { defaultData with
        points := [⟨"Alpha".toList, .fin (4 / 5), .fin (9 / 10)⟩] }).shapes[12]? = some m ∧
      cellCentre m = some (u, v) ∧ Rect.closed ⟨100, 100, 600, 600⟩ u v := by
  refine ⟨by norm_num, ?_⟩
  obtain ⟨m, u, v, h1, _, h2, _, _, _, _, _, c, r, h3, h4, h5⟩ :=
    colour_matches_quadrant_cell []
      { defaultData with points := [⟨"Alpha".toList, .fin (4 / 5), .fin (9 / 10)⟩] } 0
      ⟨"Alpha".toList, .fin (4 / 5), .fin (9 / 10)⟩ (4 / 5) (9 / 10) rfl rfl rfl
      (by norm_num) (by norm_num)
  refine ⟨m, u, v, h1, h2, ?_⟩
  rw [shapes_frame _ _ 1 (by decide)] at h3
  have hc : c = vertexCell 3 [] boxStyle (.fin 100) (.fin 100) (.fin 600) (.fin 600) := by
    have : (frameShapes { defaultData with
        points := [⟨"Alpha".toList, .fin (4 / 5), .fin (9 / 10)⟩] })[1]?
      = some (vertexCell 3 [] boxStyle (.fin 100) (.fin 100) (.fin 600) (.fin 600)) := rfl
    rw [this] at h3
    exact (Option.some.inj h3).symm
  rw [hc] at h4
  have hr : r = ⟨100, 100, 600, 600⟩ := by
    have : cellRect (vertexCell 3 [] boxStyle (.fin 100) (.fin 100) (.fin 600) (.fin 600))
      = some ⟨100, 100, 600, 600⟩ := rfl
    rw [this] at h4
    exact (Option.some.inj h4).symm
  rw [← hr]
  exact h5

/-! ## One rule per line -/

/-- Which rule handles a line, and what it does: the rules are tried in order
and the first whose token starts the line is the only one applied. -/
theorem processLine_classify (d : ChartData) (line : Str) :
    (startsWith line "%%".toList = true ∧ processLine d line = d) ∨
    (startsWith line "title".toList = true ∧
      processLine d line = { d with title := trim (replaceFirst "title".toList [] line) }) ∨
    (startsWith line "x-axis".toList = true ∧
      processLine d line =
        match split (replaceFirst "x-axis".toList [] line) "-->".toList with
        | [p0, p1] => { d with xAxis := { left := trim p0, right := trim p1 } }
        | _ => d) ∨
    (startsWith line "y-axis".toList = true ∧
      processLine d line =
        match split (replaceFirst "y-axis".toList [] line) "-->".toList with
        | [p0, p1] => { d with yAxis := { bottom := trim p0, top := trim p1 } }
        | _ => d) ∨
    (startsWith line "quadrant-1".toList = true ∧
      processLine d line = { d with quadrants :=
        { d.quadrants with q1 := trim (replaceFirst "quadrant-1".toList [] line) } }) ∨
    (startsWith line "quadrant-2".toList = true ∧
      processLine d line = { d with quadrants :=
        { d.quadrants with q2 := trim (replaceFirst "quadrant-2".toList [] line) } }) ∨
    (startsWith line "quadrant-3".toList = true ∧
      processLine d line = { d with quadrants :=
        { d.quadrants with q3 := trim (replaceFirst "quadrant-3".toList [] line) } }) ∨
    (startsWith line "quadrant-4".toList = true ∧
      processLine d line = { d with quadrants :=
        { d.quadrants with q4 := trim (replaceFirst "quadrant-4".toList [] line) } }) ∨
    (noReservedPrefix line = true ∧
      (processLine d line = d ∨
        ∃ p, processLine d line = { d with points := d.points ++ [p] })) := by
  by_cases h0 : startsWith line "%%".toList = true
  · exact Or.inl ⟨h0, processLine_comment _ _ h0⟩
  by_cases h1 : startsWith line "title".toList = true
  · exact Or.inr (Or.inl ⟨h1, processLine_title _ _ h0 h1⟩)
  by_cases h2 : startsWith line "x-axis".toList = true
  · exact Or.inr (Or.inr (Or.inl ⟨h2, processLine_xAxis _ _ h0 h1 h2⟩))
  by_cases h3 : startsWith line "y-axis".toList = true
  · exact Or.inr (Or.inr (Or.inr (Or.inl ⟨h3, processLine_yAxis _ _ h0 h1 h2 h3⟩)))
  by_cases h4 : startsWith line "quadrant-1".toList = true
  · exact Or.inr (Or.inr (Or.inr (Or.inr (Or.inl ⟨h4, processLine_q1 _ _ h0 h1 h2 h3 h4⟩))))
  by_cases h5 : startsWith line "quadrant-2".toList = true
  · exact Or.inr (Or.inr (Or.inr (Or.inr (Or.inr (Or.inl
      ⟨h5, processLine_q2 _ _ h0 h1 h2 h3 h4 h5⟩)))))
  by_cases h6 : startsWith line "quadrant-3".toList = true
  · exact Or.inr (Or.inr (Or.inr (Or.inr (Or.inr (Or.inr (Or.inl
      ⟨h6, processLine_q3 _ _ h0 h1 h2 h3 h4 h5 h6⟩))))))
  by_cases h7 : startsWith line "quadrant-4".toList = true
  · exact Or.inr (Or.inr (Or.inr (Or.inr (Or.inr (Or.inr (Or.inr (Or.inl
      ⟨h7, processLine_q4 _ _ h0 h1 h2 h3 h4 h5 h6 h7⟩)))))))
  have hp : noReservedPrefix line = true :=
    (noReservedPrefix_iff line).2 ⟨h0, h1, h2, h3, h4, h5, h6, h7⟩
  refine Or.inr (Or.inr (Or.inr (Or.inr (Or.inr (Or.inr (Or.inr (Or.inr ⟨hp, ?_⟩)))))))
  rw [processLine_dataRule _ _ hp]
  split
  · cases regexExec line with
    | none => exact Or.inl rfl
    | some m =>
      obtain ⟨g1, g2, g3⟩ := m
      exact Or.inr ⟨_, rfl⟩
  · exact Or.inl rfl

/-- C17: first matching directive wins and a line updates at most one part of
the model.  Processing one line leaves the model as it is, or changes exactly
one of title, xAxis, yAxis, q1, q2, q3, q4, or appends one point.  A line that
starts with a directive token and also looks like a data point is consumed by
the directive and appends no point. -/
theorem one_line_one_part (d : ChartData) (line : Str) :
    (processLine d line = d ∨
      (∃ t, processLine d line = { d with title := t }) ∨
      (∃ a, processLine d line = { d with xAxis := a }) ∨
      (∃ a, processLine d line = { d with yAxis := a }) ∨
      (∃ t, processLine d line = { d with quadrants := { d.quadrants with q1 := t } }) ∨
      (∃ t, processLine d line = { d with quadrants := { d.quadrants with q2 := t } }) ∨
      (∃ t, processLine d line = { d with quadrants := { d.quadrants with q3 := t } }) ∨
      (∃ t, processLine d line = { d with quadrants := { d.quadrants with q4 := t } }) ∨
      (∃ p, processLine d line = { d with points := d.points ++ [p] })) ∧
    processLine d "title: [0.5, 0.5]".toList = { d with title := ": [0.5, 0.5]".toList } ∧
    processLine d "x-axis foo: [0.1, 0.2]".toList = d ∧
    (parseMermaid "title: [0.5, 0.5]".toList).points = [] ∧
    (parseMermaid "x-axis foo: [0.1, 0.2]".toList).points = [] := by
  refine ⟨?_, ?_, ?_, by decide, by decide⟩
  · rcases processLine_classify d line with h | h | h | h | h | h | h | h | h
    · exact Or.inl h.2
    · exact Or.inr (Or.inl ⟨_, h.2⟩)
    · rw [h.2]
      split
      · exact Or.inr (Or.inr (Or.inl ⟨_, rfl⟩))
      · exact Or.inl rfl
    · rw [h.2]
      split
      · exact Or.inr (Or.inr (Or.inr (Or.inl ⟨_, rfl⟩)))
      · exact Or.inl rfl
    · exact Or.inr (Or.inr (Or.inr (Or.inr (Or.inl ⟨_, h.2⟩))))
    · exact Or.inr (Or.inr (Or.inr (Or.inr (Or.inr (Or.inl ⟨_, h.2⟩)))))
    · exact Or.inr (Or.inr (Or.inr (Or.inr (Or.inr (Or.inr (Or.inl ⟨_, h.2⟩))))))
    · exact Or.inr (Or.inr (Or.inr (Or.inr (Or.inr (Or.inr (Or.inr (Or.inl ⟨_, h.2⟩)))))))
    · rcases h.2 with h' | h'
      · exact Or.inl h'
      · exact Or.inr (Or.inr (Or.inr (Or.inr (Or.inr (Or.inr (Or.inr (Or.inr h')))))))
  · exact title_line d ": [0.5, 0.5]".toList
  · have e : "x-axis foo: [0.1, 0.2]".toList = "x-axis".toList ++ " foo: [0.1, 0.2]".toList := rfl
    rw [e, xAxis_line]
    split
    · next p0 p1 he => exact absurd he (split_arrow_not_two _ (by decide) p0 p1)
    · rfl

/-! ## Fields a line leaves alone -/

theorem foldl_processLine_field {α : Type} (f : ChartData → α) (ls : List Str)
    (d : ChartData) (h : ∀ l ∈ ls, ∀ e, f (processLine e l) = f e) :
    f (ls.foldl processLine d) = f d := by
  induction ls generalizing d with
  | nil => rfl
  | cons l ls ih =>
    rw [List.foldl_cons, ih _ fun l' hl' => h l' (List.mem_cons_of_mem _ hl'),
      h l (List.mem_cons_self _ _)]

/-- Only a line that starts with `title` changes the title. -/
theorem processLine_title_kept (d : ChartData) (line : Str)
    (h : startsWith line "title".toList = false) : (processLine d line).title = d.title := by
  rcases processLine_classify d line with c | c | c | c | c | c | c | c | c
  · rw [c.2]
  · rw [c.1] at h; exact absurd h (by decide)
  · rw [c.2]; split <;> rfl
  · rw [c.2]; split <;> rfl
  · rw [c.2]
  · rw [c.2]
  · rw [c.2]
  · rw [c.2]
  · rcases c.2 with c' | ⟨p, c'⟩ <;> rw [c']

/-- The quadrant labels a line leaves alone. -/
theorem processLine_quadrant_kept (d : ChartData) (line : Str) :
    (startsWith line "quadrant-1".toList = false →
      (processLine d line).quadrants.q1 = d.quadrants.q1) ∧
    (startsWith line "quadrant-2".toList = false →
      (processLine d line).quadrants.q2 = d.quadrants.q2) ∧
    (startsWith line "quadrant-3".toList = false →
      (processLine d line).quadrants.q3 = d.quadrants.q3) ∧
    (startsWith line "quadrant-4".toList = false →
      (processLine d line).quadrants.q4 = d.quadrants.q4) := by
  rcases processLine_classify d line with c | c | c | c | c | c | c | c | c
  · rw [c.2]; exact ⟨fun _ => rfl, fun _ => rfl, fun _ => rfl, fun _ => rfl⟩
  · rw [c.2]; exact ⟨fun _ => rfl, fun _ => rfl, fun _ => rfl, fun _ => rfl⟩
  · rw [c.2]; split <;> exact ⟨fun _ => rfl, fun _ => rfl, fun _ => rfl, fun _ => rfl⟩
  · rw [c.2]; split <;> exact ⟨fun _ => rfl, fun _ => rfl, fun _ => rfl, fun _ => rfl⟩
  · rw [c.2]
    exact ⟨fun h => by rw [c.1] at h; exact absurd h (by decide), fun _ => rfl, fun _ => rfl,
      fun _ => rfl⟩
  · rw [c.2]
    exact ⟨fun _ => rfl, fun h => by rw [c.1] at h; exact absurd h (by decide), fun _ => rfl,
      fun _ => rfl⟩
  · rw [c.2]
    exact ⟨fun _ => rfl, fun _ => rfl, fun h => by rw [c.1] at h; exact absurd h (by decide),
      fun _ => rfl⟩
  · rw [c.2]
    exact ⟨fun _ => rfl, fun _ => rfl, fun _ => rfl,
      fun h => by rw [c.1] at h; exact absurd h (by decide)⟩
  · rcases c.2 with c' | ⟨p, c'⟩ <;> rw [c'] <;>
      exact ⟨fun _ => rfl, fun _ => rfl, fun _ => rfl, fun _ => rfl⟩

theorem startsWith_form (line tok : Str) (h : startsWith line tok = true) :
    ∃ rest, line = tok ++ rest := by
  unfold startsWith at h
  rw [List.isPrefixOf_iff_prefix] at h
  obtain ⟨r, hr⟩ := h
  exact ⟨r, hr.symm⟩

/-- Only a well-formed `x-axis` line changes the x-axis labels. -/
theorem processLine_xAxis_kept (d : ChartData) (line : Str)
    (h : ∀ rest, line = "x-axis".toList ++ rest → countOcc "-->".toList rest ≠ 1) :
    (processLine d line).xAxis = d.xAxis := by
  rcases processLine_classify d line with c | c | c | c | c | c | c | c | c
  · rw [c.2]
  · rw [c.2]
  · obtain ⟨rest, hr⟩ := startsWith_form _ _ c.1
    rw [hr, xAxis_line]
    split
    · next p0 p1 he => exact absurd he (split_arrow_not_two _ (h rest hr) p0 p1)
    · rfl
  · rw [c.2]; split <;> rfl
  · rw [c.2]
  · rw [c.2]
  · rw [c.2]
  · rw [c.2]
  · rcases c.2 with c' | ⟨p, c'⟩ <;> rw [c']

/-- Only a well-formed `y-axis` line changes the y-axis labels. -/
theorem processLine_yAxis_kept (d : ChartData) (line : Str)
    (h : ∀ rest, line = "y-axis".toList ++ rest → countOcc "-->".toList rest ≠ 1) :
    (processLine d line).yAxis = d.yAxis := by
  rcases processLine_classify d line with c | c | c | c | c | c | c | c | c
  · rw [c.2]
  · rw [c.2]
  · rw [c.2]; split <;> rfl
  · obtain ⟨rest, hr⟩ := startsWith_form _ _ c.1
    rw [hr, yAxis_line]
    split
    · next p0 p1 he => exact absurd he (split_arrow_not_two _ (h rest hr) p0 p1)
    · rfl
  · rw [c.2]
  · rw [c.2]
  · rw [c.2]
  · rw [c.2]
  · rcases c.2 with c' | ⟨p, c'⟩ <;> rw [c']

/-- The model after a text whose line `L` trims to the non-empty `T`: the
lines before give some model, `T` is processed on it, and the lines after are
folded over the result. -/
theorem parseMermaid_around (xs ys : List Str) (L : Str) (hnl : '\n' ∉ L)
    (hne : trim L ≠ []) :
    ∃ d0, parseMermaid (joinLines (xs ++ L :: ys)) =
      (sourceLines (joinLines ys)).foldl processLine (processLine d0 (trim L)) := by
  refine ⟨(xs.flatMap sourceLines).foldl processLine defaultData, ?_⟩
  rw [parseMermaid_eq_foldl, sourceLines_joinLines, sourceLines_joinLines,
    List.flatMap_append, List.flatMap_cons, List.foldl_append, List.foldl_append,
    sourceLines_single L hnl]
  cases ht : trim L with
  | nil => exact absurd ht hne
  | cons c r => rfl

/-- C18: last occurrence wins.  If the line `L` is a title line and no later
line is one, the parsed title is the trimmed text that follows the token on
`L`, whatever the other lines are; the same holds for each `quadrant-k` token
and for well-formed axis lines (separator exactly once), later malformed axis
lines being without effect. -/
theorem last_occurrence_wins (xs ys : List Str) (L rest b a : Str) (hnl : '\n' ∉ L) :
    (trim L = "title".toList ++ rest →
      (∀ l ∈ sourceLines (joinLines ys), startsWith l "title".toList = false) →
      (parseMermaid (joinLines (xs ++ L :: ys))).title = trim rest) ∧
    (trim L = "quadrant-1".toList ++ rest →
      (∀ l ∈ sourceLines (joinLines ys), startsWith l "quadrant-1".toList = false) →
      (parseMermaid (joinLines (xs ++ L :: ys))).quadrants.q1 = trim rest) ∧
    (trim L = "quadrant-2".toList ++ rest →
      (∀ l ∈ sourceLines (joinLines ys), startsWith l "quadrant-2".toList = false) →
      (parseMermaid (joinLines (xs ++ L :: ys))).quadrants.q2 = trim rest) ∧
    (trim L = "quadrant-3".toList ++ rest →
      (∀ l ∈ sourceLines (joinLines ys), startsWith l "quadrant-3".toList = false) →
      (parseMermaid (joinLines (xs ++ L :: ys))).quadrants.q3 = trim rest) ∧
    (trim L = "quadrant-4".toList ++ rest →
      (∀ l ∈ sourceLines (joinLines ys), startsWith l "quadrant-4".toList = false) →
      (parseMermaid (joinLines (xs ++ L :: ys))).quadrants.q4 = trim rest) ∧
    (trim L = "x-axis".toList ++ (b ++ "-->".toList ++ a) →
      countOcc "-->".toList (b ++ "-->".toList ++ a) = 1 →
      (∀ l ∈ sourceLines (joinLines ys), ∀ r, l = "x-axis".toList ++ r →
        countOcc "-->".toList r ≠ 1) →
      (parseMermaid (joinLines (xs ++ L :: ys))).xAxis = { left := trim b, right := trim a }) ∧
    (trim L = "y-axis".toList ++ (b ++ "-->".toList ++ a) →
      countOcc "-->".toList (b ++ "-->".toList ++ a) = 1 →
      (∀ l ∈ sourceLines (joinLines ys), ∀ r, l = "y-axis".toList ++ r →
        countOcc "-->".toList r ≠ 1) →
      (parseMermaid (joinLines (xs ++ L :: ys))).yAxis = { bottom := trim b, top := trim a }) := by
  refine ⟨?_, ?_, ?_, ?_, ?_, ?_, ?_⟩
  · intro hL hlater
    obtain ⟨d0, hd⟩ := parseMermaid_around xs ys L hnl (by rw [hL]; simp)
    rw [hd, foldl_processLine_field ChartData.title _ _
      fun l hl e => processLine_title_kept e l (hlater l hl), hL, title_line]
  · intro hL hlater
    obtain ⟨d0, hd⟩ := parseMermaid_around xs ys L hnl (by rw [hL]; simp)
    rw [hd, foldl_processLine_field (fun d => d.quadrants.q1) _ _
      fun l hl e => (processLine_quadrant_kept e l).1 (hlater l hl), hL, (quadrant_line _ _).1]
  · intro hL hlater
    obtain ⟨d0, hd⟩ := parseMermaid_around xs ys L hnl (by rw [hL]; simp)
    rw [hd, foldl_processLine_field (fun d => d.quadrants.q2) _ _
      fun l hl e => (processLine_quadrant_kept e l).2.1 (hlater l hl), hL,
      (quadrant_line _ _).2.1]
  · intro hL hlater
    obtain ⟨d0, hd⟩ := parseMermaid_around xs ys L hnl (by rw [hL]; simp)
    rw [hd, foldl_processLine_field (fun d => d.quadrants.q3) _ _
      fun l hl e => (processLine_quadrant_kept e l).2.2.1 (hlater l hl), hL,
      (quadrant_line _ _).2.2.1]
  · intro hL hlater
    obtain ⟨d0, hd⟩ := parseMermaid_around xs ys L hnl (by rw [hL]; simp)
    rw [hd, foldl_processLine_field (fun d => d.quadrants.q4) _ _
      fun l hl e => (processLine_quadrant_kept e l).2.2.2 (hlater l hl), hL,
      (quadrant_line _ _).2.2.2]
  · intro hL hc hlater
    obtain ⟨d0, hd⟩ := parseMermaid_around xs ys L hnl (by rw [hL]; simp)
    rw [hd, foldl_processLine_field ChartData.xAxis _ _
      fun l hl e => processLine_xAxis_kept e l (hlater l hl), hL, xAxis_line,
      split_arrow_once _ _ hc]
  · intro hL hc hlater
    obtain ⟨d0, hd⟩ := parseMermaid_around xs ys L hnl (by rw [hL]; simp)
    rw [hd, foldl_processLine_field ChartData.yAxis _ _
      fun l hl e => processLine_yAxis_kept e l (hlater l hl), hL, yAxis_line,
      split_arrow_once _ _ hc]

theorem last_occurrence_wins_witness :
    ('\n' ∉ "  title Second ".toList ∧
      trim "  title Second ".toList = "title".toList ++ " Second".toList ∧
      ∀ l ∈ sourceLines (joinLines ["quadrant-1 Q".toList, "A: [0.1, 0.2]".toList]),
        startsWith l "title".toList = false) ∧
    (parseMermaid (joinLines (["title First".toList, "x-axis a --> b".toList] ++
      "  title Second ".toList :: ["quadrant-1 Q".toList, "A: [0.1, 0.2]".toList]))).title
      = "Second".toList :=
  ⟨by decide,
   (last_occurrence_wins ["title First".toList, "x-axis a --> b".toList]
      ["quadrant-1 Q".toList, "A: [0.1, 0.2]".toList] "  title Second ".toList
      " Second".toList [] [] (by decide)).1 (by decide) (by decide)⟩

/-! ## Indentation and blank lines -/

theorem dropWhile_append_all (p : Char → Bool) (a s : Str) (ha : ∀ c ∈ a, p c = true) :
    (a ++ s).dropWhile p = s.dropWhile p := by
  induction a with
  | nil => rfl
  | cons c a ih =>
    rw [List.cons_append, List.dropWhile_cons, if_pos (ha c (List.mem_cons_self _ _)),
      ih fun x hx => ha x (List.mem_cons_of_mem _ hx)]

theorem rdropWhile_append_all (p : Char → Bool) (s b : Str) (hb : ∀ c ∈ b, p c = true) :
    (s ++ b).rdropWhile p = s.rdropWhile p := by
  unfold List.rdropWhile
  rw [List.reverse_append, dropWhile_append_all p _ _ fun c hc => hb c (List.mem_reverse.1 hc)]

/-- White space added around a line disappears when the line is trimmed. -/
theorem trim_padded (a l b : Str) (ha : ∀ c ∈ a, isWhiteSpace c = true)
    (hb : ∀ c ∈ b, isWhiteSpace c = true) : trim (a ++ l ++ b) = trim l := by
  unfold trim
  rw [List.append_assoc, dropWhile_append_all _ _ _ ha, List.dropWhile_append]
  split
  · next he =>
    have h1 : l.dropWhile isWhiteSpace = [] := List.isEmpty_iff.1 he
    rw [h1, (takeWhile_all isWhiteSpace b hb).2]
  · rw [rdropWhile_append_all _ _ _ hb]

theorem isPadding_iff (s : Str) (h : isPadding s = true) :
    (∀ c ∈ s, isWhiteSpace c = true) ∧ '\n' ∉ s := by
  unfold isPadding at h
  simp only [List.all_eq_true, Bool.and_eq_true, bne_iff_ne, ne_eq] at h
  exact ⟨fun c hc => (h c hc).1, fun hc => (h _ hc).2 rfl⟩

theorem trim_padding (w : Str) (h : ∀ c ∈ w, isWhiteSpace c = true) : trim w = [] := by
  unfold trim
  rw [(takeWhile_all isWhiteSpace w h).2]
  rfl

/-- C19: parsing is insensitive to indentation and blank lines.  White space
(spaces, tabs) added or removed at the start or the end of a line, and blank
lines inserted or deleted anywhere, leave the parsed model unchanged. -/
theorem indentation_and_blank_lines (xs ys : List Str) (l a b w : Str) (hl : '\n' ∉ l)
    (ha : isPadding a = true) (hb : isPadding b = true) (hw : isPadding w = true) :
    parseMermaid (joinLines (xs ++ (a ++ l ++ b) :: ys))
      = parseMermaid (joinLines (xs ++ l :: ys)) ∧
    parseMermaid (joinLines (xs ++ w :: ys)) = parseMermaid (joinLines (xs ++ ys)) := by
  obtain ⟨ha1, ha2⟩ := isPadding_iff a ha
  obtain ⟨hb1, hb2⟩ := isPadding_iff b hb
  obtain ⟨hw1, hw2⟩ := isPadding_iff w hw
  constructor
  · have hnl : '\n' ∉ a ++ l ++ b := by
      intro hm
      rcases List.mem_append.1 hm with hm | hm
      · rcases List.mem_append.1 hm with hm | hm
        · exact ha2 hm
        · exact hl hm
      · exact hb2 hm
    have hs : sourceLines (a ++ l ++ b) = sourceLines l := by
      rw [sourceLines_single _ hnl, sourceLines_single _ hl, trim_padded a l b ha1 hb1]
    rw [parseMermaid_eq_foldl, parseMermaid_eq_foldl, sourceLines_joinLines,
      sourceLines_joinLines, List.flatMap_append, List.flatMap_append, List.flatMap_cons,
      List.flatMap_cons, hs]
  · apply parseMermaid_insert_ignored xs ys w hw2
    intro e
    rw [trim_padding w hw1]
    rfl

theorem indentation_and_blank_lines_witness :
    ('\n' ∉ "title T".toList ∧ isPadding " \t ".toList = true ∧ isPadding "  ".toList = true ∧
      isPadding "\t".toList = true) ∧
    parseMermaid "A: [0.1, 0.2]\n \t title T  \nquadrant-1 Q".toList
      = parseMermaid "A: [0.1, 0.2]\ntitle T\nquadrant-1 Q".toList ∧
    parseMermaid "A: [0.1, 0.2]\n\t\nquadrant-1 Q".toList
      = parseMermaid "A: [0.1, 0.2]\nquadrant-1 Q".toList :=
  ⟨by decide,
   (indentation_and_blank_lines ["A: [0.1, 0.2]".toList] ["quadrant-1 Q".toList]
      "title T".toList " \t ".toList "  ".toList "\t".toList (by decide) (by decide)
      (by decide) (by decide)).1,
   (indentation_and_blank_lines ["A: [0.1, 0.2]".toList] ["quadrant-1 Q".toList]
      "title T".toList " \t ".toList "  ".toList "\t".toList (by decide) (by decide)
      (by decide) (by decide)).2⟩

end QuadrantChart
